import Mathlib

/-!
Verification development for the `claude-flow-csp` discovery core.

The TypeScript sources under `v3/@claude-flow-csp/` are shallowly embedded:

* JavaScript numbers are modelled by exact rationals (`JsRat`, an integer
  numerator over a positive natural denominator).  All arithmetic performed
  by the discovery core (Mulberry32 PRNG draws, `toFixed(4)` rounding,
  clamping, threshold comparisons) is exact on the dyadic/decimal rationals
  it actually produces, so the rational model coincides with IEEE-754
  evaluation except within rounding distances never reached by these values.
* Mutable objects become explicit state threading: the stub tool client's
  PRNG state is a `Nat` (the 32-bit Mulberry32 state), the run directory on
  disk is a `WorkspaceFs` value, and the workflow functions return
  `Except String` results together with the updated state, mirroring
  JavaScript exception propagation.
* `Record<string, T>` objects become insertion-ordered association lists
  (`Rec T`) with JavaScript update semantics: assigning to an existing key
  overwrites in place, a fresh key is appended.  The keys used by the core
  (candidate ids, check names) are never array indices, for which JavaScript
  objects would reorder keys.
* `Array.prototype.sort(cmp)` (ES2019+: stable) is modelled by sorting the
  index-tagged list by the lexicographic order (comparator order, original
  index); for a consistent comparator this is exactly the unique
  sorted-and-stable permutation mandated by the ECMAScript specification.
* `JSON.stringify` / `JSON.parse` / SHA-256 are modelled directly from their
  specifications (ECMA-262 / ECMA-404 / FIPS 180-4): numbers print in plain
  decimal notation (the core never serializes magnitudes that JavaScript
  would print in exponent form), strings escape the two metacharacters and
  control characters, and SHA-256 is implemented over the UTF-8 bytes.
-/

/-! ## Exact rationals modelling JavaScript numbers -/

/-- A JavaScript number modelled as an exact fraction with positive
denominator.  Not kept in lowest terms; value-level comparisons go through
cross multiplication. -/
structure JsRat where
  num : Int
  den : Nat
  den_pos : 0 < den

instance : DecidableEq JsRat := fun a b =>
  decidable_of_iff (a.num = b.num ∧ a.den = b.den)
    (by cases a; cases b; simp)

def JsRat.ofInt (n : Int) : JsRat := ⟨n, 1, one_pos⟩

instance (n : Nat) : OfNat JsRat n := ⟨⟨n, 1, one_pos⟩⟩

/-- Decimal literals such as `0.85` denote the exact decimal fraction. -/
instance : OfScientific JsRat :=
  ⟨fun m flag e =>
    if flag then ⟨(m : Int), 10 ^ e, Nat.pos_pow_of_pos e (by norm_num)⟩
    else ⟨(m : Int) * 10 ^ e, 1, one_pos⟩⟩

instance : Neg JsRat := ⟨fun q => ⟨-q.num, q.den, q.den_pos⟩⟩

instance : Add JsRat :=
  ⟨fun a b => ⟨a.num * b.den + b.num * a.den, a.den * b.den,
    Nat.mul_pos a.den_pos b.den_pos⟩⟩

instance : Sub JsRat :=
  ⟨fun a b => ⟨a.num * b.den - b.num * a.den, a.den * b.den,
    Nat.mul_pos a.den_pos b.den_pos⟩⟩

instance : Mul JsRat :=
  ⟨fun a b => ⟨a.num * b.num, a.den * b.den, Nat.mul_pos a.den_pos b.den_pos⟩⟩

/-- Value-level order: `a ≤ b` by cross multiplication. -/
def JsRat.le (a b : JsRat) : Prop := a.num * (b.den : Int) ≤ b.num * (a.den : Int)

/-- Value-level strict order. -/
def JsRat.lt (a b : JsRat) : Prop := a.num * (b.den : Int) < b.num * (a.den : Int)

/-- Value-level equality (`1/2` and `2/4` are equivalent but not equal). -/
def JsRat.eqv (a b : JsRat) : Prop := a.num * (b.den : Int) = b.num * (a.den : Int)

instance : DecidableRel JsRat.le := fun a b => by unfold JsRat.le; infer_instance
instance : DecidableRel JsRat.lt := fun a b => by unfold JsRat.lt; infer_instance
instance : DecidableRel JsRat.eqv := fun a b => by unfold JsRat.eqv; infer_instance

/-- The rational number a `JsRat` denotes. -/
def JsRat.toRat (a : JsRat) : ℚ := (a.num : ℚ) / (a.den : ℚ)

/-- `Math.floor`. -/
def JsRat.floor (a : JsRat) : Int := Int.fdiv a.num a.den

/-- `x.toFixed(f)` re-read as a number: round to `f` decimal places, ties
towards `+∞` (the "pick the larger n" rule of ECMA-262 `Number.prototype.toFixed`). -/
def JsRat.toFixed (a : JsRat) (f : Nat) : JsRat :=
  ⟨Int.fdiv (2 * a.num * 10 ^ f + a.den) (2 * a.den), 10 ^ f,
    Nat.pos_pow_of_pos f (by norm_num)⟩

/-- `clamp(value, min = 0, max = 1)` from `core/src/utils.ts`. -/
def clamp (value : JsRat) (lo hi : JsRat) : JsRat :=
  if JsRat.lt value lo then lo else if JsRat.lt hi value then hi else value

/-- JavaScript `x || 0` applied to a possibly-missing number: missing and
(value-level) zero both give the literal `0`. -/
def jsOrZero (x : Option JsRat) : JsRat :=
  match x with
  | none => 0
  | some v => if JsRat.eqv v 0 then 0 else v

/-! ## Seeded PRNG (`core/src/prng.ts`) -/

/-- `2^32`, the Mulberry32 state modulus. -/
def m32 : Nat := 4294967296

/-- UTF-16 code units of a string (JavaScript `charCodeAt` order). -/
def utf16Units (s : String) : List Nat :=
  s.toList.flatMap (fun c =>
    let n := c.toNat
    if n < 0x10000 then [n]
    else [0xd800 + ((n - 0x10000) >>> 10), 0xdc00 + ((n - 0x10000) &&& 0x3ff)])

/-- `normalizeSeed` on an already-integral seed: `Math.trunc` is the
identity, `>>> 0` reduces modulo `2^32`, and zero is coerced to 1. -/
def normalizeSeed (seed : Int) : Nat :=
  let n := (seed.emod (m32 : Int)).toNat
  if n = 0 then 1 else n

/-- `hashStringToSeed`: FNV-1a over the UTF-16 code units, then seed
normalization. -/
def hashStringToSeed (input : String) : Nat :=
  let h := (utf16Units input).foldl
    (fun h u => ((h ^^^ u) * 16777619) % m32) 2166136261
  if h = 0 then 1 else h

/-- `seedFromString` from `core/src/prng.ts`. -/
def seedFromString (value : String) : Nat := hashStringToSeed value

/-- One Mulberry32 step: returns the next state and the drawn value in
`[0, 1)`.  All 32-bit coercions of the source (`Math.imul`, `>>> 0`, `| 1`)
are reductions modulo `2^32` on the bit pattern. -/
def mulberryStep (state : Nat) : Nat × JsRat :=
  let t0 := (state + 0x6d2b79f5) % m32
  let t1 := ((t0 ^^^ (t0 >>> 15)) * (t0 ||| 1)) % m32
  let t2 := t1 ^^^ ((t1 + (((t1 ^^^ (t1 >>> 7)) * (t1 ||| 61)) % m32)) % m32)
  (t2, ⟨((t2 ^^^ (t2 >>> 14)) : Nat), m32, by norm_num [m32]⟩)

/-- `rng.next()`. -/
def rngNext (state : Nat) : Nat × JsRat := mulberryStep state

/-- `rng.nextFloat(min, max)`. -/
def rngNextFloat (state : Nat) (lo hi : JsRat) : Nat × JsRat :=
  let (s, u) := rngNext state
  (s, lo + (hi - lo) * u)

/-- `rng.nextInt(min, max)`. -/
def rngNextInt (state : Nat) (lo hi : Int) : Nat × Int :=
  let lower := min lo hi
  let upper := max lo hi
  let (s, v) := rngNextFloat state (JsRat.ofInt lower) (JsRat.ofInt (upper + 1))
  (s, v.floor)

/-- Lowercase hex digit for `n.toString(16)`, `n < 16`. -/
def hexDigit (n : Nat) : Char :=
  if n < 10 then Char.ofNat (48 + n) else Char.ofNat (87 + n)

/-- `rng.nextHex(length)`. -/
def rngNextHex (state : Nat) (length : Nat) : Nat × String :=
  let step := fun (acc : Nat × List Char) (_ : Nat) =>
    let (s, d) := rngNextInt acc.1 0 15
    (s, acc.2 ++ [hexDigit d.toNat])
  let r := (List.range length).foldl step (state, [])
  (r.1, String.mk r.2)

/-! ## SHA-256 (FIPS 180-4), as used by `sha256Hex` in `core/src/utils.ts` -/

def rotr (n x : Nat) : Nat := ((x >>> n) ||| (x <<< (32 - n))) % m32

def sha256K : List Nat := [
  1116352408, 1899447441, 3049323471, 3921009573, 961987163, 1508970993,
  2453635748, 2870763221, 3624381080, 310598401, 607225278, 1426881987,
  1925078388, 2162078206, 2614888103, 3248222580, 3835390401, 4022224774,
  264347078, 604807628, 770255983, 1249150122, 1555081692, 1996064986,
  2554220882, 2821834349, 2952996808, 3210313671, 3336571891, 3584528711,
  113926993, 338241895, 666307205, 773529912, 1294757372, 1396182291,
  1695183700, 1986661051, 2177026350, 2456956037, 2730485921, 2820302411,
  3259730800, 3345764771, 3516065817, 3600352804, 4094571909, 275423344,
  430227734, 506948616, 659060556, 883997877, 958139571, 1322822218,
  1537002063, 1747873779, 1955562222, 2024104815, 2227730452, 2361852424,
  2428436474, 2756734187, 3204031479, 3329325298]

def sha256Init : List Nat :=
  [1779033703, 3144134277, 1013904242, 2773480762, 1359893119, 2600822924,
   528734635, 1541459225]

def padMessage (msg : List Nat) : List Nat :=
  let len := msg.length
  let bitLen := len * 8
  let padZeros := (55 + 64 - len % 64) % 64
  msg ++ [0x80] ++ List.replicate padZeros 0 ++
    [(bitLen >>> 56) % 256, (bitLen >>> 48) % 256, (bitLen >>> 40) % 256, (bitLen >>> 32) % 256,
     (bitLen >>> 24) % 256, (bitLen >>> 16) % 256, (bitLen >>> 8) % 256, bitLen % 256]

def bytesToWords : List Nat → List Nat
  | a :: b :: c :: d :: rest => (a <<< 24 ||| b <<< 16 ||| c <<< 8 ||| d) :: bytesToWords rest
  | _ => []

def smallSigma0 (x : Nat) : Nat := (rotr 7 x) ^^^ (rotr 18 x) ^^^ (x >>> 3)
def smallSigma1 (x : Nat) : Nat := (rotr 17 x) ^^^ (rotr 19 x) ^^^ (x >>> 10)
def bigSigma0 (x : Nat) : Nat := (rotr 2 x) ^^^ (rotr 13 x) ^^^ (rotr 22 x)
def bigSigma1 (x : Nat) : Nat := (rotr 6 x) ^^^ (rotr 11 x) ^^^ (rotr 25 x)

/-- Message-schedule extension; the schedule is kept reversed so that the
recently produced words are at the head. -/
def extendScheduleRev (wrev : List Nat) : List Nat :=
  (List.range 48).foldl
    (fun acc _ =>
      let wv := (smallSigma1 (acc.getD 1 0) + acc.getD 6 0 +
                 smallSigma0 (acc.getD 14 0) + acc.getD 15 0) % m32
      wv :: acc) wrev

def compressBlock (h : List Nat) (w : List Nat) : List Nat :=
  let ws := (extendScheduleRev w.reverse).reverse
  let step := fun (st : List Nat) (i : Nat) =>
    match st with
    | [a, b, c, d, e, f, g, hh] =>
      let ch := (e &&& f) ^^^ ((m32 - 1 - e) &&& g)
      let t1 := (hh + bigSigma1 e + ch + sha256K.getD i 0 + ws.getD i 0) % m32
      let maj := (a &&& b) ^^^ (a &&& c) ^^^ (b &&& c)
      let t2 := (bigSigma0 a + maj) % m32
      [(t1 + t2) % m32, a, b, c, (d + t1) % m32, e, f, g]
    | st => st
  let res := (List.range 64).foldl step h
  (h.zip res).map (fun p => (p.1 + p.2) % m32)

def sha256Words (msg : List Nat) : List Nat :=
  let padded := padMessage msg
  let nBlocks := padded.length / 64
  (List.range nBlocks).foldl
    (fun h i => compressBlock h (bytesToWords ((padded.drop (i * 64)).take 64)))
    sha256Init

def wordToHex (w : Nat) : List Char :=
  [hexDigit ((w >>> 28) % 16), hexDigit ((w >>> 24) % 16), hexDigit ((w >>> 20) % 16),
   hexDigit ((w >>> 16) % 16), hexDigit ((w >>> 12) % 16), hexDigit ((w >>> 8) % 16),
   hexDigit ((w >>> 4) % 16), hexDigit (w % 16)]

/-- UTF-8 bytes of a string (`crypto.createHash('sha256').update(s)` hashes
the UTF-8 encoding). -/
def utf8Bytes (s : String) : List Nat :=
  s.toList.flatMap (fun c =>
    let n := c.toNat
    if n < 0x80 then [n]
    else if n < 0x800 then [0xc0 ||| (n >>> 6), 0x80 ||| (n &&& 0x3f)]
    else if n < 0x10000 then
      [0xe0 ||| (n >>> 12), 0x80 ||| ((n >>> 6) &&& 0x3f), 0x80 ||| (n &&& 0x3f)]
    else
      [0xf0 ||| (n >>> 18), 0x80 ||| ((n >>> 12) &&& 0x3f), 0x80 ||| ((n >>> 6) &&& 0x3f),
       0x80 ||| (n &&& 0x3f)])

/-- `sha256Hex` from `core/src/utils.ts`: lowercase hex SHA-256 digest. -/
def sha256Hex (s : String) : String :=
  String.mk ((sha256Words (utf8Bytes s)).flatMap wordToHex)

/-! ## JSON values (`stableStringify` operates on JSON-representable data) -/

/-- A JSON-representable JavaScript value. -/
inductive Json where
  | jnull
  | jbool (b : Bool)
  | jnum (q : JsRat)
  | jstr (s : String)
  | jarr (elements : List Json)
  | jobj (members : List (String × Json))

mutual

/-- Size of a JSON value; used as (always-sufficient) fuel for the
fuel-indexed recursions below. -/
def jsize : Json → Nat
  | .jnull => 1
  | .jbool _ => 1
  | .jnum _ => 1
  | .jstr _ => 1
  | .jarr xs => jsizeL xs + 1
  | .jobj kvs => jsizeM kvs + 1

def jsizeL : List Json → Nat
  | [] => 0
  | x :: xs => jsize x + jsizeL xs

def jsizeM : List (String × Json) → Nat
  | [] => 0
  | kv :: rest => jsize kv.2 + jsizeM rest

end

/-- Lexicographic comparison of UTF-16 code-unit sequences: the default
`Array.prototype.sort()` comparator for strings. -/
def u16Le : List Nat → List Nat → Bool
  | [], _ => true
  | _ :: _, [] => false
  | a :: as, b :: bs => if a < b then true else if b < a then false else u16Le as bs

/-- Key order used by `Object.keys(record).sort()`. -/
def jsKeyLe (a b : String × Json) : Prop :=
  u16Le (utf16Units a.1) (utf16Units b.1) = true

instance : DecidableRel jsKeyLe := fun a b => by unfold jsKeyLe; infer_instance

/-- `Object.keys(record).sort()` followed by per-key lookup, represented as a
sort of the (distinct-keyed) member list. -/
def sortMembers (kvs : List (String × Json)) : List (String × Json) :=
  List.insertionSort jsKeyLe kvs

/-- Decimal representation search for serializing a `JsRat`: the least
scale `s ≤ 64` with `num·10^s ≡ 0 (mod den)`, paired with the integer
mantissa.  All numbers the core serializes are decimal fractions of small
scale (scores are `toFixed(4)` outputs, counts are integers), so the
fallback `(0, 0)` is never reached by serialized data. -/
def ratToDecPair (q : JsRat) : Int × Nat :=
  match (List.range 65).find? (fun s => (q.num * 10 ^ s) % (q.den : Int) == 0) with
  | some s => ((q.num * 10 ^ s) / (q.den : Int), s)
  | none => (0, 0)

def digitChar (d : Nat) : Char := Char.ofNat (48 + d)

def natDigitsAuxF : Nat → Nat → List Char → List Char
  | 0, _, acc => acc
  | fuel + 1, n, acc =>
    if n < 10 then digitChar n :: acc
    else natDigitsAuxF fuel (n / 10) (digitChar (n % 10) :: acc)

/-- Decimal digits of a natural number, most significant first. -/
def natDigitsL (n : Nat) : List Char := natDigitsAuxF (n + 1) n []

/-- `JSON.stringify` rendering of a number: plain decimal notation (the
discovery core never serializes magnitudes for which JavaScript would switch
to exponent notation). -/
def renderNumL (q : JsRat) : List Char :=
  let p := ratToDecPair q
  if p.1 = 0 then ['0']
  else
    let sign : List Char := if p.1 < 0 then ['-'] else []
    let ds := natDigitsL p.1.natAbs
    if p.2 = 0 then sign ++ ds
    else
      let padded := List.replicate (p.2 + 1 - ds.length) '0' ++ ds
      sign ++ (padded.take (padded.length - p.2)) ++ '.' :: (padded.drop (padded.length - p.2))

/-- `JSON.stringify` escaping of one character. -/
def escapeChar (c : Char) : List Char :=
  if c = '"' then ['\\', '"']
  else if c = '\\' then ['\\', '\\']
  else if c = '\x08' then ['\\', 'b']
  else if c = '\x0c' then ['\\', 'f']
  else if c = '\n' then ['\\', 'n']
  else if c = '\r' then ['\\', 'r']
  else if c = '\t' then ['\\', 't']
  else if c.toNat < 0x20 then
    ['\\', 'u', '0', '0', hexDigit (c.toNat / 16), hexDigit (c.toNat % 16)]
  else [c]

/-- `JSON.stringify` rendering of a string. -/
def renderStrL (s : String) : List Char :=
  '"' :: (s.toList.flatMap escapeChar ++ ['"'])

/-- Comma-join a list of rendered fragments. -/
def joinComma : List (List Char) → List Char
  | [] => []
  | [x] => x
  | x :: xs => x ++ ',' :: joinComma xs

/-- `stableStringify` from `core/src/utils.ts` (fuel-indexed recursion; any
fuel at least `sizeOf j` gives the stable value): arrays preserve order,
object keys are serialized in sorted order. -/
def ssA : Nat → Json → List Char
  | _, .jnull => ['n', 'u', 'l', 'l']
  | _, .jbool b => if b then ['t', 'r', 'u', 'e'] else ['f', 'a', 'l', 's', 'e']
  | _, .jnum q => renderNumL q
  | _, .jstr s => renderStrL s
  | 0, .jarr _ => []
  | 0, .jobj _ => []
  | f + 1, .jarr xs => '[' :: (joinComma (xs.map (ssA f)) ++ [']'])
  | f + 1, .jobj kvs =>
    '\x7b' :: (joinComma ((sortMembers kvs).map
      (fun kv => renderStrL kv.1 ++ ':' :: ssA f kv.2)) ++ ['\x7d'])

/-- `stableStringify`: canonical serialization with sorted keys. -/
def stableStringify (j : Json) : String := String.mk (ssA (jsize j) j)

/-- Plain `JSON.stringify` (insertion order, no sorting); used for event-log
lines and CLI output. -/
def plainA : Nat → Json → List Char
  | _, .jnull => ['n', 'u', 'l', 'l']
  | _, .jbool b => if b then ['t', 'r', 'u', 'e'] else ['f', 'a', 'l', 's', 'e']
  | _, .jnum q => renderNumL q
  | _, .jstr s => renderStrL s
  | 0, .jarr _ => []
  | 0, .jobj _ => []
  | f + 1, .jarr xs => '[' :: (joinComma (xs.map (plainA f)) ++ [']'])
  | f + 1, .jobj kvs =>
    '\x7b' :: (joinComma (kvs.map
      (fun kv => renderStrL kv.1 ++ ':' :: plainA f kv.2)) ++ ['\x7d'])

def plainStringify (j : Json) : String := String.mk (plainA (jsize j) j)

/-- The number value `JSON.parse` reads back from the canonical rendering. -/
def canonNum (q : JsRat) : JsRat :=
  let p := ratToDecPair q
  ⟨p.1, 10 ^ p.2, Nat.pos_pow_of_pos p.2 (by norm_num)⟩

/-- Canonicalization: the value `JSON.parse (stableStringify j)` denotes —
numbers in serialized-decimal form, object members sorted by key at every
depth, arrays untouched. -/
def canonA : Nat → Json → Json
  | _, .jnull => .jnull
  | _, .jbool b => .jbool b
  | _, .jnum q => .jnum (canonNum q)
  | _, .jstr s => .jstr s
  | 0, j => j
  | f + 1, .jarr xs => .jarr (xs.map (canonA f))
  | f + 1, .jobj kvs =>
    .jobj (sortMembers (kvs.map (fun kv => (kv.1, canonA f kv.2))))

def canon (j : Json) : Json := canonA (jsize j) j

/-! ## JSON parsing (a model of `JSON.parse`, restricted to the
exponent-free number grammar that canonical output uses) -/

def isDigitCh (c : Char) : Bool := 48 ≤ c.toNat && c.toNat ≤ 57

def isWsCh (c : Char) : Bool := c = ' ' || c = '\n' || c = '\t' || c = '\r'

def skipWs : List Char → List Char
  | c :: rest => if isWsCh c then skipWs rest else c :: rest
  | [] => []

def takeDigits : List Char → List Char × List Char
  | c :: rest =>
    if isDigitCh c then
      let p := takeDigits rest
      (c :: p.1, p.2)
    else ([], c :: rest)
  | [] => ([], [])

def digitsToNat (ds : List Char) : Nat :=
  ds.foldl (fun a c => a * 10 + (c.toNat - 48)) 0

def parseNum (cs : List Char) : Except String (JsRat × List Char) :=
  let sp : Bool × List Char := match cs with
    | '-' :: rest => (true, rest)
    | _ => (false, cs)
  match takeDigits sp.2 with
  | ([], _) => .error "invalid number"
  | (d :: ds, rest) =>
    match rest with
    | '.' :: rest2 =>
      (match takeDigits rest2 with
       | ([], _) => .error "invalid number"
       | (f :: fs, rest3) =>
         let m : Int := (digitsToNat ((d :: ds) ++ (f :: fs)) : Int)
         .ok (⟨if sp.1 then -m else m, 10 ^ (f :: fs).length,
               Nat.pos_pow_of_pos _ (by norm_num)⟩, rest3))
    | _ =>
      .ok (⟨if sp.1 then -(digitsToNat (d :: ds) : Int) else (digitsToNat (d :: ds) : Int),
            1, one_pos⟩, rest)

def hexVal (c : Char) : Option Nat :=
  if 48 ≤ c.toNat ∧ c.toNat ≤ 57 then some (c.toNat - 48)
  else if 97 ≤ c.toNat ∧ c.toNat ≤ 102 then some (c.toNat - 87)
  else if 65 ≤ c.toNat ∧ c.toNat ≤ 70 then some (c.toNat - 55)
  else none

def parseStrBody : List Char → List Char → Except String (String × List Char)
  | _, [] => .error "unterminated string"
  | acc, '"' :: rest => .ok (String.mk acc, rest)
  | acc, '\\' :: rest =>
    match rest with
    | [] => .error "unterminated escape"
    | 'u' :: h1 :: h2 :: h3 :: h4 :: rest2 =>
      match hexVal h1, hexVal h2, hexVal h3, hexVal h4 with
      | some a, some b, some c, some d =>
        let n := ((a * 16 + b) * 16 + c) * 16 + d
        if h : n.isValidChar then parseStrBody (acc ++ [Char.ofNatAux n h]) rest2
        else .error "invalid unicode escape"
      | _, _, _, _ => .error "invalid unicode escape"
    | e :: rest2 =>
      if e = '"' then parseStrBody (acc ++ ['"']) rest2
      else if e = '\\' then parseStrBody (acc ++ ['\\']) rest2
      else if e = '/' then parseStrBody (acc ++ ['/']) rest2
      else if e = 'b' then parseStrBody (acc ++ ['\x08']) rest2
      else if e = 'f' then parseStrBody (acc ++ ['\x0c']) rest2
      else if e = 'n' then parseStrBody (acc ++ ['\n']) rest2
      else if e = 'r' then parseStrBody (acc ++ ['\r']) rest2
      else if e = 't' then parseStrBody (acc ++ ['\t']) rest2
      else .error "invalid escape"
  | acc, c :: rest => parseStrBody (acc ++ [c]) rest

mutual

def parseVal : Nat → List Char → Except String (Json × List Char)
  | 0, _ => .error "input too deeply nested"
  | f + 1, cs =>
    match skipWs cs with
    | [] => .error "unexpected end of input"
    | 'n' :: 'u' :: 'l' :: 'l' :: rest => .ok (.jnull, rest)
    | 't' :: 'r' :: 'u' :: 'e' :: rest => .ok (.jbool true, rest)
    | 'f' :: 'a' :: 'l' :: 's' :: 'e' :: rest => .ok (.jbool false, rest)
    | '"' :: rest =>
      (match parseStrBody [] rest with
       | .ok (s, rest2) => .ok (.jstr s, rest2)
       | .error e => .error e)
    | '[' :: rest =>
      (match skipWs rest with
       | ']' :: rest2 => .ok (.jarr [], rest2)
       | _ => match parseElems f rest with
              | .ok (xs, rest2) => .ok (.jarr xs, rest2)
              | .error e => .error e)
    | '\x7b' :: rest =>
      (match skipWs rest with
       | '\x7d' :: rest2 => .ok (.jobj [], rest2)
       | _ => match parseMembers f rest with
              | .ok (kvs, rest2) => .ok (.jobj kvs, rest2)
              | .error e => .error e)
    | cs2 =>
      (match parseNum cs2 with
       | .ok (q, rest) => .ok (.jnum q, rest)
       | .error e => .error e)

def parseElems : Nat → List Char → Except String (List Json × List Char)
  | 0, _ => .error "input too deeply nested"
  | f + 1, cs =>
    match parseVal f cs with
    | .error e => .error e
    | .ok (v, rest) =>
      match skipWs rest with
      | ',' :: rest2 =>
        (match parseElems f rest2 with
         | .ok (xs, rest3) => .ok (v :: xs, rest3)
         | .error e => .error e)
      | ']' :: rest2 => .ok ([v], rest2)
      | _ => .error "expected comma or closing bracket"

def parseMembers : Nat → List Char → Except String (List (String × Json) × List Char)
  | 0, _ => .error "input too deeply nested"
  | f + 1, cs =>
    match skipWs cs with
    | '"' :: rest =>
      (match parseStrBody [] rest with
       | .error e => .error e
       | .ok (k, rest2) =>
         match skipWs rest2 with
         | ':' :: rest3 =>
           (match parseVal f rest3 with
            | .error e => .error e
            | .ok (v, rest4) =>
              match skipWs rest4 with
              | ',' :: rest5 =>
                (match parseMembers f rest5 with
                 | .ok (kvs, rest6) => .ok ((k, v) :: kvs, rest6)
                 | .error e => .error e)
              | '\x7d' :: rest5 => .ok ([(k, v)], rest5)
              | _ => .error "expected comma or closing brace")
         | _ => .error "expected colon")
    | _ => .error "expected string key"

end

/-- `JSON.parse` (on the exponent-free grammar). -/
def jsonParse (s : String) : Except String Json :=
  match parseVal (s.length + 1) s.toList with
  | .ok (j, rest) =>
    if (skipWs rest).isEmpty then .ok j else .error "unexpected trailing characters"
  | .error e => .error e

/-! ## JavaScript records: insertion-ordered association lists -/

/-- `record[key]` (for the non-array-index keys used by the core). -/
def recGet {α : Type} (r : List (String × α)) (k : String) : Option α :=
  (r.find? (fun p => p.1 == k)).map (fun p => p.2)

/-- `record[key] = v`: overwrite in place, or append a fresh key. -/
def recSet {α : Type} (r : List (String × α)) (k : String) (v : α) : List (String × α) :=
  if r.any (fun p => p.1 == k) then
    r.map (fun p => if p.1 == k then (k, v) else p)
  else r ++ [(k, v)]

/-- JavaScript string truthiness for `a || b` on an optional string. -/
def jsStrOr (a : Option String) (b : String) : String :=
  match a with
  | some s => if s = "" then b else s
  | none => b

/-- Truthiness of an optional string (`undefined` and `''` are falsy). -/
def optTruthy (a : Option String) : Bool :=
  match a with
  | some s => s != ""
  | none => false

/-! ## Core data types (`core/src/types.ts`) -/

structure ChemistrySuggestion where
  chem_system : String
  rationale : String
  confidence : JsRat
deriving DecidableEq

structure LatticePrior where
  symmetry : String
deriving DecidableEq

structure ChemistryPriors where
  lattice_prior : LatticePrior
  density_range : JsRat × JsRat
  oxidation_state_constraints : List (String × List Int)
  prototypes : List String
deriving DecidableEq

structure Adjustment where
  iteration : Nat
  mode : String
  action : String
deriving DecidableEq

/-- `ConstraintsSpec`; `overrides` holds arbitrary JSON solver knobs. -/
structure ConstraintsSpec where
  chem_system : String
  priors : ChemistryPriors
  overrides : Option (List (String × Json))
  adjustments : Option (List Adjustment)

structure CandidateSpec where
  candidate_id : String
  score : JsRat
  format : String
  content : String
deriving DecidableEq

structure ValidationCheck where
  name : String
  passed : Bool
  value : Option JsRat
deriving DecidableEq

structure ValidationReport where
  candidate_id : String
  truth_score : JsRat
  accept : Bool
  checks : List ValidationCheck
deriving DecidableEq

structure TopCandidate where
  candidate_id : String
  truth_score : JsRat
deriving DecidableEq

structure ValidationSummary where
  total : Nat
  accepted : Nat
  rejected : Nat
  best_candidate_id : String
  truth_scores : List (String × JsRat)
  failure_histogram : List (String × JsRat)
  top_candidates : List TopCandidate
deriving DecidableEq

structure McpServerCfg where
  server_name : String
  enabled : Option Bool
deriving DecidableEq

structure McpCfg where
  qlip : McpServerCfg
  materials_data : McpServerCfg
  validators : McpServerCfg
  surrogate_eval : McpServerCfg
deriving DecidableEq

structure QlipCfg where
  solver : String
  time_limit_s : Int
  max_solutions : Int
  max_atoms : Int
deriving DecidableEq

structure PolicyCfg where
  max_iters : Int
  truth_accept_threshold : JsRat
  relax_order : List String
  tighten_order : List String
deriving DecidableEq

structure CspConfig where
  workspace_dir : String
  mcp : McpCfg
  qlip : QlipCfg
  policy : PolicyCfg
deriving DecidableEq

structure RunManifest where
  run_id : String
  status : String
  objective : String
  chem_system : String
  seed : Int
  created_at : String
  updated_at : String
  iteration : Nat
  max_iters : Int
  selected_candidate_id : Option String
  truth_score : Option JsRat
  config_snapshot : CspConfig
deriving DecidableEq

structure CspRunResult where
  run_id : String
  status : String
  workspace_dir : String
  run_dir : String
  selected_chemistry : String
  chosen_candidate_id : String
  truth_score : JsRat
  candidate_ids : List String
  summary_hash : String
  iteration : Nat
deriving DecidableEq

structure IterationDecision where
  mode : String
  action : String
deriving DecidableEq

structure IterationArtifact where
  iteration : Nat
  decision : IterationDecision
  summary_hash : String
  chosen_candidate_id : String
  truth_score : JsRat
deriving DecidableEq

structure ExportResult where
  candidate_id : String
  path : String
deriving DecidableEq

/-- The `DEFAULT_CONFIG` of `core/src/config.ts` (`process.cwd()` is a
parameter). -/
def defaultConfig (cwd : String) : CspConfig where
  workspace_dir := cwd
  mcp := {
    qlip := { server_name := "qlip-mcp", enabled := none }
    materials_data := { server_name := "materials-data-mcp", enabled := none }
    validators := { server_name := "csp-validators-mcp", enabled := none }
    surrogate_eval := { server_name := "surrogate-eval-mcp", enabled := some false } }
  qlip := { solver := "gurobi", time_limit_s := 3600, max_solutions := 25, max_atoms := 120 }
  policy := {
    max_iters := 5
    truth_accept_threshold := 0.8
    relax_order := ["widen_lattice", "relax_symmetry", "expand_oxidation_states",
                    "increase_max_atoms", "expand_prototypes"]
    tighten_order := ["increase_min_distance_scale", "narrow_density",
                      "restrict_oxidation_states", "restrict_prototypes"] }

/-! ## Stable sort model for `entries.sort((a, b) => b[1] - a[1])` -/

/-- The order realized by the stable sort with comparator `b[1] - a[1]` on
index-tagged entries: score strictly greater first, ties by original
position.  ECMA-262 mandates the sorted, stable result, which is exactly the
sort by this total order on index-tagged entries. -/
def scoreDescRel (a b : Nat × (String × JsRat)) : Prop :=
  JsRat.lt b.2.2 a.2.2 ∨ (JsRat.eqv a.2.2 b.2.2 ∧ a.1 ≤ b.1)

instance : DecidableRel scoreDescRel := fun a b => by unfold scoreDescRel; infer_instance

/-- `Object.entries(truthScores).sort((a, b) => b[1] - a[1]).map(...)`. -/
def topCandidatesOf (ts : List (String × JsRat)) : List TopCandidate :=
  ((ts.enum).insertionSort scoreDescRel).map (fun p => ⟨p.2.1, p.2.2⟩)

/-! ## Verification aggregator (`verify/src/index.ts`) -/

/-- The six check names counted by the failure histogram, in insertion
order. -/
def emptyHistogram : List (String × JsRat) :=
  [("parseable", 0), ("min_distance", 0), ("density_in_range", 0),
   ("charge_neutrality_feasible", 0), ("coordination_reasonable", 0),
   ("symmetry_match", 0)]

/-- `failureHistogram[check.name] = (failureHistogram[check.name] || 0) + 1`
for every failed check of a report. -/
def countFailures (h : List (String × JsRat)) (checks : List ValidationCheck) :
    List (String × JsRat) :=
  checks.foldl
    (fun h c => if c.passed then h else recSet h c.name (jsOrZero (recGet h c.name) + 1)) h

/-- The loop body of `summarizeValidation`: update the truth-score record,
the failure histogram and the running best candidate. -/
def summarizeStep (acc : (List (String × JsRat)) × (List (String × JsRat)) × String × JsRat)
    (report : ValidationReport) :
    (List (String × JsRat)) × (List (String × JsRat)) × String × JsRat :=
  let ts := recSet acc.1 report.candidate_id report.truth_score
  let best : String × JsRat :=
    if JsRat.lt acc.2.2.2 report.truth_score then (report.candidate_id, report.truth_score)
    else (acc.2.2.1, acc.2.2.2)
  (ts, countFailures acc.2.1 report.checks, best.1, best.2)

/-- `summarizeValidation` from `verify/src/index.ts`. -/
def summarizeValidation (reports : List ValidationReport) (truthAcceptThreshold : JsRat) :
    ValidationSummary :=
  let acc := reports.foldl summarizeStep ([], emptyHistogram, "", JsRat.ofInt (-1))
  let accepted := (reports.filter (fun r => JsRat.le truthAcceptThreshold r.truth_score)).length
  { total := reports.length
    accepted := accepted
    rejected := reports.length - accepted
    best_candidate_id := jsStrOr (some acc.2.2.1) (jsStrOr (reports.head?.map (·.candidate_id)) "")
    truth_scores := acc.1
    failure_histogram := acc.2.1
    top_candidates := topCandidatesOf acc.1 }

/-! ## Iteration policy (`core/src/iteration.ts`) -/

/-- `decideIteration`. -/
def decideIteration (summary : ValidationSummary) (policy : PolicyCfg) (iteration : Nat) :
    IterationDecision :=
  let relaxFailures :=
    jsOrZero (recGet summary.failure_histogram "density_in_range") +
    jsOrZero (recGet summary.failure_histogram "charge_neutrality_feasible") +
    jsOrZero (recGet summary.failure_histogram "symmetry_match")
  let tightenFailures :=
    jsOrZero (recGet summary.failure_histogram "min_distance") +
    jsOrZero (recGet summary.failure_histogram "coordination_reasonable")
  let mode := if JsRat.le tightenFailures relaxFailures then "relax" else "tighten"
  let order := if mode = "relax" then policy.relax_order else policy.tighten_order
  let action :=
    if order.length > 0 then order.getD (iteration % order.length) ""
    else if mode = "relax" then "widen_lattice" else "increase_min_distance_scale"
  { mode := mode, action := action }

/-- `Math.max` on numbers. -/
def jsMax (a b : JsRat) : JsRat := if JsRat.lt a b then b else a

/-- `applyIterationDecision`. -/
def applyIterationDecision (constraints : ConstraintsSpec) (decision : IterationDecision)
    (iteration : Nat) : ConstraintsSpec :=
  let adjustments := (constraints.adjustments.getD []) ++
    [{ iteration := iteration, mode := decision.mode, action := decision.action }]
  let next := { constraints with adjustments := some adjustments }
  if decision.action = "widen_lattice" then
    { next with priors := { next.priors with density_range :=
        (jsMax 0.1 (next.priors.density_range.1 * 0.9), next.priors.density_range.2 * 1.1) } }
  else if decision.action = "narrow_density" then
    { next with priors := { next.priors with density_range :=
        (next.priors.density_range.1 * 1.05,
         jsMax (next.priors.density_range.1 * 1.1) (next.priors.density_range.2 * 0.95)) } }
  else if decision.action = "increase_max_atoms" then
    let ov := next.overrides.getD []
    let ov2 := match recGet ov "max_atoms" with
      | some (.jnum q) => recSet ov "max_atoms" (.jnum (q + 5))
      | _ => recSet ov "max_atoms" (.jnum 150)
    { next with overrides := some ov2 }
  else if decision.action = "increase_min_distance_scale" then
    let ov := next.overrides.getD []
    let ov2 := match recGet ov "min_distance_scale" with
      | some (.jnum q) => recSet ov "min_distance_scale" (.jnum (q + 0.05))
      | _ => recSet ov "min_distance_scale" (.jnum 1.05)
    { next with overrides := some ov2 }
  else if decision.action = "expand_prototypes" then
    { next with priors := { next.priors with prototypes :=
        (next.priors.prototypes ++ ["proto_extra"]) } }
  else if decision.action = "restrict_prototypes" then
    { next with priors := { next.priors with prototypes :=
        (next.priors.prototypes.take (Nat.max 1 (next.priors.prototypes.length - 1))) } }
  else next

/-! ## Tool client (`core/src/tool-client.ts`) -/

structure SuggestInput where
  objective : String
  seed : Int

structure FetchPriorsInput where
  chem_system : String
  seed : Int

structure BuildConstraintsInput where
  chem_system : String
  priors : ChemistryPriors
  overrides : List (String × Json)

structure RunQlipInput where
  constraints : ConstraintsSpec
  seed : Int
  run_id : String
  iteration : Option Nat

structure BatchValidateInput where
  candidates : List CandidateSpec
  constraints : ConstraintsSpec
  seed : Int
  truth_threshold : JsRat

/-- The tool-client interface.  The source exposes a single
`call(toolName, input)` that dispatches on the tool name (see
`StubToolClient.call`); the five typed fields here are the five branches of
that dispatch.  `σ` is the client's internal mutable state (the stub's PRNG
state); a `.error` result models a thrown transport error. -/
structure ToolClient (σ : Type) where
  suggestChemistries : SuggestInput → σ → Except String (List ChemistrySuggestion × σ)
  fetchPriors : FetchPriorsInput → σ → Except String (ChemistryPriors × σ)
  buildConstraints : BuildConstraintsInput → σ → Except String (ConstraintsSpec × σ)
  runQlip : RunQlipInput → σ → Except String (List CandidateSpec × σ)
  batchValidate : BatchValidateInput → σ →
    Except String ((List ValidationReport × Option ValidationSummary) × σ)

/-- `CHEMISTRY_TABLE`. -/
def chemistryTable : List (List ChemistrySuggestion) := [
  [{ chem_system := "Li-Fe-P-O", rationale := "Phosphate chemistry with stable frameworks", confidence := 0.78 },
   { chem_system := "Na-Cl", rationale := "Binary ionic system for baseline CSP", confidence := 0.64 },
   { chem_system := "Ti-O", rationale := "Oxide system with known polymorphs", confidence := 0.71 }],
  [{ chem_system := "Mg-Si-O", rationale := "Silicate chemistry for structural diversity", confidence := 0.75 },
   { chem_system := "Al-N", rationale := "Nitride system with high symmetry", confidence := 0.62 },
   { chem_system := "Ca-Ti-O", rationale := "Perovskite-forming chemistry", confidence := 0.82 }],
  [{ chem_system := "Zn-S", rationale := "Binary semiconductor baseline", confidence := 0.7 },
   { chem_system := "Li-Co-O", rationale := "Layered oxide chemistry", confidence := 0.8 },
   { chem_system := "Fe-S", rationale := "Transition metal sulfide system", confidence := 0.66 }]]

/-- `PRIOR_TABLE`. -/
def priorTable : List ChemistryPriors := [
  { lattice_prior := { symmetry := "any" }
    density_range := (2.8, 4.2)
    oxidation_state_constraints := [("Li", [1]), ("Fe", [2, 3]), ("P", [5]), ("O", [-2])]
    prototypes := ["olivine", "spinel", "perovskite"] },
  { lattice_prior := { symmetry := "any" }
    density_range := (3.1, 5.0)
    oxidation_state_constraints := [("Mg", [2]), ("Si", [4]), ("O", [-2]), ("Ca", [2]), ("Ti", [4])]
    prototypes := ["perovskite", "rutile", "rocksalt"] },
  { lattice_prior := { symmetry := "any" }
    density_range := (2.0, 3.6)
    oxidation_state_constraints := [("Zn", [2]), ("S", [-2]), ("Li", [1]), ("Co", [3, 4]), ("Fe", [2, 3])]
    prototypes := ["zincblende", "wurtzite", "layered"] }]

/-- `String(i).padStart(4, '0')`. -/
def padStart4 (s : String) : String :=
  String.mk (List.replicate (4 - s.length) '0') ++ s

/-- The placeholder CIF content generated by the stub `run_qlip`. -/
def stubCifContent (candidateId : String) (i : Nat) : String :=
  "data_" ++ candidateId ++ "\n# CIF placeholder for " ++ candidateId ++
  "\n_cell_length_a 5." ++ toString i ++ "0\n_cell_length_b 5." ++ toString i ++
  "0\n_cell_length_c 5." ++ toString i ++
  "0\n_cell_angle_alpha 90\n_cell_angle_beta 90\n_cell_angle_gamma 90\n"

/-- Stub `run_qlip`: five candidates with PRNG scores. -/
def stubRunQlip (st : Nat) : List CandidateSpec × Nat :=
  let step := fun (acc : Nat × List CandidateSpec) (i : Nat) =>
    let p := rngNextFloat acc.1 0.2 0.95
    let score := p.2.toFixed 4
    let candidateId := "cand_" ++ padStart4 (toString i)
    (p.1, acc.2 ++ [{ candidate_id := candidateId, score := score, format := "cif",
                      content := stubCifContent candidateId i }])
  let r := (List.range' 1 5).foldl step (st, [])
  (r.2, r.1)

/-- `baseScores` of the stub `batch_validate`. -/
def stubBaseScores : List JsRat := [0.85, 0.72, 0.6, 0.48, 0.35]

/-- The fixed check thresholds of the stub `batch_validate`. -/
def stubChecks (truthScore : JsRat) : List ValidationCheck :=
  [{ name := "parseable", passed := true, value := none },
   { name := "min_distance", passed := decide (JsRat.le 0.4 truthScore), value := some truthScore },
   { name := "density_in_range", passed := decide (JsRat.le 0.5 truthScore), value := some truthScore },
   { name := "charge_neutrality_feasible", passed := decide (JsRat.le 0.55 truthScore), value := some truthScore },
   { name := "coordination_reasonable", passed := decide (JsRat.le 0.65 truthScore), value := some truthScore },
   { name := "symmetry_match", passed := decide (JsRat.le 0.7 truthScore), value := some truthScore }]

/-- Stub `batch_validate`: deterministic reports plus a pre-computed
summary. -/
def stubBatchValidate (truthThreshold : JsRat) (candidates : List CandidateSpec) (st : Nat) :
    (List ValidationReport × Option ValidationSummary) × Nat :=
  let acc := candidates.enum.foldl
    (fun (acc : Nat × List ValidationReport × (List (String × JsRat)) ×
           (List (String × JsRat)) × String × JsRat) ic =>
      let st := acc.1
      let p := rngNextFloat st (-0.02) 0.02
      let base := stubBaseScores.getD ic.1 0.4
      let truthScore := clamp ((base + p.2).toFixed 4) 0 1
      let accept := decide (JsRat.le truthThreshold truthScore)
      let checks := stubChecks truthScore
      let hist := countFailures acc.2.2.2.1 checks
      let ts := recSet acc.2.2.1 ic.2.candidate_id truthScore
      let best : String × JsRat :=
        if JsRat.lt acc.2.2.2.2.2 truthScore then (ic.2.candidate_id, truthScore)
        else (acc.2.2.2.2.1, acc.2.2.2.2.2)
      (p.1, acc.2.1 ++ [{ candidate_id := ic.2.candidate_id, truth_score := truthScore,
                          accept := accept, checks := checks }], ts, hist, best.1, best.2))
    (st, [], [], emptyHistogram, "", JsRat.ofInt (-1))
  let reports := acc.2.1
  let accepted := (reports.filter (·.accept)).length
  let summary : ValidationSummary :=
    { total := reports.length
      accepted := accepted
      rejected := reports.length - accepted
      best_candidate_id := jsStrOr (some acc.2.2.2.2.1)
        (jsStrOr (reports.head?.map (·.candidate_id)) "")
      truth_scores := acc.2.2.1
      failure_histogram := acc.2.2.2.1
      top_candidates := topCandidatesOf acc.2.2.1 }
  ((reports, some summary), acc.1)

/-- `StubToolClient` with its constructor-normalized PRNG state and truth
threshold. -/
def stubToolClient (truthThreshold : JsRat) : ToolClient Nat where
  suggestChemistries := fun _ st =>
    let p := rngNextInt st 0 ((chemistryTable.length : Int) - 1)
    .ok (chemistryTable.getD p.2.toNat [], p.1)
  fetchPriors := fun _ st =>
    let p := rngNextInt st 0 ((priorTable.length : Int) - 1)
    .ok (priorTable.getD p.2.toNat
      { lattice_prior := { symmetry := "" }, density_range := (0, 0),
        oxidation_state_constraints := [], prototypes := [] }, p.1)
  buildConstraints := fun input st =>
    .ok ({ chem_system := jsStrOr (some input.chem_system) "unknown",
           priors := input.priors, overrides := some input.overrides,
           adjustments := none }, st)
  runQlip := fun _ st =>
    let p := stubRunQlip st
    .ok (p.1, p.2)
  batchValidate := fun input st =>
    let p := stubBatchValidate truthThreshold input.candidates st
    .ok (p.1, p.2)

/-- `new StubToolClient({seed, ...})`: the PRNG state after seed
normalization. -/
def stubInitState (seed : Int) : Nat := normalizeSeed seed

/-- `RealMcpClient` with no handler configured: every call throws. -/
def realMcpClientUnconfigured : ToolClient Unit where
  suggestChemistries := fun _ _ =>
    .error "Real MCP client not configured for tool materials-data-mcp.suggest_chemistries"
  fetchPriors := fun _ _ =>
    .error "Real MCP client not configured for tool materials-data-mcp.fetch_priors"
  buildConstraints := fun _ _ =>
    .error "Real MCP client not configured for tool qlip-mcp.build_constraints"
  runQlip := fun _ _ =>
    .error "Real MCP client not configured for tool qlip-mcp.run_qlip"
  batchValidate := fun _ _ =>
    .error "Real MCP client not configured for tool csp-validators-mcp.batch_validate"

/-! ## Artifact store (`core/src/artifacts.ts`), as on-disk state -/

/-- The contents of one `runs/<run_id>/` directory.  JSON files are kept as
their typed contents (serialization to disk and re-parsing is lossless for
this data). -/
structure RunDirFs where
  manifestFile : Option RunManifest
  constraintsFile : Option ConstraintsSpec
  eventLines : List Json
  candidateFiles : List (String × String)
  reportFiles : List (String × ValidationReport)
  summaryFile : Option ValidationSummary
  iterationFiles : List (Nat × IterationArtifact)
  exportFiles : List (String × String)

def emptyRunDir : RunDirFs :=
  { manifestFile := none, constraintsFile := none, eventLines := [],
    candidateFiles := [], reportFiles := [], summaryFile := none,
    iterationFiles := [], exportFiles := [] }

/-- The workspace: `runs/` keyed by run id. -/
structure WorkspaceFs where
  runs : List (String × RunDirFs)

def emptyWorkspace : WorkspaceFs := { runs := [] }

def getRun (fs : WorkspaceFs) (runId : String) : Option RunDirFs :=
  recGet fs.runs runId

/-- Apply an update to a run directory, creating it when missing (writes
ensure parent directories exist). -/
def modifyRun (fs : WorkspaceFs) (runId : String) (f : RunDirFs → RunDirFs) : WorkspaceFs :=
  { runs := recSet fs.runs runId (f ((getRun fs runId).getD emptyRunDir)) }

def writeManifestFs (fs : WorkspaceFs) (runId : String) (m : RunManifest) : WorkspaceFs :=
  modifyRun fs runId (fun d => { d with manifestFile := some m })

def writeConstraintsFs (fs : WorkspaceFs) (runId : String) (c : ConstraintsSpec) : WorkspaceFs :=
  modifyRun fs runId (fun d => { d with constraintsFile := some c })

def appendEventFs (fs : WorkspaceFs) (runId : String) (e : Json) : WorkspaceFs :=
  modifyRun fs runId (fun d => { d with eventLines := d.eventLines ++ [e] })

def writeCandidatesFs (fs : WorkspaceFs) (runId : String) (cs : List CandidateSpec) : WorkspaceFs :=
  modifyRun fs runId (fun d =>
    { d with candidateFiles :=
        cs.foldl (fun files c => recSet files c.candidate_id c.content) d.candidateFiles })

def writeValidationReportsFs (fs : WorkspaceFs) (runId : String)
    (reports : List ValidationReport) (summary : ValidationSummary) : WorkspaceFs :=
  modifyRun fs runId (fun d =>
    { d with
      reportFiles := reports.foldl (fun files r => recSet files r.candidate_id r) d.reportFiles
      summaryFile := some summary })

def writeIterationArtifactFs (fs : WorkspaceFs) (runId : String) (n : Nat)
    (a : IterationArtifact) : WorkspaceFs :=
  modifyRun fs runId (fun d =>
    { d with iterationFiles :=
        if d.iterationFiles.any (fun p => p.1 == n) then
          d.iterationFiles.map (fun p => if p.1 == n then (n, a) else p)
        else d.iterationFiles ++ [(n, a)] })

def writeExportsFs (fs : WorkspaceFs) (runId : String)
    (exportsList : List (String × String × String)) : WorkspaceFs :=
  modifyRun fs runId (fun d =>
    { d with exportFiles :=
        exportsList.foldl (fun files e => recSet files (e.1 ++ "." ++ e.2.2) e.2.1) d.exportFiles })

def readManifestFs (fs : WorkspaceFs) (runId : String) : Except String RunManifest :=
  match (getRun fs runId).bind (fun d => d.manifestFile) with
  | some m => .ok m
  | none => .error ("ENOENT: no such file or directory, open run_manifest.json of " ++ runId)

def readConstraintsFs (fs : WorkspaceFs) (runId : String) : Except String ConstraintsSpec :=
  match (getRun fs runId).bind (fun d => d.constraintsFile) with
  | some c => .ok c
  | none => .error ("ENOENT: no such file or directory, open constraints.json of " ++ runId)

def readValidationSummaryFs (fs : WorkspaceFs) (runId : String) : Except String ValidationSummary :=
  match (getRun fs runId).bind (fun d => d.summaryFile) with
  | some s => .ok s
  | none => .error ("ENOENT: no such file or directory, open summary.json of " ++ runId)

/-- String sort order of `Array.prototype.sort()` (UTF-16 code units). -/
def strLe (a b : String) : Prop := u16Le (utf16Units a) (utf16Units b) = true

instance : DecidableRel strLe := fun a b => by unfold strLe; infer_instance

/-- `listCandidateIds`: the `.cif` files of `candidates/`, stripped and
sorted (a missing directory gives `[]`). -/
def listCandidateIdsFs (fs : WorkspaceFs) (runId : String) : List String :=
  match getRun fs runId with
  | some d => List.insertionSort strLe (d.candidateFiles.map (fun p => p.1))
  | none => []

def readCandidateContentFs (fs : WorkspaceFs) (runId : String) (candidateId : String) :
    Except String String :=
  match (getRun fs runId).bind (fun d => recGet d.candidateFiles candidateId) with
  | some content => .ok content
  | none => .error ("ENOENT: no such file or directory, open " ++ candidateId ++ ".cif")

/-! ## Canonical summary serialization and hashing -/

/-- The `ValidationSummary` as the JavaScript object passed to
`stableStringify` (fields in the construction order of the source; the
canonical serializer sorts the keys anyway). -/
def summaryToJson (s : ValidationSummary) : Json :=
  .jobj [
    ("total", .jnum (JsRat.ofInt s.total)),
    ("accepted", .jnum (JsRat.ofInt s.accepted)),
    ("rejected", .jnum (JsRat.ofInt s.rejected)),
    ("best_candidate_id", .jstr s.best_candidate_id),
    ("truth_scores", .jobj (s.truth_scores.map (fun p => (p.1, .jnum p.2)))),
    ("failure_histogram", .jobj (s.failure_histogram.map (fun p => (p.1, .jnum p.2)))),
    ("top_candidates", .jarr (s.top_candidates.map (fun tc =>
      .jobj [("candidate_id", .jstr tc.candidate_id), ("truth_score", .jnum tc.truth_score)])))]

/-- `computeSummaryHash`: SHA-256 of the canonical serialization of the
summary. -/
def computeSummaryHash (s : ValidationSummary) : String :=
  sha256Hex (stableStringify (summaryToJson s))

/-! ## Workflows (`workflows/src/index.ts`) -/

/-- Input of `runCspDiscover`.  `now_created` and `now_updated` model the two
`new Date().toISOString()` calls (ambient inputs of the source). -/
structure DiscoverInput where
  objective : String
  chem_system : Option String
  workspace_dir : String
  seed : Int
  config : CspConfig
  now_created : String
  now_updated : String

structure IterateInput where
  run_id : String
  workspace_dir : String
  seed : Int
  config : CspConfig
  now_updated : String

structure ValidateInput where
  run_id : String
  workspace_dir : String
  seed : Int
  config : CspConfig

structure ExportInput where
  run_id : String
  workspace_dir : String
  format : String
  top_k : Int

/-- `createRunId`: PRNG hex suffix from `seed ^ seedFromString(objective)`
(32-bit xor of the bit patterns, then seed normalization in the `SeededRng`
constructor). -/
def createRunId (seed : Int) (objective : String) : String :=
  let x := ((seed.emod (m32 : Int)).toNat) ^^^ seedFromString objective
  let st := if x = 0 then 1 else x
  "run_" ++ toString seed ++ "_" ++ (rngNextHex st 8).2

/-- `selectChemistry`: pick a suggestion with a PRNG seeded from
`seed ^ 0x3f1c2b`. -/
def selectChemistry (suggestions : List ChemistrySuggestion) (seed : Int) : String :=
  if suggestions.isEmpty then "unknown"
  else
    let x := ((seed.emod (m32 : Int)).toNat) ^^^ 0x3f1c2b
    let st := if x = 0 then 1 else x
    let p := rngNextInt st 0 ((suggestions.length : Int) - 1)
    (suggestions.getD p.2.toNat { chem_system := "", rationale := "", confidence := 0 }).chem_system

/-- The event line of `ensureManifest`. -/
def manifestEvent (m : RunManifest) : Json :=
  .jobj [("event", .jstr "run_manifest"), ("run_id", .jstr m.run_id),
         ("status", .jstr m.status)]

/-- The `run_started` event line. -/
def runStartedEvent (runId objective : String) : Json :=
  .jobj [("event", .jstr "run_started"), ("run_id", .jstr runId),
         ("objective", .jstr objective)]

/-- `runCspDiscover`.  Returns the thrown error or the run result, together
with the on-disk state and the tool client state at that point. -/
def runCspDiscover {σ : Type} (tc : ToolClient σ) (inp : DiscoverInput)
    (fs : WorkspaceFs) (st : σ) : Except String CspRunResult × WorkspaceFs × σ :=
  let runId := createRunId inp.seed inp.objective
  let manifest : RunManifest :=
    { run_id := runId, status := "running", objective := inp.objective,
      chem_system := jsStrOr inp.chem_system "pending", seed := inp.seed,
      created_at := inp.now_created, updated_at := inp.now_created, iteration := 0,
      max_iters := inp.config.policy.max_iters, selected_candidate_id := none,
      truth_score := none, config_snapshot := inp.config }
  let fs := writeManifestFs fs runId manifest
  let fs := appendEventFs fs runId (manifestEvent manifest)
  let fs := appendEventFs fs runId (runStartedEvent runId inp.objective)
  let sugRes :=
    if optTruthy inp.chem_system then
      .ok ([{ chem_system := inp.chem_system.getD "", rationale := "provided",
              confidence := 1.0 }], st)
    else tc.suggestChemistries { objective := inp.objective, seed := inp.seed } st
  match sugRes with
  | .error e => (.error e, fs, st)
  | .ok (chemistries, st) =>
  let selectedChemistry :=
    if optTruthy inp.chem_system then inp.chem_system.getD ""
    else selectChemistry chemistries inp.seed
  match tc.fetchPriors { chem_system := selectedChemistry, seed := inp.seed } st with
  | .error e => (.error e, fs, st)
  | .ok (priors, st) =>
  match tc.buildConstraints
      { chem_system := selectedChemistry, priors := priors,
        overrides := [("solver", .jstr inp.config.qlip.solver),
                      ("max_atoms", .jnum (JsRat.ofInt inp.config.qlip.max_atoms))] } st with
  | .error e => (.error e, fs, st)
  | .ok (constraints, st) =>
  let fs := writeConstraintsFs fs runId constraints
  match tc.runQlip { constraints := constraints, seed := inp.seed, run_id := runId,
                     iteration := none } st with
  | .error e => (.error e, fs, st)
  | .ok (candidates, st) =>
  let fs := writeCandidatesFs fs runId candidates
  match tc.batchValidate
      { candidates := candidates, constraints := constraints, seed := inp.seed,
        truth_threshold := inp.config.policy.truth_accept_threshold } st with
  | .error e => (.error e, fs, st)
  | .ok ((reports, osummary), st) =>
  let summary := match osummary with
    | some s => s
    | none => summarizeValidation reports inp.config.policy.truth_accept_threshold
  let fs := writeValidationReportsFs fs runId reports summary
  let summaryHash := computeSummaryHash summary
  let chosenCandidateId := summary.best_candidate_id
  let truthScore := (recGet summary.truth_scores chosenCandidateId).getD 0
  let updatedManifest :=
    { manifest with
      status := "ok"
      chem_system := selectedChemistry
      updated_at := inp.now_updated
      selected_candidate_id := some chosenCandidateId
      truth_score := some truthScore }
  let fs := writeManifestFs fs runId updatedManifest
  let fs := appendEventFs fs runId (manifestEvent updatedManifest)
  (.ok { run_id := runId, status := "ok", workspace_dir := inp.workspace_dir,
         run_dir := inp.workspace_dir ++ "/runs/" ++ runId,
         selected_chemistry := selectedChemistry,
         chosen_candidate_id := chosenCandidateId, truth_score := truthScore,
         candidate_ids := candidates.map (fun c => c.candidate_id),
         summary_hash := summaryHash, iteration := 0 }, fs, st)

/-- `runCspIterate`. -/
def runCspIterate {σ : Type} (tc : ToolClient σ) (inp : IterateInput)
    (fs : WorkspaceFs) (st : σ) : Except String CspRunResult × WorkspaceFs × σ :=
  match readManifestFs fs inp.run_id with
  | .error e => (.error e, fs, st)
  | .ok manifest =>
  match readValidationSummaryFs fs inp.run_id with
  | .error e => (.error e, fs, st)
  | .ok previousSummary =>
  match readConstraintsFs fs inp.run_id with
  | .error e => (.error e, fs, st)
  | .ok previousConstraints =>
  let nextIteration := manifest.iteration + 1
  if (nextIteration : Int) > inp.config.policy.max_iters then
    (.error ("Max iterations reached (" ++ toString manifest.iteration ++ "/" ++
             toString inp.config.policy.max_iters ++ ")"), fs, st)
  else
  let decision := decideIteration previousSummary inp.config.policy nextIteration
  let nextConstraints := applyIterationDecision previousConstraints decision nextIteration
  let fs := writeConstraintsFs fs inp.run_id nextConstraints
  match tc.runQlip { constraints := nextConstraints, seed := inp.seed, run_id := inp.run_id,
                     iteration := some nextIteration } st with
  | .error e => (.error e, fs, st)
  | .ok (candidates, st) =>
  let fs := writeCandidatesFs fs inp.run_id candidates
  match tc.batchValidate
      { candidates := candidates, constraints := nextConstraints, seed := inp.seed,
        truth_threshold := inp.config.policy.truth_accept_threshold } st with
  | .error e => (.error e, fs, st)
  | .ok ((reports, osummary), st) =>
  let summary := match osummary with
    | some s => s
    | none => summarizeValidation reports inp.config.policy.truth_accept_threshold
  let fs := writeValidationReportsFs fs inp.run_id reports summary
  let summaryHash := computeSummaryHash summary
  let chosenCandidateId := summary.best_candidate_id
  let truthScore := (recGet summary.truth_scores chosenCandidateId).getD 0
  let fs := writeIterationArtifactFs fs inp.run_id nextIteration
    { iteration := nextIteration, decision := decision, summary_hash := summaryHash,
      chosen_candidate_id := chosenCandidateId, truth_score := truthScore }
  let updatedManifest :=
    { manifest with
      iteration := nextIteration
      updated_at := inp.now_updated
      selected_candidate_id := some chosenCandidateId
      truth_score := some truthScore
      status := "ok" }
  let fs := writeManifestFs fs inp.run_id updatedManifest
  let fs := appendEventFs fs inp.run_id (manifestEvent updatedManifest)
  (.ok { run_id := inp.run_id, status := "ok", workspace_dir := inp.workspace_dir,
         run_dir := inp.workspace_dir ++ "/runs/" ++ inp.run_id,
         selected_chemistry := manifest.chem_system,
         chosen_candidate_id := chosenCandidateId, truth_score := truthScore,
         candidate_ids := candidates.map (fun c => c.candidate_id),
         summary_hash := summaryHash, iteration := nextIteration }, fs, st)

/-- The candidate-loading loop of `runCspValidate`: thin `CandidateSpec`
objects rebuilt from disk. -/
def loadCandidates (fs : WorkspaceFs) (runId : String) :
    List String → Except String (List CandidateSpec)
  | [] => .ok []
  | id :: rest =>
    match readCandidateContentFs fs runId id with
    | .error e => .error e
    | .ok content =>
      match loadCandidates fs runId rest with
      | .error e => .error e
      | .ok cs => .ok ({ candidate_id := id, score := 0, format := "cif",
                         content := content } :: cs)

/-- `runCspValidate`. -/
def runCspValidate {σ : Type} (tc : ToolClient σ) (inp : ValidateInput)
    (fs : WorkspaceFs) (st : σ) :
    Except String (ValidationSummary × String) × WorkspaceFs × σ :=
  match readConstraintsFs fs inp.run_id with
  | .error e => (.error e, fs, st)
  | .ok constraints =>
  let candidateIds := listCandidateIdsFs fs inp.run_id
  match loadCandidates fs inp.run_id candidateIds with
  | .error e => (.error e, fs, st)
  | .ok candidates =>
  match tc.batchValidate
      { candidates := candidates, constraints := constraints, seed := inp.seed,
        truth_threshold := inp.config.policy.truth_accept_threshold } st with
  | .error e => (.error e, fs, st)
  | .ok ((reports, osummary), st) =>
  let summary := match osummary with
    | some s => s
    | none => summarizeValidation reports inp.config.policy.truth_accept_threshold
  let fs := writeValidationReportsFs fs inp.run_id reports summary
  let summaryHash := computeSummaryHash summary
  (.ok (summary, summaryHash), fs, st)

/-- Candidate order used by `runCspExport`: the prior summary's
`top_candidates`, falling back to the sorted disk listing. -/
def candidateOrderOf (fs : WorkspaceFs) (runId : String) : List String :=
  match readValidationSummaryFs fs runId with
  | .ok summary => summary.top_candidates.map (fun (c : TopCandidate) => c.candidate_id)
  | .error _ => listCandidateIdsFs fs runId

/-- The export loop of `runCspExport`: read each selected candidate, build
the export file contents and result rows. -/
def buildExports (fs : WorkspaceFs) (runId : String) (format : String)
    (exportsDir : String) :
    List String → Except String (List (String × String × String) × List ExportResult)
  | [] => .ok ([], [])
  | id :: rest =>
    match readCandidateContentFs fs runId id with
    | .error e => .error e
    | .ok content =>
      let extension := if format = "poscar" then "poscar" else "cif"
      let exportedContent :=
        if format = "poscar" then "# POSCAR placeholder for " ++ id ++ "\n" ++ content
        else content
      match buildExports fs runId format exportsDir rest with
      | .error e => .error e
      | .ok (files, results) =>
        .ok ((id, exportedContent, extension) :: files,
             { candidate_id := id, path := exportsDir ++ "/" ++ id ++ "." ++ extension } :: results)

/-- `runCspExport`. -/
def runCspExport (inp : ExportInput) (fs : WorkspaceFs) :
    Except String (List ExportResult) × WorkspaceFs :=
  let candidateOrder := candidateOrderOf fs inp.run_id
  let selected := candidateOrder.take (Int.toNat (max 1 inp.top_k))
  let exportsDir := inp.workspace_dir ++ "/runs/" ++ inp.run_id ++ "/exports"
  match buildExports fs inp.run_id inp.format exportsDir selected with
  | .error e => (.error e, fs)
  | .ok (files, results) => (.ok results, writeExportsFs fs inp.run_id files)

/-! ## CLI output discipline (`cli/src/index.ts`) -/

/-- The payload `writeError` prints on a failed command. -/
def cliErrorPayload (command message : String) : Json :=
  .jobj [("command", .jstr command), ("status", .jstr "error"),
         ("error", .jstr message), ("exit_code", .jnum 1)]

/-- The `try`/`catch` of `runCspCli`: on success one JSON line and exit code
0, on a thrown error the `writeError` line and exit code 1. -/
def runCspCliOutcome (command : String) (result : Except String Json) : String × Nat :=
  match result with
  | .ok payload => (plainStringify payload ++ "\n", 0)
  | .error message => (plainStringify (cliErrorPayload command message) ++ "\n", 1)

/-! ## Spec-side definitions used by the claim statements -/

/-- `R` of the iteration policy: relax-side failure count. -/
def relaxFailuresOf (s : ValidationSummary) : JsRat :=
  jsOrZero (recGet s.failure_histogram "density_in_range") +
  jsOrZero (recGet s.failure_histogram "charge_neutrality_feasible") +
  jsOrZero (recGet s.failure_histogram "symmetry_match")

/-- `T` of the iteration policy: tighten-side failure count. -/
def tightenFailuresOf (s : ValidationSummary) : JsRat :=
  jsOrZero (recGet s.failure_histogram "min_distance") +
  jsOrZero (recGet s.failure_histogram "coordination_reasonable")

/-- The `(candidate_id, truth_score)` pairs of a top-candidates list. -/
def tcPairs (tcs : List TopCandidate) : List (String × JsRat) :=
  tcs.map (fun t => (t.candidate_id, t.truth_score))

/-- The `(candidate_id, truth_score)` pairs of a report list. -/
def reportPairs (reports : List ValidationReport) : List (String × JsRat) :=
  reports.map (fun r => (r.candidate_id, r.truth_score))

/-- The claimed ordering of `top_candidates`: strictly descending scores,
ties by ascending candidate id. -/
def sortedByScoreThenId (tcs : List TopCandidate) : Prop :=
  List.Pairwise (fun a b : TopCandidate =>
    JsRat.lt b.truth_score a.truth_score ∨
    (JsRat.eqv a.truth_score b.truth_score ∧ strLe a.candidate_id b.candidate_id)) tcs

instance : Decidable (sortedByScoreThenId tcs) := by
  unfold sortedByScoreThenId; exact List.instDecidablePairwise _

/-- Keys sorted at every depth (the shape of `canon` output). -/
inductive SortedKeys : Json → Prop where
  | jnull : SortedKeys .jnull
  | jbool (b : Bool) : SortedKeys (.jbool b)
  | jnum (q : JsRat) : SortedKeys (.jnum q)
  | jstr (s : String) : SortedKeys (.jstr s)
  | jarr (xs : List Json) : (∀ x ∈ xs, SortedKeys x) → SortedKeys (.jarr xs)
  | jobj (kvs : List (String × Json)) : List.Pairwise jsKeyLe kvs →
      (∀ kv ∈ kvs, SortedKeys kv.2) → SortedKeys (.jobj kvs)

/-- A string is a single line. -/
def singleLine (s : String) : Prop := '\n' ∉ s.toList

/-! ## Concrete run states used as witnesses and counterexamples -/

/-- Concrete instance of the C6 theorem: a run directory holding only a
manifest at `iteration = 5` with `max_iters = 5`. -/
def c6Manifest : RunManifest :=
  { run_id := "run_1_deadbeef", status := "ok", objective := "obj", chem_system := "Ti-O",
    seed := 1, created_at := "T0", updated_at := "T1", iteration := 5, max_iters := 5,
    selected_candidate_id := none, truth_score := none,
    config_snapshot := defaultConfig "/cwd" }

def c6Fs : WorkspaceFs :=
  { runs := [("run_1_deadbeef", { emptyRunDir with manifestFile := some c6Manifest })] }

def c6Input : IterateInput :=
  { run_id := "run_1_deadbeef", workspace_dir := "/ws", seed := 1,
    config := defaultConfig "/cwd", now_updated := "T2" }

def c5Input : DiscoverInput :=
  { objective := "Discover stable oxide", chem_system := none, workspace_dir := "/ws",
    seed := 1, config := defaultConfig "/cwd", now_created := "T0", now_updated := "T1" }

/-- A tool client returning fixed outputs; quantifying over its parameters
quantifies over all possible tool responses. -/
def tableClient (chems : List ChemistrySuggestion) (priors : ChemistryPriors)
    (constraints : ConstraintsSpec) (cands : List CandidateSpec)
    (reports : List ValidationReport) (osummary : Option ValidationSummary) :
    ToolClient Unit where
  suggestChemistries := fun _ _ => .ok (chems, ())
  fetchPriors := fun _ _ => .ok (priors, ())
  buildConstraints := fun _ _ => .ok (constraints, ())
  runQlip := fun _ _ => .ok (cands, ())
  batchValidate := fun _ _ => .ok ((reports, osummary), ())

def c1Priors : ChemistryPriors :=
  { lattice_prior := { symmetry := "any" }, density_range := (2.8, 4.2),
    oxidation_state_constraints := [("A", [1]), ("B", [-1])], prototypes := ["rocksalt"] }

def c1Constraints : ConstraintsSpec :=
  { chem_system := "A-B", priors := c1Priors, overrides := none, adjustments := none }

def c1Candidate : CandidateSpec :=
  { candidate_id := "cand_0001", score := 0.5, format := "cif", content := "data_cand_0001" }

def c1Report : ValidationReport :=
  { candidate_id := "cand_0001", truth_score := 0.9, accept := true, checks := [] }

/-- A tool-supplied summary deliberately different from the locally
recomputed one. -/
def c1BogusSummary : ValidationSummary :=
  { total := 99, accepted := 0, rejected := 0, best_candidate_id := "zzz",
    truth_scores := [("zzz", 1)], failure_histogram := [], top_candidates := [] }

def c1Client : ToolClient Unit :=
  tableClient [{ chem_system := "A-B", rationale := "r", confidence := 0.5 }]
    c1Priors c1Constraints [c1Candidate] [c1Report] (some c1BogusSummary)

def c1Input : DiscoverInput :=
  { objective := "obj", chem_system := none, workspace_dir := "/ws",
    seed := 1, config := defaultConfig "/cwd", now_created := "T0", now_updated := "T1" }

/-- The run id of the C1 discover run. -/
def c1RunId : String := createRunId 1 "obj"

/-- The workspace left behind by the C1 discover run; iterate and validate
are then exercised on this existing run. -/
def c1IterFs : WorkspaceFs := (runCspDiscover c1Client c1Input emptyWorkspace ()).2.1

def c1IterInput : IterateInput :=
  { run_id := c1RunId, workspace_dir := "/ws", seed := 1,
    config := defaultConfig "/cwd", now_updated := "T2" }

def c1ValInput : ValidateInput :=
  { run_id := c1RunId, workspace_dir := "/ws", seed := 1, config := defaultConfig "/cwd" }

/-- The manifest persisted by the C1 discover run. -/
def c1IterManifest : RunManifest :=
  match readManifestFs c1IterFs c1RunId with
  | .ok m => m
  | .error _ => c6Manifest

/-- The summary persisted by the C1 discover run. -/
def c1IterSummary : ValidationSummary :=
  match readValidationSummaryFs c1IterFs c1RunId with
  | .ok s => s
  | .error _ => c1BogusSummary

/-- The constraints persisted by the C1 discover run. -/
def c1IterConstraints : ConstraintsSpec :=
  match readConstraintsFs c1IterFs c1RunId with
  | .ok c => c
  | .error _ => c1Constraints

/-- The candidates validate reloads from the C1 discover run. -/
def c1ValCandidates : List CandidateSpec :=
  match loadCandidates c1IterFs c1RunId (listCandidateIdsFs c1IterFs c1RunId) with
  | .ok cs => cs
  | .error _ => []

def c4Config : CspConfig := defaultConfig "/cwd"

/-- Scenario: `csp:discover --dry-run --seed 1 --objective "Discover stable
oxide"` followed by `csp:validate --dry-run --seed 1` on the produced run. -/
def c4DiscoverRun : Except String CspRunResult × WorkspaceFs × Nat :=
  runCspDiscover (stubToolClient c4Config.policy.truth_accept_threshold)
    { objective := "Discover stable oxide", chem_system := none, workspace_dir := "/ws",
      seed := 1, config := c4Config, now_created := "T0", now_updated := "T1" }
    emptyWorkspace (stubInitState 1)

def c4ValidateRun : Except String (ValidationSummary × String) × WorkspaceFs × Nat :=
  runCspValidate (stubToolClient c4Config.policy.truth_accept_threshold)
    { run_id := createRunId 1 "Discover stable oxide", workspace_dir := "/ws",
      seed := 1, config := c4Config } c4DiscoverRun.2.1 (stubInitState 1)

/-- C10 counterexample state: one candidate on disk, but the stored summary
names a candidate that has no file. -/
def c10Summary : ValidationSummary :=
  { total := 1, accepted := 0, rejected := 1, best_candidate_id := "cand_0002",
    truth_scores := [("cand_0002", 0.5)], failure_histogram := [],
    top_candidates := [{ candidate_id := "cand_0002", truth_score := 0.5 }] }

def c10Fs : WorkspaceFs :=
  { runs := [("run_c10", { emptyRunDir with
      candidateFiles := [("cand_0001", "data_cand_0001")]
      summaryFile := some c10Summary })] }

def c10Input : ExportInput :=
  { run_id := "run_c10", workspace_dir := "/ws", format := "cif", top_k := 0 }

/-- C10 witness state: two candidates on disk, both listed by the stored
summary; `top_k = 0`. -/
def c10AmSummary : ValidationSummary :=
  { total := 2, accepted := 1, rejected := 1, best_candidate_id := "cand_0002",
    truth_scores := [("cand_0002", 0.9), ("cand_0001", 0.3)], failure_histogram := [],
    top_candidates := [{ candidate_id := "cand_0002", truth_score := 0.9 },
                       { candidate_id := "cand_0001", truth_score := 0.3 }] }

def c10AmFs : WorkspaceFs :=
  { runs := [("run_c10w", { emptyRunDir with
      candidateFiles := [("cand_0001", "data1"), ("cand_0002", "data2")]
      summaryFile := some c10AmSummary })] }

def c10AmInput : ExportInput :=
  { run_id := "run_c10w", workspace_dir := "/ws", format := "cif", top_k := 0 }

/-- The running-best fold of `summarizeValidation` on bare
`(candidate_id, truth_score)` pairs, started from a given champion. -/
def bestFoldP (bs : String × JsRat) (ps : List (String × JsRat)) : String × JsRat :=
  ps.foldl (fun bs p => if JsRat.lt bs.2 p.2 then p else bs) bs

/-- The same champion fold on index-tagged pairs: it finds the first entry
attaining the maximal score. -/
def firstMaxE (x : Nat × String × JsRat) (ys : List (Nat × String × JsRat)) :
    Nat × String × JsRat :=
  ys.foldl (fun c y => if JsRat.lt c.2.2 y.2.2 then y else c) x

/-- C3 counterexample input: two reports with equal scores, ids in reverse
lexicographic order. -/
def c3Reports : List ValidationReport :=
  [{ candidate_id := "b", truth_score := 0.5, accept := false, checks := [] },
   { candidate_id := "a", truth_score := 0.5, accept := false, checks := [] }]

/-- C3 witness input: a tie plus a strictly larger score. -/
def c3AmReports : List ValidationReport :=
  [{ candidate_id := "b", truth_score := 0.5, accept := false, checks := [] },
   { candidate_id := "a", truth_score := 0.5, accept := false, checks := [] },
   { candidate_id := "c", truth_score := 0.7, accept := false, checks := [] }]

/-- A character list that does not continue a number literal: used to state
the number round trip. -/
def numDelim (cs : List Char) : Bool :=
  match cs with
  | [] => true
  | c :: _ => !(isDigitCh c || c == '.')

/-- A character list that does not start with a digit. -/
def notDigitStart (cs : List Char) : Bool :=
  match cs with
  | [] => true
  | c :: _ => !(isDigitCh c)

/-! # Theorems -/

/-! ## Sanity checks of the primitive models -/

example : sha256Hex "abc" =
    "ba7816bf8f01cfea414140de5dae2223b00361a396177a9cb410ff61f20015ad" := by decide

example : stableStringify (.jobj [("b", .jnum 0.85), ("a", .jstr "x"),
    ("c", .jarr [.jnull, .jbool true, .jnum (JsRat.ofInt (-12))])]) =
    "\x7b\"a\":\"x\",\"b\":0.85,\"c\":[null,true,-12]\x7d" := by decide

example : createRunId 1 "Discover stable oxide" = "run_1_18d23804" := by decide

/-! ## C7: the iteration decision -/

/-- C7: `decideIteration` picks `relax` exactly when the relax-side failure
count is at least the tighten-side one (ties to relax), and the action is
`order[iteration % order.length]` of the mode's order list, defaulting to
`widen_lattice` / `increase_min_distance_scale` on an empty list. -/
theorem c7_decide_iteration (s : ValidationSummary) (p : PolicyCfg) (i : Nat) :
    ((decideIteration s p i).mode = "relax" ↔
      JsRat.le (tightenFailuresOf s) (relaxFailuresOf s)) ∧
    ((decideIteration s p i).mode = "tighten" ↔
      ¬ JsRat.le (tightenFailuresOf s) (relaxFailuresOf s)) ∧
    ((decideIteration s p i).action =
      (let order := if JsRat.le (tightenFailuresOf s) (relaxFailuresOf s)
                    then p.relax_order else p.tighten_order
       if order.length = 0 then
         (if JsRat.le (tightenFailuresOf s) (relaxFailuresOf s)
          then "widen_lattice" else "increase_min_distance_scale")
       else order.getD (i % order.length) "")) := by
  unfold decideIteration relaxFailuresOf tightenFailuresOf
  by_cases h : JsRat.le
      (jsOrZero (recGet s.failure_histogram "min_distance") +
       jsOrZero (recGet s.failure_histogram "coordination_reasonable"))
      (jsOrZero (recGet s.failure_histogram "density_in_range") +
       jsOrZero (recGet s.failure_histogram "charge_neutrality_feasible") +
       jsOrZero (recGet s.failure_histogram "symmetry_match"))
  · simp only [h, if_pos, if_true]
    refine ⟨by simp [h], by simp [h], ?_⟩
    by_cases ho : p.relax_order.length = 0 <;>
      simp [ho, Nat.pos_of_ne_zero, Nat.pos_iff_ne_zero]
  · simp only [h, if_neg, if_false]
    refine ⟨by simp [h], by simp [h], ?_⟩
    by_cases ho : p.tighten_order.length = 0 <;>
      simp [ho, Nat.pos_of_ne_zero, Nat.pos_iff_ne_zero]

/-! ## C8: constraint adjustments are append-only -/

/-- C8: `applyIterationDecision` appends exactly one `{iteration, mode,
action}` entry to `adjustments`, preserving every pre-existing entry in
place; the length grows by one. -/
theorem c8_adjustments_append (c : ConstraintsSpec) (d : IterationDecision) (n : Nat) :
    (applyIterationDecision c d n).adjustments =
      some ((c.adjustments.getD []) ++
        [{ iteration := n, mode := d.mode, action := d.action }]) ∧
    (((applyIterationDecision c d n).adjustments.getD []).length =
      (c.adjustments.getD []).length + 1) ∧
    (((applyIterationDecision c d n).adjustments.getD []).take
      (c.adjustments.getD []).length = c.adjustments.getD []) := by
  have hadj : (applyIterationDecision c d n).adjustments =
      some ((c.adjustments.getD []) ++
        [{ iteration := n, mode := d.mode, action := d.action }]) := by
    unfold applyIterationDecision
    split_ifs <;> rfl
  refine ⟨hadj, ?_, ?_⟩
  · rw [hadj]; simp
  · rw [hadj]; simp

/-! ## Association-list and filesystem lemmas -/

theorem find?_map_set {α : Type} (r : List (String × α)) (k : String) (v : α)
    (hmem : r.any (fun p => p.1 == k) = true) :
    (r.map (fun p => if p.1 == k then (k, v) else p)).find? (fun p => p.1 == k) = some (k, v) := by
  induction r with
  | nil => simp at hmem
  | cons p rest ih =>
    simp only [List.any_cons, Bool.or_eq_true, beq_iff_eq] at hmem
    by_cases hp : p.1 = k
    · rw [List.map_cons, if_pos (show (p.1 == k) = true by simp [hp]),
          List.find?_cons_of_pos _ (by simp)]
    · have hmem2 : rest.any (fun q => q.1 == k) = true := by
        rcases hmem with h | h
        · exact absurd h hp
        · simpa using h
      rw [List.map_cons, if_neg (show ¬ ((p.1 == k) = true) by simp [hp]),
          List.find?_cons_of_neg _ (by simp [hp])]
      exact ih hmem2

theorem find?_map_set_ne {α : Type} (r : List (String × α)) (k k2 : String) (v : α)
    (hne : k2 ≠ k) :
    (r.map (fun p => if p.1 == k then (k, v) else p)).find? (fun p => p.1 == k2) =
      r.find? (fun p => p.1 == k2) := by
  induction r with
  | nil => simp
  | cons p rest ih =>
    by_cases hp : p.1 = k
    · have hkne : ¬ (k = k2) := fun h => hne h.symm
      have hpk2 : ¬ (p.1 = k2) := by
        rw [hp]; exact hkne
      rw [List.map_cons, if_pos (show (p.1 == k) = true by simp [hp]),
          List.find?_cons_of_neg _ (by simp [hkne]),
          List.find?_cons_of_neg _ (by simp [hpk2]), ih]
    · by_cases hp2 : p.1 = k2
      · rw [List.map_cons, if_neg (show ¬ ((p.1 == k) = true) by simp [hp]),
            List.find?_cons_of_pos _ (by simp [hp2]),
            List.find?_cons_of_pos _ (by simp [hp2])]
      · rw [List.map_cons, if_neg (show ¬ ((p.1 == k) = true) by simp [hp]),
            List.find?_cons_of_neg _ (by simp [hp2]),
            List.find?_cons_of_neg _ (by simp [hp2]), ih]

theorem recGet_recSet {α : Type} (r : List (String × α)) (k k2 : String) (v : α) :
    recGet (recSet r k v) k2 = if k2 = k then some v else recGet r k2 := by
  unfold recSet recGet
  by_cases hmem : r.any (fun p => p.1 == k)
  · simp only [hmem, if_true]
    by_cases hk2 : k2 = k
    · subst hk2
      rw [find?_map_set r k2 v hmem]
      simp
    · rw [find?_map_set_ne r k k2 v hk2]
      simp [hk2]
  · rw [Bool.not_eq_true] at hmem
    simp only [hmem, Bool.false_eq_true, if_false]
    have hnone : r.find? (fun p => p.1 == k) = none := by
      rw [List.find?_eq_none]
      intro x hx hcontra
      have : r.any (fun p => p.1 == k) = true := List.any_eq_true.mpr ⟨x, hx, hcontra⟩
      rw [hmem] at this
      exact Bool.false_ne_true this
    by_cases hk2 : k2 = k
    · subst hk2
      rw [List.find?_append, hnone]
      simp
    · rw [List.find?_append]
      cases hfind : r.find? (fun p => p.1 == k2) with
      | some x => simp [hfind, hk2]
      | none =>
        have hkk2 : (k == k2) = false := by
          simp only [beq_eq_false_iff_ne, ne_eq]
          exact fun h => hk2 h.symm
        simp [hfind, hk2, List.find?, hkk2]

theorem getRun_modifyRun (fs : WorkspaceFs) (runId runId2 : String) (f : RunDirFs → RunDirFs) :
    getRun (modifyRun fs runId f) runId2 =
      if runId2 = runId then some (f ((getRun fs runId).getD emptyRunDir))
      else getRun fs runId2 := by
  unfold getRun modifyRun
  exact recGet_recSet fs.runs runId runId2 _

theorem getRun_modifyRun_self (fs : WorkspaceFs) (runId : String) (f : RunDirFs → RunDirFs) :
    getRun (modifyRun fs runId f) runId = some (f ((getRun fs runId).getD emptyRunDir)) := by
  rw [getRun_modifyRun]
  simp

/-! ## C6: the max-iterations precondition leaves the run untouched -/

/-- C6: when the stored manifest already satisfies
`iteration + 1 > policy.max_iters`, `runCspIterate` fails with an error and
performs no writes: the workspace (manifest, constraints, candidates,
reports, summary, events, exports) and the tool-client state are exactly as
before the call. -/
theorem c6_iterate_max_iters {σ : Type} (tc : ToolClient σ) (inp : IterateInput)
    (fs : WorkspaceFs) (st : σ) (m : RunManifest)
    (hm : readManifestFs fs inp.run_id = .ok m)
    (hgt : ((m.iteration : Int) + 1) > inp.config.policy.max_iters) :
    (∃ e, (runCspIterate tc inp fs st).1 = .error e) ∧
    (runCspIterate tc inp fs st).2.1 = fs ∧ (runCspIterate tc inp fs st).2.2 = st := by
  unfold runCspIterate
  rw [hm]
  cases hs : readValidationSummaryFs fs inp.run_id with
  | error e => exact ⟨⟨e, rfl⟩, rfl, rfl⟩
  | ok prevSummary =>
    cases hc : readConstraintsFs fs inp.run_id with
    | error e => exact ⟨⟨e, rfl⟩, rfl, rfl⟩
    | ok prevConstraints =>
      have hcond : ((m.iteration + 1 : Nat) : Int) > inp.config.policy.max_iters := by
        push_cast
        exact hgt
      dsimp only
      rw [if_pos hcond]
      exact ⟨⟨_, rfl⟩, rfl, rfl⟩

/-- Witness for C6 at a concrete run state. -/
theorem c6_iterate_max_iters_witness :
    (∃ e, (runCspIterate (stubToolClient 0.8) c6Input c6Fs (stubInitState 1)).1 = .error e) ∧
    (runCspIterate (stubToolClient 0.8) c6Input c6Fs (stubInitState 1)).2.1 = c6Fs ∧
    (runCspIterate (stubToolClient 0.8) c6Input c6Fs (stubInitState 1)).2.2 = stubInitState 1 :=
  c6_iterate_max_iters (stubToolClient 0.8) c6Input c6Fs (stubInitState 1) c6Manifest
    (by rfl) (by decide)

/-! ## C5: tool-call failure semantics -/

theorem hexDigit_ne_newline (n : Nat) (h : n < 16) : hexDigit n ≠ '\n' := by
  interval_cases n <;> decide

theorem escapeChar_ne_newline (c x : Char) (hx : x ∈ escapeChar c) : x ≠ '\n' := by
  unfold escapeChar at hx
  split_ifs at hx with h1 h2 h3 h4 h5 h6 h7 h8
  case pos =>
    simp only [List.mem_cons, List.not_mem_nil, or_false] at hx
    rcases hx with h | h <;> (subst h; decide)
  case pos =>
    simp only [List.mem_cons, List.not_mem_nil, or_false] at hx
    rcases hx with h | h <;> (subst h; decide)
  case pos =>
    simp only [List.mem_cons, List.not_mem_nil, or_false] at hx
    rcases hx with h | h <;> (subst h; decide)
  case pos =>
    simp only [List.mem_cons, List.not_mem_nil, or_false] at hx
    rcases hx with h | h <;> (subst h; decide)
  case pos =>
    simp only [List.mem_cons, List.not_mem_nil, or_false] at hx
    rcases hx with h | h <;> (subst h; decide)
  case pos =>
    simp only [List.mem_cons, List.not_mem_nil, or_false] at hx
    rcases hx with h | h <;> (subst h; decide)
  case pos =>
    simp only [List.mem_cons, List.not_mem_nil, or_false] at hx
    rcases hx with h | h <;> (subst h; decide)
  · simp only [List.mem_cons, List.not_mem_nil, or_false] at hx
    rcases hx with h | h | h | h | h | h
    · subst h; decide
    · subst h; decide
    · subst h; decide
    · subst h; decide
    · subst h
      exact hexDigit_ne_newline _ (Nat.div_lt_of_lt_mul (by omega))
    · subst h
      exact hexDigit_ne_newline _ (Nat.mod_lt _ (by omega))
  · simp only [List.mem_singleton] at hx
    subst hx
    exact h5

theorem renderStrL_no_newline (s : String) : '\n' ∉ renderStrL s := by
  unfold renderStrL
  intro hmem
  simp only [List.mem_cons, List.mem_append, List.mem_singleton] at hmem
  rcases hmem with h | h | h
  · exact absurd h (by decide)
  · obtain ⟨c, _, hc⟩ := List.mem_flatMap.mp h
    exact escapeChar_ne_newline c '\n' hc rfl
  · exact absurd h (by decide)

theorem joinComma_no_newline (ls : List (List Char)) (h : ∀ l ∈ ls, '\n' ∉ l) :
    '\n' ∉ joinComma ls := by
  induction ls with
  | nil => simp [joinComma]
  | cons l rest ih =>
    cases rest with
    | nil => simpa [joinComma] using h l (by simp)
    | cons l2 rest2 =>
      unfold joinComma
      intro hmem
      rcases List.mem_append.mp hmem with hm | hm
      · exact h l (by simp) hm
      · rcases List.mem_cons.mp hm with hm2 | hm2
        · exact absurd hm2 (by decide)
        · exact ih (fun x hx => h x (by simp [hx])) hm2
theorem digitChar_ne_newline (d : Nat) (h : d < 10) : digitChar d ≠ '\n' := by
  interval_cases d <;> decide

theorem natDigitsAuxF_ne_newline : ∀ (fuel n : Nat) (acc : List Char),
    (∀ x ∈ acc, x ≠ '\n') → ∀ x ∈ natDigitsAuxF fuel n acc, x ≠ '\n' := by
  intro fuel
  induction fuel with
  | zero => exact fun n acc hacc x hx => hacc x hx
  | succ f ih =>
    intro n acc hacc x hx
    unfold natDigitsAuxF at hx
    split_ifs at hx with hn
    · rcases List.mem_cons.mp hx with h | h
      · subst h
        exact digitChar_ne_newline n hn
      · exact hacc x h
    · refine ih (n / 10) (digitChar (n % 10) :: acc) ?_ x hx
      intro y hy
      rcases List.mem_cons.mp hy with h | h
      · subst h
        exact digitChar_ne_newline _ (Nat.mod_lt _ (by norm_num))
      · exact hacc y h

theorem natDigitsL_ne_newline (n : Nat) : ∀ x ∈ natDigitsL n, x ≠ '\n' :=
  natDigitsAuxF_ne_newline (n + 1) n [] (by simp)

theorem renderNumL_no_newline (q : JsRat) : '\n' ∉ renderNumL q := by
  unfold renderNumL
  dsimp only
  by_cases h1 : (ratToDecPair q).1 = 0
  · simp [h1]
  · rw [if_neg h1]
    have hds : ∀ x ∈ natDigitsL (ratToDecPair q).1.natAbs, x ≠ '\n' :=
      natDigitsL_ne_newline _
    have hsign : ∀ x ∈ (if (ratToDecPair q).1 < 0 then ['-'] else ([] : List Char)),
        x ≠ '\n' := by
      intro x hx
      split_ifs at hx
      · rw [List.mem_singleton.mp hx]; decide
      · exact absurd hx (List.not_mem_nil x)
    have hpad : ∀ x ∈ List.replicate ((ratToDecPair q).2 + 1 -
          (natDigitsL (ratToDecPair q).1.natAbs).length) '0' ++
          natDigitsL (ratToDecPair q).1.natAbs, x ≠ '\n' := by
      intro x hx
      rcases List.mem_append.mp hx with h | h
      · rw [List.eq_of_mem_replicate h]; decide
      · exact hds x h
    by_cases h2 : (ratToDecPair q).2 = 0
    · rw [if_pos h2]
      intro hm
      rcases List.mem_append.mp hm with h | h
      · exact hsign _ h rfl
      · exact hds _ h rfl
    · rw [if_neg h2]
      intro hm
      rcases List.mem_append.mp hm with h | h
      · rcases List.mem_append.mp h with h3 | h3
        · exact hsign _ h3 rfl
        · exact hpad _ (List.mem_of_mem_take h3) rfl
      · rcases List.mem_cons.mp h with h4 | h4
        · exact absurd h4 (by decide)
        · exact hpad _ (List.mem_of_mem_drop h4) rfl

theorem plainA_no_newline (f : Nat) (j : Json) : '\n' ∉ plainA f j := by
  induction f generalizing j with
  | zero =>
    cases j with
    | jnull => decide
    | jbool b => cases b <;> decide
    | jnum q => exact renderNumL_no_newline q
    | jstr s => exact renderStrL_no_newline s
    | jarr xs => simp [plainA]
    | jobj kvs => simp [plainA]
  | succ f ih =>
    cases j with
    | jnull => simp [plainA]
    | jbool b => cases b <;> simp [plainA]
    | jnum q => simpa [plainA] using renderNumL_no_newline q
    | jstr s => simpa [plainA] using renderStrL_no_newline s
    | jarr xs =>
      intro hm
      simp only [plainA] at hm
      rcases List.mem_cons.mp hm with h | h
      · exact absurd h (by decide)
      · rcases List.mem_append.mp h with h2 | h2
        · refine absurd h2 (joinComma_no_newline _ ?_)
          intro l hl
          obtain ⟨x, _, hx⟩ := List.mem_map.mp hl
          rw [← hx]
          exact ih x
        · exact absurd (List.mem_singleton.mp h2) (by decide)
    | jobj kvs =>
      intro hm
      simp only [plainA] at hm
      rcases List.mem_cons.mp hm with h | h
      · exact absurd h (by decide)
      · rcases List.mem_append.mp h with h2 | h2
        · refine absurd h2 (joinComma_no_newline _ ?_)
          intro l hl
          obtain ⟨kv, _, hkv⟩ := List.mem_map.mp hl
          rw [← hkv]
          intro hx
          rcases List.mem_append.mp hx with h3 | h3
          · exact renderStrL_no_newline _ h3
          · rcases List.mem_cons.mp h3 with h4 | h4
            · exact absurd h4 (by decide)
            · exact ih kv.2 h4
        · exact absurd (List.mem_singleton.mp h2) (by decide)

/-- Every plain `JSON.stringify` output of the model is a single line: all
control characters inside strings are escaped. -/
theorem plainStringify_single_line (j : Json) : singleLine (plainStringify j) :=
  plainA_no_newline (jsize j) j

/-- C5 is refuted: running discover with the unconfigured real client (the
`csp:discover` path without `--dry-run`), the first tool call throws, yet the
manifest on disk still says `status = "running"` — the workflow never writes
`status = "error"`. -/
theorem c5_counterexample :
    (runCspDiscover realMcpClientUnconfigured c5Input emptyWorkspace ()).1 =
      .error "Real MCP client not configured for tool materials-data-mcp.suggest_chemistries" ∧
    (((getRun (runCspDiscover realMcpClientUnconfigured c5Input emptyWorkspace ()).2.1
        (createRunId 1 "Discover stable oxide")).bind
      (fun d => d.manifestFile)).map (fun m => m.status) = some "running") ∧
    (((getRun (runCspDiscover realMcpClientUnconfigured c5Input emptyWorkspace ()).2.1
        (createRunId 1 "Discover stable oxide")).bind
      (fun d => d.manifestFile)).map (fun m => m.status) ≠ some "error") := by
  refine ⟨rfl, rfl, ?_⟩
  intro hcontra
  rw [show (((getRun (runCspDiscover realMcpClientUnconfigured c5Input emptyWorkspace ()).2.1
        (createRunId 1 "Discover stable oxide")).bind
      (fun d => d.manifestFile)).map (fun m => m.status)) = some "running" from rfl] at hcontra
  simp at hcontra

/-- C5 (amended): when a tool call fails during discover, the error
propagates without any `status = "error"` write — the manifest on disk
still holds the initial `status = "running"`; the CLI catch prints the
single-line JSON error object `{command, status: "error", error, exit_code: 1}`
and returns exit code 1. -/
theorem c5_discover_error_manifest_running {σ : Type} (tc : ToolClient σ) (inp : DiscoverInput)
    (fs : WorkspaceFs) (st : σ) (e : String)
    (h : (runCspDiscover tc inp fs st).1 = .error e) :
    (((getRun (runCspDiscover tc inp fs st).2.1 (createRunId inp.seed inp.objective)).bind
      (fun d => d.manifestFile)).map (fun m => m.status) = some "running") ∧
    runCspCliOutcome "csp:discover" (.error e) =
      (plainStringify (cliErrorPayload "csp:discover" e) ++ "\n", 1) ∧
    singleLine (plainStringify (cliErrorPayload "csp:discover" e)) := by
  refine ⟨?_, rfl, plainStringify_single_line _⟩
  unfold runCspDiscover at h ⊢
  dsimp only at h ⊢
  split at h <;>
    (try dsimp only at h ⊢) <;>
    (try split at h) <;>
    (try dsimp only at h ⊢) <;>
    (try split at h) <;>
    (try dsimp only at h ⊢) <;>
    (try split at h) <;>
    (try dsimp only at h ⊢) <;>
    (try split at h) <;>
    (try dsimp only at h ⊢) <;>
    (try split at h)
  all_goals
    first
    | (simp only [writeManifestFs, appendEventFs, writeConstraintsFs, writeCandidatesFs,
                  modifyRun, getRun, recGet_recSet, if_pos, Option.getD_some, Option.some_bind,
                  Option.map_some]
       simp [recGet_recSet]
       done)
    | simp at h

/-- Witness for the amended C5 theorem at the unconfigured real client. -/
theorem c5_discover_error_manifest_running_witness :
    (((getRun (runCspDiscover realMcpClientUnconfigured c5Input emptyWorkspace ()).2.1
        (createRunId c5Input.seed c5Input.objective)).bind
      (fun d => d.manifestFile)).map (fun m => m.status) = some "running") ∧
    runCspCliOutcome "csp:discover"
      (.error "Real MCP client not configured for tool materials-data-mcp.suggest_chemistries") =
      (plainStringify (cliErrorPayload "csp:discover"
        "Real MCP client not configured for tool materials-data-mcp.suggest_chemistries") ++ "\n", 1) ∧
    singleLine (plainStringify (cliErrorPayload "csp:discover"
      "Real MCP client not configured for tool materials-data-mcp.suggest_chemistries")) :=
  c5_discover_error_manifest_running realMcpClientUnconfigured c5Input emptyWorkspace () _ rfl

/-! ## C1: which summary gets persisted and hashed -/

/-- C1 is refuted: when `batch_validate` returns a summary, discover persists
it and hashes it verbatim, even though it differs from the locally
recomputed `summarizeValidation` output. -/
theorem c1_counterexample :
    ((getRun (runCspDiscover c1Client c1Input emptyWorkspace ()).2.1
        (createRunId 1 "obj")).bind (fun d => d.summaryFile)) = some c1BogusSummary ∧
    (match (runCspDiscover c1Client c1Input emptyWorkspace ()).1 with
      | .ok r => r.summary_hash
      | .error _ => "") = computeSummaryHash c1BogusSummary ∧
    c1BogusSummary ≠
      summarizeValidation [c1Report] (defaultConfig "/cwd").policy.truth_accept_threshold :=
  ⟨rfl, rfl, by decide⟩

/-- C1 (amended): for every possible set of tool responses, each of discover,
iterate (on any readable run below the iteration limit), and validate (on any
run with readable constraints and loadable candidates) persists and hashes the
`batch_validate`-supplied summary when one is present, and the locally
recomputed summary only when the tool omits it: the written `summary.json`
and the returned `summary_hash` both come from that chosen summary. -/
theorem c1_summary_provenance (chems : List ChemistrySuggestion) (priors : ChemistryPriors)
    (constraints : ConstraintsSpec) (cands : List CandidateSpec)
    (reports : List ValidationReport) (osummary : Option ValidationSummary)
    (inp : DiscoverInput) (fs : WorkspaceFs)
    (iinp : IterateInput) (ifs : WorkspaceFs) (man : RunManifest)
    (psum : ValidationSummary) (pcons : ConstraintsSpec)
    (vinp : ValidateInput) (vfs : WorkspaceFs) (vcons : ConstraintsSpec)
    (vcands : List CandidateSpec)
    (hm : readManifestFs ifs iinp.run_id = .ok man)
    (hs : readValidationSummaryFs ifs iinp.run_id = .ok psum)
    (hcn : readConstraintsFs ifs iinp.run_id = .ok pcons)
    (hle : (man.iteration : Int) + 1 ≤ iinp.config.policy.max_iters)
    (hvc : readConstraintsFs vfs vinp.run_id = .ok vcons)
    (hvl : loadCandidates vfs vinp.run_id (listCandidateIdsFs vfs vinp.run_id) = .ok vcands) :
    (((getRun (runCspDiscover (tableClient chems priors constraints cands reports osummary)
        inp fs ()).2.1 (createRunId inp.seed inp.objective)).bind (fun d => d.summaryFile))
      = some (match osummary with
          | some s => s
          | none => summarizeValidation reports inp.config.policy.truth_accept_threshold) ∧
    (match (runCspDiscover (tableClient chems priors constraints cands reports osummary)
        inp fs ()).1 with
      | .ok res => res.summary_hash
      | .error _ => "") =
      computeSummaryHash (match osummary with
        | some s => s
        | none => summarizeValidation reports inp.config.policy.truth_accept_threshold)) ∧
    (((getRun (runCspIterate (tableClient chems priors constraints cands reports osummary)
        iinp ifs ()).2.1 iinp.run_id).bind (fun d => d.summaryFile))
      = some (match osummary with
          | some s => s
          | none => summarizeValidation reports iinp.config.policy.truth_accept_threshold) ∧
    (match (runCspIterate (tableClient chems priors constraints cands reports osummary)
        iinp ifs ()).1 with
      | .ok res => res.summary_hash
      | .error _ => "") =
      computeSummaryHash (match osummary with
        | some s => s
        | none => summarizeValidation reports iinp.config.policy.truth_accept_threshold)) ∧
    ((runCspValidate (tableClient chems priors constraints cands reports osummary)
        vinp vfs ()).1
      = .ok ((match osummary with
          | some s => s
          | none => summarizeValidation reports vinp.config.policy.truth_accept_threshold),
        computeSummaryHash (match osummary with
          | some s => s
          | none => summarizeValidation reports vinp.config.policy.truth_accept_threshold)) ∧
    ((getRun (runCspValidate (tableClient chems priors constraints cands reports osummary)
        vinp vfs ()).2.1 vinp.run_id).bind (fun d => d.summaryFile))
      = some (match osummary with
          | some s => s
          | none => summarizeValidation reports vinp.config.policy.truth_accept_threshold)) := by
  refine ⟨?_, ?_, ?_⟩
  · unfold runCspDiscover
    dsimp only [tableClient]
    by_cases hcs : optTruthy inp.chem_system = true <;>
      simp only [hcs, Bool.false_eq_true, if_true, if_false] <;>
      constructor <;>
      simp [writeManifestFs, appendEventFs, writeConstraintsFs, writeCandidatesFs,
            writeValidationReportsFs, modifyRun, getRun, recGet_recSet]
  · unfold runCspIterate
    rw [hm, hs, hcn]
    have hcond : ¬(((man.iteration + 1 : Nat) : Int) > iinp.config.policy.max_iters) := by
      push_cast
      omega
    dsimp only [tableClient]
    rw [if_neg hcond]
    constructor <;>
      simp [writeConstraintsFs, writeCandidatesFs, writeValidationReportsFs,
            writeIterationArtifactFs, writeManifestFs, appendEventFs, modifyRun,
            getRun, recGet_recSet]
  · unfold runCspValidate
    rw [hvc]
    dsimp only
    rw [hvl]
    dsimp only [tableClient]
    constructor <;>
      simp [writeValidationReportsFs, modifyRun, getRun, recGet_recSet]

/-- Witness for the amended C1 theorem: on the concrete discover run with the
tool-supplied bogus summary, iterate and validate on the resulting workspace
also persist and hash that supplied summary. -/
theorem c1_summary_provenance_witness :
    (((getRun (runCspDiscover c1Client c1Input emptyWorkspace ()).2.1
        (createRunId c1Input.seed c1Input.objective)).bind (fun d => d.summaryFile))
      = some c1BogusSummary ∧
    (match (runCspDiscover c1Client c1Input emptyWorkspace ()).1 with
      | .ok res => res.summary_hash
      | .error _ => "") = computeSummaryHash c1BogusSummary) ∧
    (((getRun (runCspIterate c1Client c1IterInput c1IterFs ()).2.1 c1IterInput.run_id).bind
        (fun d => d.summaryFile)) = some c1BogusSummary ∧
    (match (runCspIterate c1Client c1IterInput c1IterFs ()).1 with
      | .ok res => res.summary_hash
      | .error _ => "") = computeSummaryHash c1BogusSummary) ∧
    ((runCspValidate c1Client c1ValInput c1IterFs ()).1
      = .ok (c1BogusSummary, computeSummaryHash c1BogusSummary) ∧
    ((getRun (runCspValidate c1Client c1ValInput c1IterFs ()).2.1 c1ValInput.run_id).bind
        (fun d => d.summaryFile)) = some c1BogusSummary) :=
  c1_summary_provenance
    [{ chem_system := "A-B", rationale := "r", confidence := 0.5 }]
    c1Priors c1Constraints [c1Candidate] [c1Report] (some c1BogusSummary)
    c1Input emptyWorkspace c1IterInput c1IterFs c1IterManifest c1IterSummary
    c1IterConstraints c1ValInput c1IterFs c1IterConstraints c1ValCandidates
    rfl rfl rfl (by decide) rfl rfl

/-! ## C2: discover is deterministic across fresh workspaces -/

/-- C2: two executions of discover with the stub client in fresh workspaces
— with arbitrary, possibly different, workspace paths and timestamps —
succeed and produce identical `candidate_ids`, `summary_hash`, and
`chosen_candidate_id`: the result triple depends only on the seed, the
objective, and the config. -/
theorem c2_discover_deterministic (seed : Int) (objective : String) (cfg : CspConfig)
    (ws1 ws2 nc1 nu1 nc2 nu2 : String) :
    (∃ res, (runCspDiscover (stubToolClient cfg.policy.truth_accept_threshold)
      { objective := objective, chem_system := none, workspace_dir := ws1, seed := seed,
        config := cfg, now_created := nc1, now_updated := nu1 }
      emptyWorkspace (stubInitState seed)).1 = .ok res) ∧
    Except.map (fun res => (res.candidate_ids, res.summary_hash, res.chosen_candidate_id))
      (runCspDiscover (stubToolClient cfg.policy.truth_accept_threshold)
        { objective := objective, chem_system := none, workspace_dir := ws1, seed := seed,
          config := cfg, now_created := nc1, now_updated := nu1 }
        emptyWorkspace (stubInitState seed)).1 =
    Except.map (fun res => (res.candidate_ids, res.summary_hash, res.chosen_candidate_id))
      (runCspDiscover (stubToolClient cfg.policy.truth_accept_threshold)
        { objective := objective, chem_system := none, workspace_dir := ws2, seed := seed,
          config := cfg, now_created := nc2, now_updated := nu2 }
        emptyWorkspace (stubInitState seed)).1 :=
  ⟨⟨_, rfl⟩, rfl⟩

/-! ## C4: validate does not reproduce the discover hash -/

theorem readConstraintsFs_modifyRun (fs : WorkspaceFs) (runId : String) (f : RunDirFs → RunDirFs)
    (hf : ∀ d, (f d).constraintsFile = d.constraintsFile) :
    readConstraintsFs (modifyRun fs runId f) runId = readConstraintsFs fs runId := by
  unfold readConstraintsFs
  rw [getRun_modifyRun_self]
  cases hg : getRun fs runId with
  | none => simp [hf, emptyRunDir]
  | some d => simp [hf]

theorem listCandidateIdsFs_modifyRun (fs : WorkspaceFs) (runId : String) (f : RunDirFs → RunDirFs)
    (hf : ∀ d, (f d).candidateFiles = d.candidateFiles) :
    listCandidateIdsFs (modifyRun fs runId f) runId = listCandidateIdsFs fs runId := by
  unfold listCandidateIdsFs
  rw [getRun_modifyRun_self]
  cases hg : getRun fs runId with
  | none => simp [hf, emptyRunDir]
  | some d => simp [hf]

theorem readCandidateContentFs_modifyRun (fs : WorkspaceFs) (runId cid : String)
    (f : RunDirFs → RunDirFs)
    (hf : ∀ d, (f d).candidateFiles = d.candidateFiles) :
    readCandidateContentFs (modifyRun fs runId f) runId cid =
      readCandidateContentFs fs runId cid := by
  unfold readCandidateContentFs
  rw [getRun_modifyRun_self]
  cases hg : getRun fs runId with
  | none => simp [hf, emptyRunDir, recGet]
  | some d => simp [hf]

theorem loadCandidates_modifyRun (fs : WorkspaceFs) (runId : String) (f : RunDirFs → RunDirFs)
    (hf : ∀ d, (f d).candidateFiles = d.candidateFiles) (ids : List String) :
    loadCandidates (modifyRun fs runId f) runId ids = loadCandidates fs runId ids := by
  induction ids with
  | nil => rfl
  | cons id rest ih =>
    unfold loadCandidates
    rw [readCandidateContentFs_modifyRun fs runId id f hf, ih]

/-- C4 (amended, part 1): `csp:validate --dry-run` is reproducible — running
it a second time with the same seed, on the workspace state the first
validate produced, returns the identical summary and summary hash. -/
theorem c4_validate_idempotent (seed : Int) (cfg : CspConfig) (runId ws : String)
    (fs : WorkspaceFs) :
    (runCspValidate (stubToolClient cfg.policy.truth_accept_threshold)
      { run_id := runId, workspace_dir := ws, seed := seed, config := cfg }
      (runCspValidate (stubToolClient cfg.policy.truth_accept_threshold)
        { run_id := runId, workspace_dir := ws, seed := seed, config := cfg }
        fs (stubInitState seed)).2.1
      (stubInitState seed)).1 =
    (runCspValidate (stubToolClient cfg.policy.truth_accept_threshold)
      { run_id := runId, workspace_dir := ws, seed := seed, config := cfg }
      fs (stubInitState seed)).1 := by
  conv_rhs => unfold runCspValidate
  conv_lhs => unfold runCspValidate
  cases hc : readConstraintsFs fs runId with
  | error e => simp [hc]
  | ok constraints =>
    cases hl : loadCandidates fs runId (listCandidateIdsFs fs runId) with
    | error e => simp [hc, hl]
    | ok candidates =>
      simp only [hc, hl]
      dsimp only [stubToolClient]
      simp only [writeValidationReportsFs]
      rw [readConstraintsFs_modifyRun _ _ _ ?hf1, hc,
          listCandidateIdsFs_modifyRun _ _ _ ?hf2,
          loadCandidates_modifyRun _ _ _ ?hf3, hl]
      case hf1 => intro d; rfl
      case hf2 => intro d; rfl
      case hf3 => intro d; rfl

set_option maxRecDepth 200000 in
set_option maxHeartbeats 4000000 in
/-- C4 is refuted at seed 1, objective "Discover stable oxide": discover
succeeds with summary hash `491bb859…`, and validate --dry-run on the very
run it produced succeeds with summary hash `5f06df5b…` — the hashes differ,
because validate draws its per-candidate noise from a freshly seeded stub
PRNG at draw positions 1–5, while discover drew them at positions 8–12. -/
theorem c4_counterexample :
    (match c4DiscoverRun.1 with
      | .ok r => some r.summary_hash
      | .error _ => none) =
      some "491bb859655b53d692a68c99360943bd0fb3ede9a68bafcab612c8ccd57c5464" ∧
    (match c4ValidateRun.1 with
      | .ok p => some p.2
      | .error _ => none) =
      some "5f06df5b6bb926f5da4c0997acbb10e65f4a90ba04e39c021a627c0a4b76888f" ∧
    ("491bb859655b53d692a68c99360943bd0fb3ede9a68bafcab612c8ccd57c5464" : String) ≠
      "5f06df5b6bb926f5da4c0997acbb10e65f4a90ba04e39c021a627c0a4b76888f" := by
  refine ⟨by decide, by decide, by decide⟩

/-- When every requested candidate file is present, the export loop
succeeds. -/
theorem buildExports_ok_of_present (fs : WorkspaceFs) (runId fmt exportsDir : String)
    (ids : List String)
    (h : ∀ id ∈ ids,
      ((getRun fs runId).bind (fun d => recGet d.candidateFiles id)).isSome = true) :
    ∃ pr, buildExports fs runId fmt exportsDir ids = .ok pr := by
  induction ids with
  | nil => exact ⟨([], []), rfl⟩
  | cons id rest ih =>
    obtain ⟨c, hc⟩ := Option.isSome_iff_exists.mp (h id (List.mem_cons_self _ _))
    obtain ⟨pr, hb⟩ := ih (fun x hx => h x (List.mem_cons_of_mem _ hx))
    obtain ⟨files, results⟩ := pr
    have hread : readCandidateContentFs fs runId id = .ok c := by
      unfold readCandidateContentFs; rw [hc]
    simp only [buildExports]
    rw [hread]
    dsimp only
    rw [hb]
    exact ⟨_, rfl⟩

/-- The export loop returns one result per requested id, in order. -/
theorem buildExports_map_id (fs : WorkspaceFs) (runId fmt exportsDir : String) :
    ∀ (ids : List String) pr, buildExports fs runId fmt exportsDir ids = .ok pr →
      pr.2.map (fun r => r.candidate_id) = ids := by
  intro ids
  induction ids with
  | nil =>
    intro pr h
    simp only [buildExports] at h
    cases h
    rfl
  | cons id rest ih =>
    intro pr h
    simp only [buildExports] at h
    split at h
    · simp at h
    · split at h
      · simp at h
      · rename_i files results heq
        cases h
        simp only [List.map_cons, List.cons.injEq]
        exact ⟨trivial, ih _ heq⟩

/-- C10 (amended): `runCspExport` takes the first `max(1, top_k)` ids of the
stored summary's `top_candidates` (disk order as fallback); when each selected
id has a candidate file, it exports exactly
`min(|candidate order|, max(1, top_k))` candidates in order — in particular
exactly one when `top_k ≤ 0` and the order is nonempty. -/
theorem c10_export_topk (inp : ExportInput) (fs : WorkspaceFs)
    (h : ∀ id ∈ (candidateOrderOf fs inp.run_id).take (Int.toNat (max 1 inp.top_k)),
      ((getRun fs inp.run_id).bind (fun d => recGet d.candidateFiles id)).isSome = true) :
    ∃ results : List ExportResult,
      (runCspExport inp fs).1 = .ok results ∧
      results.map (fun r => r.candidate_id) =
        (candidateOrderOf fs inp.run_id).take (Int.toNat (max 1 inp.top_k)) ∧
      results.length =
        min (candidateOrderOf fs inp.run_id).length (Int.toNat (max 1 inp.top_k)) ∧
      (inp.top_k ≤ 0 → candidateOrderOf fs inp.run_id ≠ [] → results.length = 1) := by
  obtain ⟨pr, hb⟩ := buildExports_ok_of_present fs inp.run_id inp.format
    (inp.workspace_dir ++ "/runs/" ++ inp.run_id ++ "/exports")
    ((candidateOrderOf fs inp.run_id).take (Int.toNat (max 1 inp.top_k))) h
  obtain ⟨files, results⟩ := pr
  have hmap := buildExports_map_id fs inp.run_id inp.format _ _ _ hb
  have hlen : results.length =
      ((candidateOrderOf fs inp.run_id).take (Int.toNat (max 1 inp.top_k))).length := by
    rw [← hmap, List.length_map]
  refine ⟨results, ?_, hmap, ?_, ?_⟩
  · unfold runCspExport
    dsimp only
    rw [hb]
  · rw [hlen, List.length_take, Nat.min_comm]
  · intro hk hne
    have hmax : max 1 inp.top_k = (1 : Int) := max_eq_left (by omega)
    rw [hlen, hmax, show Int.toNat 1 = 1 from rfl, List.length_take]
    have hpos : 0 < (candidateOrderOf fs inp.run_id).length := List.length_pos.mpr hne
    omega

/-- Concrete instance of the C10 theorem: a run with two candidates on disk,
both listed by the summary, exported with `top_k = 0` — exactly one candidate
(the summary's first) is exported. -/
theorem c10_export_topk_witness :
    (∀ id ∈ (candidateOrderOf c10AmFs c10AmInput.run_id).take
        (Int.toNat (max 1 c10AmInput.top_k)),
      ((getRun c10AmFs c10AmInput.run_id).bind
        (fun d => recGet d.candidateFiles id)).isSome = true) ∧
    ∃ results : List ExportResult,
      (runCspExport c10AmInput c10AmFs).1 = .ok results ∧
      results.map (fun r => r.candidate_id) =
        (candidateOrderOf c10AmFs c10AmInput.run_id).take
          (Int.toNat (max 1 c10AmInput.top_k)) ∧
      results.length = min (candidateOrderOf c10AmFs c10AmInput.run_id).length
        (Int.toNat (max 1 c10AmInput.top_k)) ∧
      (c10AmInput.top_k ≤ 0 → candidateOrderOf c10AmFs c10AmInput.run_id ≠ [] →
        results.length = 1) :=
  ⟨by decide, c10_export_topk c10AmInput c10AmFs (by decide)⟩

/-- C10 is refuted as stated: `c10Fs` has one candidate (`cand_0001`) on
disk, so the claim demands `min(1, max(1, 0)) = 1` export, yet
`runCspExport` follows the stored summary's `top_candidates` (which names
only the absent `cand_0002`) and fails with ENOENT, exporting nothing. -/
theorem c10_counterexample :
    (listCandidateIdsFs c10Fs c10Input.run_id).length = 1 ∧
    min (listCandidateIdsFs c10Fs c10Input.run_id).length
      (Int.toNat (max 1 c10Input.top_k)) = 1 ∧
    (runCspExport c10Input c10Fs).1 =
      .error "ENOENT: no such file or directory, open cand_0002.cif" := by
  exact ⟨rfl, rfl, rfl⟩

/-! ## The stable sort of `summarizeValidation` (C3) -/

/-- `JsRat.lt` agrees with `<` on the denoted rationals. -/
theorem JsRat.lt_iff (a b : JsRat) : JsRat.lt a b ↔ JsRat.toRat a < JsRat.toRat b := by
  unfold JsRat.lt JsRat.toRat
  rw [div_lt_div_iff (by exact_mod_cast a.den_pos) (by exact_mod_cast b.den_pos)]
  constructor
  · intro h; exact_mod_cast h
  · intro h; exact_mod_cast h

/-- `JsRat.le` agrees with `≤` on the denoted rationals. -/
theorem JsRat.le_iff (a b : JsRat) : JsRat.le a b ↔ JsRat.toRat a ≤ JsRat.toRat b := by
  unfold JsRat.le JsRat.toRat
  rw [div_le_div_iff (by exact_mod_cast a.den_pos) (by exact_mod_cast b.den_pos)]
  constructor
  · intro h; exact_mod_cast h
  · intro h; exact_mod_cast h

/-- `JsRat.eqv` agrees with `=` on the denoted rationals. -/
theorem JsRat.eqv_iff (a b : JsRat) : JsRat.eqv a b ↔ JsRat.toRat a = JsRat.toRat b := by
  unfold JsRat.eqv JsRat.toRat
  rw [div_eq_div_iff (by exact_mod_cast a.den_pos.ne.symm : (a.den : ℚ) ≠ 0)
      (by exact_mod_cast b.den_pos.ne.symm : (b.den : ℚ) ≠ 0)]
  constructor
  · intro h; exact_mod_cast h
  · intro h; exact_mod_cast h

/-- A number at least `0` is strictly above the `-1` sentinel of the
best-candidate fold. -/
theorem JsRat.lt_negOne_of_nonneg (q : JsRat) (h : JsRat.le 0 q) :
    JsRat.lt (JsRat.ofInt (-1)) q := by
  have h0 : ((0 : Int)) * (q.den : Int) ≤ q.num * ((1 : Nat) : Int) := h
  have hd : (0 : Int) < (q.den : Int) := by exact_mod_cast q.den_pos
  show (-1 : Int) * (q.den : Int) < q.num * ((1 : Nat) : Int)
  omega

theorem scoreDescRel_refl (x : Nat × String × JsRat) : scoreDescRel x x :=
  Or.inr ⟨rfl, Nat.le_refl _⟩

/-- `scoreDescRel` is total. -/
theorem scoreDescRel_total (a b : Nat × String × JsRat) :
    scoreDescRel a b ∨ scoreDescRel b a := by
  unfold scoreDescRel
  rcases lt_trichotomy (JsRat.toRat a.2.2) (JsRat.toRat b.2.2) with h | h | h
  · right; left; rwa [JsRat.lt_iff]
  · rcases Nat.le_total a.1 b.1 with hi | hi
    · left; right; exact ⟨(JsRat.eqv_iff _ _).mpr h, hi⟩
    · right; right; exact ⟨(JsRat.eqv_iff _ _).mpr h.symm, hi⟩
  · left; left; rwa [JsRat.lt_iff]

/-- `scoreDescRel` is transitive. -/
theorem scoreDescRel_trans (a b c : Nat × String × JsRat)
    (h1 : scoreDescRel a b) (h2 : scoreDescRel b c) : scoreDescRel a c := by
  unfold scoreDescRel at h1 h2 ⊢
  rcases h1 with x | ⟨x, x2⟩ <;> rcases h2 with y | ⟨y, y2⟩
  · left; rw [JsRat.lt_iff] at x y ⊢; linarith
  · left; rw [JsRat.lt_iff] at x ⊢; rw [JsRat.eqv_iff] at y; linarith
  · left; rw [JsRat.lt_iff] at y ⊢; rw [JsRat.eqv_iff] at x; linarith
  · right
    refine ⟨?_, Nat.le_trans x2 y2⟩
    rw [JsRat.eqv_iff] at x y ⊢
    exact x.trans y

/-- A sorted pair under `scoreDescRel` has weakly descending scores. -/
theorem scoreDescRel_le {a b : Nat × String × JsRat} (h : scoreDescRel a b) :
    JsRat.le b.2.2 a.2.2 := by
  rcases h with h | ⟨h, _⟩
  · rw [JsRat.le_iff]; rw [JsRat.lt_iff] at h; linarith
  · rw [JsRat.le_iff]; rw [JsRat.eqv_iff] at h; linarith

/-- Mutually related entries share the index. -/
theorem scoreDescRel_antisymm_idx {x y : Nat × String × JsRat}
    (h1 : scoreDescRel x y) (h2 : scoreDescRel y x) : x.1 = y.1 := by
  rcases h1 with a | ⟨a, a2⟩ <;> rcases h2 with b | ⟨b, b2⟩
  · rw [JsRat.lt_iff] at a b; linarith
  · rw [JsRat.lt_iff] at a; rw [JsRat.eqv_iff] at b; linarith
  · rw [JsRat.lt_iff] at b; rw [JsRat.eqv_iff] at a; linarith
  · omega

/-- `record[k] = v` on a fresh key appends. -/
theorem recSet_append {α : Type} (r : List (String × α)) (k : String) (v : α)
    (h : k ∉ r.map Prod.fst) : recSet r k v = r ++ [(k, v)] := by
  have hany : r.any (fun p => p.1 == k) = false := by
    rw [List.any_eq_false]
    intro p hp
    simp only [beq_iff_eq]
    intro hpk
    exact h (hpk ▸ List.mem_map_of_mem Prod.fst hp)
  unfold recSet
  rw [hany]
  simp

/-- The truth-score record built by the fold is the report pairs in report
order (fresh, pairwise-distinct ids). -/
theorem summarizeFold_fst (reports : List ValidationReport) :
    ∀ (acc : (List (String × JsRat)) × (List (String × JsRat)) × String × JsRat),
      (∀ r ∈ reports, r.candidate_id ∉ acc.1.map Prod.fst) →
      (reports.map (fun r => r.candidate_id)).Nodup →
      (reports.foldl summarizeStep acc).1 = acc.1 ++ reportPairs reports := by
  induction reports with
  | nil => intro acc _ _; simp [reportPairs]
  | cons r rs ih =>
    intro acc hdisj hnd
    have hrn : r.candidate_id ∉ rs.map (fun x => x.candidate_id) :=
      (List.nodup_cons.mp hnd).1
    have hstep1 : (summarizeStep acc r).1 =
        acc.1 ++ [(r.candidate_id, r.truth_score)] := by
      dsimp only [summarizeStep]
      exact recSet_append _ _ _ (hdisj r (List.mem_cons_self _ _))
    have hdisj2 : ∀ x ∈ rs, x.candidate_id ∉ (summarizeStep acc r).1.map Prod.fst := by
      intro x hx
      rw [hstep1]
      simp only [List.map_append, List.mem_append]
      rintro (hmem | hmem)
      · exact hdisj x (List.mem_cons_of_mem _ hx) hmem
      · simp only [List.map_cons, List.map_nil, List.mem_singleton] at hmem
        exact hrn (hmem ▸ List.mem_map_of_mem (fun y => y.candidate_id) hx)
    rw [List.foldl_cons, ih _ hdisj2 (List.nodup_cons.mp hnd).2, hstep1, List.append_assoc]
    rfl

/-- The best-candidate components of the fold depend only on the report
pairs. -/
theorem summarizeFold_best (reports : List ValidationReport) :
    ∀ (acc : (List (String × JsRat)) × (List (String × JsRat)) × String × JsRat),
      ((reports.foldl summarizeStep acc).2.2.1, (reports.foldl summarizeStep acc).2.2.2) =
        bestFoldP (acc.2.2.1, acc.2.2.2) (reportPairs reports) := by
  induction reports with
  | nil => intro acc; simp [bestFoldP, reportPairs]
  | cons r rs ih =>
    intro acc
    rw [List.foldl_cons, ih (summarizeStep acc r)]
    show bestFoldP _ (reportPairs rs) =
      bestFoldP (acc.2.2.1, acc.2.2.2) ((r.candidate_id, r.truth_score) :: reportPairs rs)
    unfold bestFoldP
    rw [List.foldl_cons]
    have harg : ((summarizeStep acc r).2.2.1, (summarizeStep acc r).2.2.2) =
        (if JsRat.lt (acc.2.2.1, acc.2.2.2).2 (r.candidate_id, r.truth_score).2
          then (r.candidate_id, r.truth_score) else (acc.2.2.1, acc.2.2.2)) := rfl
    rw [harg]

theorem bestFoldP_cons (x : String × JsRat) (p : String × JsRat) (ps : List (String × JsRat)) :
    bestFoldP x (p :: ps) = bestFoldP (if JsRat.lt x.2 p.2 then p else x) ps := rfl

theorem firstMaxE_cons (x y : Nat × String × JsRat) (ys : List (Nat × String × JsRat)) :
    firstMaxE x (y :: ys) = firstMaxE (if JsRat.lt x.2.2 y.2.2 then y else x) ys := rfl

/-- The champion fold returns an element of champion-or-list. -/
theorem firstMaxE_mem (ys : List (Nat × String × JsRat)) :
    ∀ x, firstMaxE x ys ∈ x :: ys := by
  induction ys with
  | nil => intro x; exact List.mem_singleton.mpr rfl
  | cons y ys ih =>
    intro x
    rw [firstMaxE_cons]
    by_cases h : JsRat.lt x.2.2 y.2.2
    · rw [if_pos h]
      exact List.mem_cons_of_mem _ (ih y)
    · rw [if_neg h]
      rcases List.mem_cons.mp (ih x) with h1 | h1
      · rw [h1]
        exact List.mem_cons_self _ _
      · exact List.mem_cons_of_mem _ (List.mem_cons_of_mem _ h1)

/-- Forgetting the index tags, the champion fold is the best-candidate
fold. -/
theorem firstMaxE_snd (ys : List (Nat × String × JsRat)) :
    ∀ x, (firstMaxE x ys).2 = bestFoldP x.2 (ys.map (fun q => q.2)) := by
  induction ys with
  | nil => intro x; rfl
  | cons y ys ih =>
    intro x
    rw [firstMaxE_cons, List.map_cons, bestFoldP_cons]
    by_cases h : JsRat.lt x.2.2 y.2.2
    · rw [if_pos h, if_pos h, ih y]
    · rw [if_neg h, if_neg h, ih x]

/-- Kept champions stay related to every dropped entry: helper for the tie
case. -/
theorem scoreDescRel_step {fm x y : Nat × String × JsRat}
    (hfx : scoreDescRel fm x) (hxy : ¬ JsRat.lt x.2.2 y.2.2) (hij : x.1 < y.1) :
    scoreDescRel fm y := by
  rw [JsRat.lt_iff] at hxy
  have hyx : JsRat.toRat y.2.2 ≤ JsRat.toRat x.2.2 := not_lt.mp hxy
  rcases hfx with h1 | ⟨h1, h2⟩
  · left; rw [JsRat.lt_iff] at h1 ⊢; linarith
  · rw [JsRat.eqv_iff] at h1
    rcases lt_or_eq_of_le hyx with hlt | heq
    · left; rw [JsRat.lt_iff]; linarith
    · right
      refine ⟨?_, le_trans h2 (Nat.le_of_lt hij)⟩
      rw [JsRat.eqv_iff]
      rw [h1, ← heq]

/-- A strictly better new champion is related to the old one. -/
theorem scoreDescRel_left_of_lt {fm x y : Nat × String × JsRat}
    (h : JsRat.lt x.2.2 y.2.2) (hr : scoreDescRel fm y) : scoreDescRel fm x := by
  left
  rw [JsRat.lt_iff] at h ⊢
  rcases hr with h1 | ⟨h1, _⟩
  · rw [JsRat.lt_iff] at h1; linarith
  · rw [JsRat.eqv_iff] at h1; linarith

/-- The champion fold dominates every entry, provided indices increase along
the list. -/
theorem firstMaxE_rel (ys : List (Nat × String × JsRat)) :
    ∀ x, List.Pairwise (fun a b : Nat × String × JsRat => a.1 < b.1) (x :: ys) →
      ∀ z ∈ x :: ys, scoreDescRel (firstMaxE x ys) z := by
  induction ys with
  | nil =>
    intro x _ z hz
    rw [List.mem_singleton] at hz
    subst hz
    exact scoreDescRel_refl z
  | cons y ys ih =>
    intro x hpw z hz
    rw [firstMaxE_cons]
    have hxy : x.1 < y.1 := (List.pairwise_cons.mp hpw).1 y (List.mem_cons_self _ _)
    by_cases h : JsRat.lt x.2.2 y.2.2
    · rw [if_pos h]
      have hpw2 : List.Pairwise (fun a b : Nat × String × JsRat => a.1 < b.1) (y :: ys) :=
        hpw.of_cons
      rcases List.mem_cons.mp hz with h1 | h1
      · subst h1
        exact scoreDescRel_left_of_lt h (ih y hpw2 y (List.mem_cons_self _ _))
      · exact ih y hpw2 z h1
    · rw [if_neg h]
      have hpw2 : List.Pairwise (fun a b : Nat × String × JsRat => a.1 < b.1) (x :: ys) := by
        rcases List.pairwise_cons.mp hpw with ⟨hx, hrest⟩
        exact List.pairwise_cons.mpr
          ⟨fun b hb => hx b (List.mem_cons_of_mem _ hb), hrest.of_cons⟩
      rcases List.mem_cons.mp hz with h1 | h1
      · rw [h1]
        exact ih x hpw2 x (List.mem_cons_self _ _)
      · rcases List.mem_cons.mp h1 with h2 | h2
        · subst h2
          exact scoreDescRel_step (ih x hpw2 x (List.mem_cons_self _ _)) h hxy
        · exact ih x hpw2 z (List.mem_cons_of_mem _ h2)

/-- The indices of `l.enum` increase strictly. -/
theorem enum_pairwise_fst {α : Type} (l : List α) :
    List.Pairwise (fun a b : Nat × α => a.1 < b.1) l.enum := by
  rw [List.pairwise_iff_getElem]
  intro i j hi hj hij
  simp only [List.getElem_enum]
  exact hij

/-- Entries of `l.enum` are determined by their index. -/
theorem enum_mem_eq {α : Type} {l : List α} {x y : Nat × α}
    (hx : x ∈ l.enum) (hy : y ∈ l.enum) (hxy : x.1 = y.1) : x = y := by
  obtain ⟨i, hi, hix⟩ := List.mem_iff_getElem.mp hx
  obtain ⟨j, hj, hjy⟩ := List.mem_iff_getElem.mp hy
  simp only [List.getElem_enum] at hix hjy
  rw [← hix, ← hjy] at hxy
  simp at hxy
  subst hxy
  rw [← hix, ← hjy]

theorem jsStrOr_some_ne {s : String} (b : String) (h : s ≠ "") : jsStrOr (some s) b = s := by
  simp only [jsStrOr]
  rw [if_neg h]

/-- The best-candidate fold returns the champion or a list element. -/
theorem bestFoldP_mem (ps : List (String × JsRat)) :
    ∀ x, bestFoldP x ps ∈ x :: ps := by
  induction ps with
  | nil => intro x; exact List.mem_singleton.mpr rfl
  | cons p ps ih =>
    intro x
    rw [bestFoldP_cons]
    by_cases h : JsRat.lt x.2 p.2
    · rw [if_pos h]
      exact List.mem_cons_of_mem _ (ih p)
    · rw [if_neg h]
      rcases List.mem_cons.mp (ih x) with h1 | h1
      · rw [h1]
        exact List.mem_cons_self _ _
      · exact List.mem_cons_of_mem _ (List.mem_cons_of_mem _ h1)

/-- C3 (amended): for reports with distinct nonempty ids and nonnegative
scores, `summarizeValidation` records the report pairs in report order,
`top_candidates` is their stable sort by score descending (ties in
first-seen report order, not by id), and `best_candidate_id` is the id of
its first entry — the first report attaining the maximal score. -/
theorem c3_summarize_sorted (reports : List ValidationReport) (t : JsRat)
    (hne : reports ≠ [])
    (hnd : (reports.map (fun r => r.candidate_id)).Nodup)
    (hpos : ∀ r ∈ reports, JsRat.le 0 r.truth_score)
    (hid : ∀ r ∈ reports, r.candidate_id ≠ "") :
    (summarizeValidation reports t).truth_scores = reportPairs reports ∧
    (summarizeValidation reports t).top_candidates =
      topCandidatesOf (reportPairs reports) ∧
    List.Pairwise (fun a b : TopCandidate => JsRat.le b.truth_score a.truth_score)
      (summarizeValidation reports t).top_candidates ∧
    List.Perm (tcPairs (summarizeValidation reports t).top_candidates)
      (reportPairs reports) ∧
    ∃ u us, (summarizeValidation reports t).top_candidates = u :: us ∧
      (summarizeValidation reports t).best_candidate_id = u.candidate_id := by
  obtain ⟨r0, rs, rfl⟩ : ∃ r0 rs, reports = r0 :: rs := by
    cases reports with
    | nil => exact absurd rfl hne
    | cons a l => exact ⟨a, l, rfl⟩
  have hts : (summarizeValidation (r0 :: rs) t).truth_scores = reportPairs (r0 :: rs) := by
    have h0 : (summarizeValidation (r0 :: rs) t).truth_scores =
        ((r0 :: rs).foldl summarizeStep ([], emptyHistogram, "", JsRat.ofInt (-1))).1 := rfl
    rw [h0, summarizeFold_fst (r0 :: rs) _ (by simp) hnd]
    simp
  have htc : (summarizeValidation (r0 :: rs) t).top_candidates =
      topCandidatesOf (reportPairs (r0 :: rs)) := by
    have h0 : (summarizeValidation (r0 :: rs) t).top_candidates =
        topCandidatesOf (summarizeValidation (r0 :: rs) t).truth_scores := rfl
    rw [h0, hts]
  have hpsc : reportPairs (r0 :: rs) =
      (r0.candidate_id, r0.truth_score) :: reportPairs rs := rfl
  haveI : IsTotal (Nat × String × JsRat) scoreDescRel := ⟨scoreDescRel_total⟩
  haveI : IsTrans (Nat × String × JsRat) scoreDescRel := ⟨scoreDescRel_trans⟩
  have hsorted : List.Sorted scoreDescRel
      ((reportPairs (r0 :: rs)).enum.insertionSort scoreDescRel) :=
    List.sorted_insertionSort scoreDescRel _
  have hperm : List.Perm ((reportPairs (r0 :: rs)).enum.insertionSort scoreDescRel)
      ((reportPairs (r0 :: rs)).enum) := List.perm_insertionSort _ _
  have hpw : List.Pairwise (fun a b : TopCandidate => JsRat.le b.truth_score a.truth_score)
      (topCandidatesOf (reportPairs (r0 :: rs))) := by
    unfold topCandidatesOf
    rw [List.pairwise_map]
    exact List.Pairwise.imp (fun h => scoreDescRel_le h) hsorted
  have hcomp : ((fun u : TopCandidate => (u.candidate_id, u.truth_score)) ∘
      (fun p : Nat × String × JsRat => TopCandidate.mk p.2.1 p.2.2)) = Prod.snd := by
    funext p
    rfl
  have hpm : List.Perm (tcPairs (topCandidatesOf (reportPairs (r0 :: rs))))
      (reportPairs (r0 :: rs)) := by
    unfold tcPairs topCandidatesOf
    rw [List.map_map, hcomp]
    have h1 := hperm.map Prod.snd
    rwa [List.enum_map_snd] at h1
  have henum : (reportPairs (r0 :: rs)).enum =
      (0, r0.candidate_id, r0.truth_score) :: List.enumFrom 1 (reportPairs rs) := by
    rw [hpsc]
    exact List.enum_cons
  have hlen : ((reportPairs (r0 :: rs)).enum.insertionSort scoreDescRel).length =
      (reportPairs (r0 :: rs)).enum.length := hperm.length_eq
  cases hsrt : (reportPairs (r0 :: rs)).enum.insertionSort scoreDescRel with
  | nil =>
    exfalso
    rw [hsrt, henum] at hlen
    simp at hlen
  | cons hd tl =>
    have hhd_srt : hd ∈ (reportPairs (r0 :: rs)).enum.insertionSort scoreDescRel := by
      rw [hsrt]
      exact List.mem_cons_self _ _
    have hhd_e : hd ∈ (reportPairs (r0 :: rs)).enum := hperm.subset hhd_srt
    have hP : ∀ z ∈ (reportPairs (r0 :: rs)).enum, scoreDescRel hd z := by
      intro z hz
      have hz2 : z ∈ (reportPairs (r0 :: rs)).enum.insertionSort scoreDescRel :=
        hperm.symm.subset hz
      rw [hsrt] at hz2
      rcases List.mem_cons.mp hz2 with h1 | h1
      · rw [h1]
        exact scoreDescRel_refl _
      · have hs2 := hsorted
        rw [hsrt] at hs2
        exact (List.pairwise_cons.mp hs2).1 z h1
    have hfm_mem : firstMaxE (0, r0.candidate_id, r0.truth_score)
        (List.enumFrom 1 (reportPairs rs)) ∈ (reportPairs (r0 :: rs)).enum := by
      rw [henum]
      exact firstMaxE_mem _ _
    have hPfm : ∀ z ∈ (reportPairs (r0 :: rs)).enum, scoreDescRel
        (firstMaxE (0, r0.candidate_id, r0.truth_score)
          (List.enumFrom 1 (reportPairs rs))) z := by
      have hpwe := enum_pairwise_fst (reportPairs (r0 :: rs))
      rw [henum] at hpwe
      intro z hz
      rw [henum] at hz
      exact firstMaxE_rel _ _ hpwe z hz
    have hidx : hd.1 = (firstMaxE (0, r0.candidate_id, r0.truth_score)
        (List.enumFrom 1 (reportPairs rs))).1 :=
      scoreDescRel_antisymm_idx (hP _ hfm_mem) (hPfm hd hhd_e)
    have hhdfm : hd = firstMaxE (0, r0.candidate_id, r0.truth_score)
        (List.enumFrom 1 (reportPairs rs)) := enum_mem_eq hhd_e hfm_mem hidx
    have hfm2 : (firstMaxE (0, r0.candidate_id, r0.truth_score)
        (List.enumFrom 1 (reportPairs rs))).2 =
        bestFoldP (r0.candidate_id, r0.truth_score) (reportPairs rs) := by
      rw [firstMaxE_snd]
      have hmsnd : (List.enumFrom 1 (reportPairs rs)).map (fun q => q.2) = reportPairs rs :=
        List.enumFrom_map_snd 1 (reportPairs rs)
      rw [hmsnd]
    have hfold := summarizeFold_best (r0 :: rs) ([], emptyHistogram, "", JsRat.ofInt (-1))
    have hfold1 : ((r0 :: rs).foldl summarizeStep
        ([], emptyHistogram, "", JsRat.ofInt (-1))).2.2.1 =
        (bestFoldP ("", JsRat.ofInt (-1)) (reportPairs (r0 :: rs))).1 :=
      congrArg Prod.fst hfold
    have hlt : JsRat.lt (("", JsRat.ofInt (-1)) : String × JsRat).2
        (r0.candidate_id, r0.truth_score).2 :=
      JsRat.lt_negOne_of_nonneg _ (hpos r0 (List.mem_cons_self _ _))
    have hstep0 : bestFoldP ("", JsRat.ofInt (-1)) (reportPairs (r0 :: rs)) =
        bestFoldP (r0.candidate_id, r0.truth_score) (reportPairs rs) := by
      rw [hpsc, bestFoldP_cons, if_pos hlt]
    have hbf_ne : (bestFoldP (r0.candidate_id, r0.truth_score) (reportPairs rs)).1 ≠ "" := by
      have hmem2 : bestFoldP (r0.candidate_id, r0.truth_score) (reportPairs rs) ∈
          reportPairs (r0 :: rs) := by
        rw [hpsc]
        exact bestFoldP_mem _ _
      obtain ⟨r, hr, hreq⟩ := List.mem_map.mp hmem2
      rw [← hreq]
      exact hid r hr
    have hbestid : (summarizeValidation (r0 :: rs) t).best_candidate_id =
        (bestFoldP (r0.candidate_id, r0.truth_score) (reportPairs rs)).1 := by
      have h0 : (summarizeValidation (r0 :: rs) t).best_candidate_id =
          jsStrOr (some (((r0 :: rs).foldl summarizeStep
            ([], emptyHistogram, "", JsRat.ofInt (-1))).2.2.1))
            (jsStrOr (((r0 :: rs).head?).map (fun r => r.candidate_id)) "") := rfl
      rw [h0, hfold1, hstep0]
      exact jsStrOr_some_ne _ hbf_ne
    refine ⟨hts, htc, ?_, ?_, ?_⟩
    · rw [htc]
      exact hpw
    · rw [htc]
      exact hpm
    · refine ⟨⟨hd.2.1, hd.2.2⟩, tl.map (fun p => ⟨p.2.1, p.2.2⟩), ?_, ?_⟩
      · rw [htc]
        unfold topCandidatesOf
        rw [hsrt, List.map_cons]
      · rw [hbestid, ← hfm2, hhdfm]

/-- Concrete instance of the C3 theorem: a tie at 0.5 under a strictly
larger 0.7 score. -/
theorem c3_summarize_sorted_witness :
    (c3AmReports ≠ [] ∧ (c3AmReports.map (fun r => r.candidate_id)).Nodup ∧
      (∀ r ∈ c3AmReports, JsRat.le 0 r.truth_score) ∧
      (∀ r ∈ c3AmReports, r.candidate_id ≠ "")) ∧
    ((summarizeValidation c3AmReports 0.8).truth_scores = reportPairs c3AmReports ∧
     (summarizeValidation c3AmReports 0.8).top_candidates =
       topCandidatesOf (reportPairs c3AmReports) ∧
     List.Pairwise (fun a b : TopCandidate => JsRat.le b.truth_score a.truth_score)
       (summarizeValidation c3AmReports 0.8).top_candidates ∧
     List.Perm (tcPairs (summarizeValidation c3AmReports 0.8).top_candidates)
       (reportPairs c3AmReports) ∧
     ∃ u us, (summarizeValidation c3AmReports 0.8).top_candidates = u :: us ∧
       (summarizeValidation c3AmReports 0.8).best_candidate_id = u.candidate_id) :=
  ⟨⟨by decide, by decide, by decide, by decide⟩,
   c3_summarize_sorted c3AmReports 0.8 (by decide) (by decide) (by decide) (by decide)⟩

/-- C3 is refuted as stated: on two reports tied at score 0.5 with ids in
the order "b", "a", the tie stays in report order — `top_candidates` lists
"b" before "a" — and `best_candidate_id` is "b", not the lexicographically
smallest id "a" among the maximal scores. -/
theorem c3_counterexample :
    (summarizeValidation c3Reports 0.8).top_candidates.map
      (fun u => u.candidate_id) = ["b", "a"] ∧
    ¬ sortedByScoreThenId (summarizeValidation c3Reports 0.8).top_candidates ∧
    (summarizeValidation c3Reports 0.8).best_candidate_id = "b" ∧
    strLe "a" "b" ∧ ¬ strLe "b" "a" :=
  ⟨by decide, by decide, by decide, by decide, by decide⟩

/-! ## Canonical serializer round trip (C9) -/

theorem u16Le_total : ∀ as bs : List Nat, u16Le as bs = true ∨ u16Le bs as = true := by
  intro as
  induction as with
  | nil => intro bs; left; rfl
  | cons a as ih =>
    intro bs
    cases bs with
    | nil => right; rfl
    | cons b bs =>
      by_cases hab : a < b
      · left; simp [u16Le, hab]
      · by_cases hba : b < a
        · right; simp [u16Le, hba, hab]
        · rcases ih bs with h | h
          · left; simp [u16Le, hab, hba, h]
          · right; simp [u16Le, hab, hba, h]

theorem u16Le_trans : ∀ as bs cs : List Nat,
    u16Le as bs = true → u16Le bs cs = true → u16Le as cs = true := by
  intro as
  induction as with
  | nil => intro bs cs _ _; rfl
  | cons a as ih =>
    intro bs cs h1 h2
    cases bs with
    | nil => simp [u16Le] at h1
    | cons b bs =>
      cases cs with
      | nil => simp [u16Le] at h2
      | cons c cs =>
        simp only [u16Le] at h1 h2 ⊢
        split_ifs at h1 h2 ⊢ <;>
          first
          | rfl
          | omega
          | exact ih bs cs h1 h2
          | exact Bool.noConfusion h1
          | exact Bool.noConfusion h2

theorem jsKeyLe_total (a b : String × Json) : jsKeyLe a b ∨ jsKeyLe b a := by
  unfold jsKeyLe
  exact u16Le_total _ _

theorem jsKeyLe_trans (a b c : String × Json) (h1 : jsKeyLe a b) (h2 : jsKeyLe b c) :
    jsKeyLe a c := by
  unfold jsKeyLe at h1 h2 ⊢
  exact u16Le_trans _ _ _ h1 h2

theorem sortMembers_perm (l : List (String × Json)) : List.Perm (sortMembers l) l :=
  List.perm_insertionSort _ _

theorem sortMembers_sorted (l : List (String × Json)) :
    List.Sorted jsKeyLe (sortMembers l) := by
  haveI : IsTotal (String × Json) jsKeyLe := ⟨jsKeyLe_total⟩
  haveI : IsTrans (String × Json) jsKeyLe := ⟨jsKeyLe_trans⟩
  exact List.sorted_insertionSort jsKeyLe l

theorem sortMembers_idem (l : List (String × Json)) :
    sortMembers (sortMembers l) = sortMembers l :=
  List.Sorted.insertionSort_eq (sortMembers_sorted l)

theorem orderedInsert_map_comm (g : (String × Json) → (String × Json))
    (hg : ∀ p, (g p).1 = p.1) (a : String × Json) :
    ∀ l : List (String × Json),
      List.orderedInsert jsKeyLe (g a) (l.map g) = (List.orderedInsert jsKeyLe a l).map g := by
  intro l
  induction l with
  | nil => rfl
  | cons x xs ih =>
    have hiff : jsKeyLe (g a) (g x) ↔ jsKeyLe a x := by
      unfold jsKeyLe
      rw [hg a, hg x]
    by_cases h : jsKeyLe a x
    · simp only [List.map_cons, List.orderedInsert, if_pos h, if_pos (hiff.mpr h)]
    · simp only [List.map_cons, List.orderedInsert, if_neg h,
        if_neg (fun hc => h (hiff.mp hc)), ih]

theorem sortMembers_map_comm (g : (String × Json) → (String × Json))
    (hg : ∀ p, (g p).1 = p.1) :
    ∀ l : List (String × Json), sortMembers (l.map g) = (sortMembers l).map g := by
  intro l
  induction l with
  | nil => rfl
  | cons x xs ih =>
    unfold sortMembers at ih ⊢
    simp only [List.map_cons, List.insertionSort, ih]
    exact orderedInsert_map_comm g hg x _

theorem jsize_pos : ∀ x : Json, 1 ≤ jsize x := by
  intro x
  cases x <;> simp [jsize]

theorem jsize_le_jsizeL : ∀ (xs : List Json) (x : Json), x ∈ xs → jsize x ≤ jsizeL xs := by
  intro xs
  induction xs with
  | nil => intro x hx; exact absurd hx (List.not_mem_nil x)
  | cons y ys ih =>
    intro x hx
    rcases List.mem_cons.mp hx with h | h
    · rw [h]
      simp [jsizeL]
    · have := ih x h
      simp [jsizeL]
      omega

theorem jsize_le_jsizeM : ∀ (kvs : List (String × Json)) (kv : String × Json),
    kv ∈ kvs → jsize kv.2 ≤ jsizeM kvs := by
  intro kvs
  induction kvs with
  | nil => intro kv hkv; exact absurd hkv (List.not_mem_nil kv)
  | cons y ys ih =>
    intro kv hkv
    rcases List.mem_cons.mp hkv with h | h
    · rw [h]
      simp [jsizeM]
    · have := ih kv h
      simp [jsizeM]
      omega

/-- `ssA` is fuel-irrelevant above `jsize`. -/
theorem ssA_eq_jsize : ∀ n : Nat, ∀ x : Json, jsize x ≤ n → ssA n x = ssA (jsize x) x := by
  intro n
  induction n using Nat.strong_induction_on with
  | _ n IH =>
    intro x hn
    cases x with
    | jnull => cases n <;> rfl
    | jbool b => cases n <;> rfl
    | jnum q => cases n <;> rfl
    | jstr s => cases n <;> rfl
    | jarr xs =>
      cases n with
      | zero => simp [jsize] at hn
      | succ m =>
        simp only [ssA, jsize]
        have hchild : ∀ x ∈ xs, ssA m x = ssA (jsizeL xs) x := by
          intro x hx
          have hx1 : jsize x ≤ jsizeL xs := jsize_le_jsizeL xs x hx
          have hm : jsize (Json.jarr xs) ≤ m + 1 := hn
          simp only [jsize] at hm
          rw [IH m (by omega) x (by omega), IH (jsizeL xs) (by omega) x hx1]
        rw [List.map_congr_left hchild]
    | jobj kvs =>
      cases n with
      | zero => simp [jsize] at hn
      | succ m =>
        simp only [ssA, jsize]
        have hchild : ∀ kv ∈ sortMembers kvs,
            (fun kv : String × Json => renderStrL kv.1 ++ ':' :: ssA m kv.2) kv =
            (fun kv : String × Json => renderStrL kv.1 ++ ':' :: ssA (jsizeM kvs) kv.2) kv := by
          intro kv hkv
          have hkv2 : kv ∈ kvs := (sortMembers_perm kvs).subset hkv
          have hx1 : jsize kv.2 ≤ jsizeM kvs := jsize_le_jsizeM kvs kv hkv2
          have hm : jsize (Json.jobj kvs) ≤ m + 1 := hn
          simp only [jsize] at hm
          dsimp only
          rw [IH m (by omega) kv.2 (by omega), IH (jsizeM kvs) (by omega) kv.2 hx1]
        rw [List.map_congr_left hchild]

/-- `canonA` is fuel-irrelevant above `jsize`. -/
theorem canonA_eq_jsize : ∀ n : Nat, ∀ x : Json, jsize x ≤ n →
    canonA n x = canonA (jsize x) x := by
  intro n
  induction n using Nat.strong_induction_on with
  | _ n IH =>
    intro x hn
    cases x with
    | jnull => cases n <;> rfl
    | jbool b => cases n <;> rfl
    | jnum q => cases n <;> rfl
    | jstr s => cases n <;> rfl
    | jarr xs =>
      cases n with
      | zero => simp [jsize] at hn
      | succ m =>
        simp only [canonA, jsize]
        have hchild : ∀ x ∈ xs, canonA m x = canonA (jsizeL xs) x := by
          intro x hx
          have hx1 : jsize x ≤ jsizeL xs := jsize_le_jsizeL xs x hx
          have hm : jsize (Json.jarr xs) ≤ m + 1 := hn
          simp only [jsize] at hm
          rw [IH m (by omega) x (by omega), IH (jsizeL xs) (by omega) x hx1]
        rw [List.map_congr_left hchild]
    | jobj kvs =>
      cases n with
      | zero => simp [jsize] at hn
      | succ m =>
        simp only [canonA, jsize]
        have hchild : ∀ kv ∈ kvs,
            (fun kv : String × Json => (kv.1, canonA m kv.2)) kv =
            (fun kv : String × Json => (kv.1, canonA (jsizeM kvs) kv.2)) kv := by
          intro kv hkv
          have hx1 : jsize kv.2 ≤ jsizeM kvs := jsize_le_jsizeM kvs kv hkv
          have hm : jsize (Json.jobj kvs) ≤ m + 1 := hn
          simp only [jsize] at hm
          dsimp only
          simp only [Prod.mk.injEq, true_and]
          rw [IH m (by omega) kv.2 (by omega), IH (jsizeM kvs) (by omega) kv.2 hx1]
        rw [List.map_congr_left hchild]

theorem digitChar_toNat (d : Nat) (h : d < 10) : (digitChar d).toNat = 48 + d := by
  unfold digitChar
  interval_cases d <;> decide

theorem digitChar_isDigit (d : Nat) (h : d < 10) : isDigitCh (digitChar d) = true := by
  unfold isDigitCh
  rw [digitChar_toNat d h]
  simp
  omega

theorem natDigitsAuxF_fuel : ∀ f1 : Nat, ∀ f2 n : Nat, ∀ acc : List Char,
    n < f1 → n < f2 → natDigitsAuxF f1 n acc = natDigitsAuxF f2 n acc := by
  intro f1
  induction f1 using Nat.strong_induction_on with
  | _ f1 IH =>
    intro f2 n acc h1 h2
    cases f1 with
    | zero => omega
    | succ g1 =>
      cases f2 with
      | zero => omega
      | succ g2 =>
        simp only [natDigitsAuxF]
        by_cases hn : n < 10
        · rw [if_pos hn, if_pos hn]
        · rw [if_neg hn, if_neg hn]
          have hlt : n / 10 < n := Nat.div_lt_self (by omega) (by omega)
          exact IH g1 (by omega) g2 (n / 10) _ (by omega) (by omega)

theorem natDigitsAuxF_append : ∀ f n : Nat, ∀ acc : List Char, n < f →
    natDigitsAuxF f n acc = natDigitsAuxF f n [] ++ acc := by
  intro f
  induction f using Nat.strong_induction_on with
  | _ f IH =>
    intro n acc hn
    cases f with
    | zero => omega
    | succ g =>
      simp only [natDigitsAuxF]
      by_cases h : n < 10
      · rw [if_pos h, if_pos h]
        rfl
      · rw [if_neg h, if_neg h]
        have hlt : n / 10 < n := Nat.div_lt_self (by omega) (by omega)
        rw [IH g (by omega) (n / 10) (digitChar (n % 10) :: acc) (by omega),
            IH g (by omega) (n / 10) [digitChar (n % 10)] (by omega),
            List.append_assoc]
        rfl

theorem natDigitsL_ne_nil (n : Nat) : natDigitsL n ≠ [] := by
  unfold natDigitsL
  simp only [natDigitsAuxF]
  by_cases h : n < 10
  · rw [if_pos h]
    simp
  · rw [if_neg h]
    rw [natDigitsAuxF_append n (n / 10) [digitChar (n % 10)]
      (by have := Nat.div_lt_self (show 0 < n by omega) (show 1 < 10 by omega); omega)]
    simp

theorem natDigitsL_digits : ∀ n : Nat, ∀ c ∈ natDigitsL n, isDigitCh c = true := by
  intro n
  induction n using Nat.strong_induction_on with
  | _ n IH =>
    intro c hc
    unfold natDigitsL at hc
    simp only [natDigitsAuxF] at hc
    by_cases h : n < 10
    · rw [if_pos h] at hc
      simp only [List.mem_singleton] at hc
      rw [hc]
      exact digitChar_isDigit n h
    · rw [if_neg h] at hc
      have hlt : n / 10 < n := Nat.div_lt_self (by omega) (by omega)
      rw [natDigitsAuxF_append n (n / 10) [digitChar (n % 10)] (by omega),
          natDigitsAuxF_fuel n (n / 10 + 1) (n / 10) [] (by omega) (by omega)] at hc
      rcases List.mem_append.mp hc with h1 | h1
      · exact IH (n / 10) hlt c h1
      · simp only [List.mem_singleton] at h1
        rw [h1]
        exact digitChar_isDigit (n % 10) (Nat.mod_lt _ (by omega))

theorem digitsToNat_append_singleton (ds : List Char) (c : Char) :
    digitsToNat (ds ++ [c]) = digitsToNat ds * 10 + (c.toNat - 48) := by
  unfold digitsToNat
  rw [List.foldl_append]
  rfl

theorem digitsToNat_natDigitsL : ∀ n : Nat, digitsToNat (natDigitsL n) = n := by
  intro n
  induction n using Nat.strong_induction_on with
  | _ n IH =>
    unfold natDigitsL
    simp only [natDigitsAuxF]
    by_cases h : n < 10
    · rw [if_pos h]
      unfold digitsToNat
      simp only [List.foldl_cons, List.foldl_nil]
      rw [digitChar_toNat n h]
      omega
    · rw [if_neg h]
      have hlt : n / 10 < n := Nat.div_lt_self (by omega) (by omega)
      rw [natDigitsAuxF_append n (n / 10) [digitChar (n % 10)] (by omega),
          natDigitsAuxF_fuel n (n / 10 + 1) (n / 10) [] (by omega) (by omega)]
      rw [digitsToNat_append_singleton]
      have hv : digitsToNat (natDigitsAuxF (n / 10 + 1) (n / 10) []) = n / 10 := IH (n / 10) hlt
      rw [hv, digitChar_toNat (n % 10) (Nat.mod_lt _ (by omega))]
      omega

theorem digitsToNat_replicate_zero (k : Nat) (ds : List Char) :
    digitsToNat (List.replicate k '0' ++ ds) = digitsToNat ds := by
  induction k with
  | zero => rfl
  | succ m ih =>
    rw [List.replicate_succ]
    show digitsToNat ('0' :: (List.replicate m '0' ++ ds)) = digitsToNat ds
    unfold digitsToNat at ih ⊢
    simp only [List.cons_append, List.foldl_cons] at ih ⊢
    have h0 : (0 : Nat) * 10 + ('0'.toNat - 48) = 0 := by decide
    rw [h0]
    exact ih

theorem takeDigits_stop (cs : List Char) (h : notDigitStart cs = true) :
    takeDigits cs = ([], cs) := by
  cases cs with
  | nil => rfl
  | cons c t =>
    unfold notDigitStart at h
    simp only [Bool.not_eq_true'] at h
    unfold takeDigits
    rw [h]
    simp

theorem takeDigits_all (ds : List Char) (rest : List Char)
    (hds : ∀ c ∈ ds, isDigitCh c = true) (hrest : notDigitStart rest = true) :
    takeDigits (ds ++ rest) = (ds, rest) := by
  induction ds with
  | nil => exact takeDigits_stop rest hrest
  | cons d ds ih =>
    have hd : isDigitCh d = true := hds d (List.mem_cons_self _ _)
    show takeDigits (d :: (ds ++ rest)) = (d :: ds, rest)
    unfold takeDigits
    rw [hd]
    simp only [if_true]
    rw [ih (fun c hc => hds c (List.mem_cons_of_mem _ hc))]

theorem isDigitCh_toNat {c : Char} (h : isDigitCh c = true) : 48 ≤ c.toNat ∧ c.toNat ≤ 57 := by
  unfold isDigitCh at h
  simp only [Bool.and_eq_true, decide_eq_true_eq] at h
  exact h

theorem digit_ne_minus {c : Char} (h : isDigitCh c = true) : c ≠ '-' := by
  intro hc
  have h2 := isDigitCh_toNat h
  rw [hc] at h2
  have : ('-').toNat = 45 := by decide
  omega

theorem numDelim_notDigitStart {cs : List Char} (h : numDelim cs = true) :
    notDigitStart cs = true := by
  cases cs with
  | nil => rfl
  | cons c t =>
    unfold numDelim at h
    unfold notDigitStart
    simp only [Bool.not_eq_true', Bool.or_eq_false_iff] at h ⊢
    exact h.1

theorem parseNum_int (ds rest : List Char) (hne : ds ≠ [])
    (hds : ∀ c ∈ ds, isDigitCh c = true) (hrest : numDelim rest = true) :
    parseNum (ds ++ rest) = .ok (⟨(digitsToNat ds : Int), 1, one_pos⟩, rest) := by
  obtain ⟨d0, dtl, rfl⟩ : ∃ d0 dtl, ds = d0 :: dtl := by
    cases ds with
    | nil => exact absurd rfl hne
    | cons a l => exact ⟨a, l, rfl⟩
  unfold parseNum
  dsimp only
  have hsp : (match d0 :: dtl ++ rest with
      | '-' :: r => ((true : Bool), r)
      | c => ((false : Bool), d0 :: dtl ++ rest)) = (false, d0 :: dtl ++ rest) := by
    split
    · rename_i r heq
      rw [List.cons_append, List.cons.injEq] at heq
      exact absurd heq.1 (digit_ne_minus (hds d0 (List.mem_cons_self _ _)))
    · rfl
  rw [hsp]
  dsimp only
  rw [takeDigits_all (d0 :: dtl) rest hds (numDelim_notDigitStart hrest)]
  dsimp only
  split
  · simp [numDelim, isDigitCh] at hrest
  · rfl

theorem parseNum_neg_int (ds rest : List Char) (hne : ds ≠ [])
    (hds : ∀ c ∈ ds, isDigitCh c = true) (hrest : numDelim rest = true) :
    parseNum ('-' :: (ds ++ rest)) = .ok (⟨-(digitsToNat ds : Int), 1, one_pos⟩, rest) := by
  obtain ⟨d0, dtl, rfl⟩ : ∃ d0 dtl, ds = d0 :: dtl := by
    cases ds with
    | nil => exact absurd rfl hne
    | cons a l => exact ⟨a, l, rfl⟩
  unfold parseNum
  dsimp only
  have hsp : (match '-' :: (d0 :: dtl ++ rest) with
      | '-' :: r => ((true : Bool), r)
      | c => ((false : Bool), '-' :: (d0 :: dtl ++ rest))) =
      (true, d0 :: dtl ++ rest) := rfl
  rw [hsp]
  dsimp only
  rw [takeDigits_all (d0 :: dtl) rest hds (numDelim_notDigitStart hrest)]
  dsimp only
  split
  · simp [numDelim, isDigitCh] at hrest
  · rfl

theorem parseNum_frac (ds fs rest : List Char) (hdne : ds ≠ []) (hfne : fs ≠ [])
    (hds : ∀ c ∈ ds, isDigitCh c = true) (hfs : ∀ c ∈ fs, isDigitCh c = true)
    (hrest : notDigitStart rest = true) :
    parseNum (ds ++ '.' :: (fs ++ rest)) =
      .ok (⟨(digitsToNat (ds ++ fs) : Int), 10 ^ fs.length,
        Nat.pos_pow_of_pos _ (by norm_num)⟩, rest) := by
  obtain ⟨d0, dtl, rfl⟩ : ∃ d0 dtl, ds = d0 :: dtl := by
    cases ds with
    | nil => exact absurd rfl hdne
    | cons a l => exact ⟨a, l, rfl⟩
  obtain ⟨f0, ftl, rfl⟩ : ∃ f0 ftl, fs = f0 :: ftl := by
    cases fs with
    | nil => exact absurd rfl hfne
    | cons a l => exact ⟨a, l, rfl⟩
  unfold parseNum
  dsimp only
  have hsp : (match (d0 :: dtl) ++ '.' :: (f0 :: ftl ++ rest) with
      | '-' :: r => ((true : Bool), r)
      | c => ((false : Bool), (d0 :: dtl) ++ '.' :: (f0 :: ftl ++ rest))) =
      (false, (d0 :: dtl) ++ '.' :: (f0 :: ftl ++ rest)) := by
    split
    · rename_i r heq
      rw [List.cons_append, List.cons.injEq] at heq
      exact absurd heq.1 (digit_ne_minus (hds d0 (List.mem_cons_self _ _)))
    · rfl
  rw [hsp]
  dsimp only
  rw [takeDigits_all (d0 :: dtl) ('.' :: (f0 :: ftl ++ rest)) hds rfl]
  dsimp only
  split
  · rename_i rest2 heq
    rw [List.cons.injEq] at heq
    obtain ⟨-, h2⟩ := heq
    subst h2
    rw [takeDigits_all (f0 :: ftl) rest hfs hrest]
    dsimp only
    rfl
  · rename_i hno
    exact absurd rfl (hno (f0 :: ftl ++ rest))

theorem parseNum_neg_frac (ds fs rest : List Char) (hdne : ds ≠ []) (hfne : fs ≠ [])
    (hds : ∀ c ∈ ds, isDigitCh c = true) (hfs : ∀ c ∈ fs, isDigitCh c = true)
    (hrest : notDigitStart rest = true) :
    parseNum ('-' :: (ds ++ '.' :: (fs ++ rest))) =
      .ok (⟨-(digitsToNat (ds ++ fs) : Int), 10 ^ fs.length,
        Nat.pos_pow_of_pos _ (by norm_num)⟩, rest) := by
  obtain ⟨d0, dtl, rfl⟩ : ∃ d0 dtl, ds = d0 :: dtl := by
    cases ds with
    | nil => exact absurd rfl hdne
    | cons a l => exact ⟨a, l, rfl⟩
  obtain ⟨f0, ftl, rfl⟩ : ∃ f0 ftl, fs = f0 :: ftl := by
    cases fs with
    | nil => exact absurd rfl hfne
    | cons a l => exact ⟨a, l, rfl⟩
  unfold parseNum
  dsimp only
  have hsp : (match '-' :: ((d0 :: dtl) ++ '.' :: (f0 :: ftl ++ rest)) with
      | '-' :: r => ((true : Bool), r)
      | c => ((false : Bool), '-' :: ((d0 :: dtl) ++ '.' :: (f0 :: ftl ++ rest)))) =
      (true, (d0 :: dtl) ++ '.' :: (f0 :: ftl ++ rest)) := rfl
  rw [hsp]
  dsimp only
  rw [takeDigits_all (d0 :: dtl) ('.' :: (f0 :: ftl ++ rest)) hds rfl]
  dsimp only
  split
  · rename_i rest2 heq
    rw [List.cons.injEq] at heq
    obtain ⟨-, h2⟩ := heq
    subst h2
    rw [takeDigits_all (f0 :: ftl) rest hfs hrest]
    dsimp only
    rfl
  · rename_i hno
    exact absurd rfl (hno (f0 :: ftl ++ rest))

theorem find?_append_some {α : Type} (p : α → Bool) (l1 l2 : List α) (b : α)
    (h : l1.find? p = some b) : (l1 ++ l2).find? p = some b := by
  induction l1 with
  | nil => simp [List.find?] at h
  | cons a t ih =>
    by_cases hp : p a = true
    · rw [List.find?_cons_of_pos _ hp] at h
      rw [List.cons_append, List.find?_cons_of_pos _ hp]
      exact h
    · rw [List.find?_cons_of_neg _ hp] at h
      rw [List.cons_append, List.find?_cons_of_neg _ hp]
      exact ih h

theorem find?_append_none {α : Type} (p : α → Bool) (l1 l2 : List α)
    (h : l1.find? p = none) : (l1 ++ l2).find? p = l2.find? p := by
  induction l1 with
  | nil => rfl
  | cons a t ih =>
    by_cases hp : p a = true
    · rw [List.find?_cons_of_pos _ hp] at h
      exact absurd h (by simp)
    · rw [List.find?_cons_of_neg _ hp] at h
      rw [List.cons_append, List.find?_cons_of_neg _ hp]
      exact ih h

theorem find?_range_min (p : Nat → Bool) : ∀ n s : Nat,
    (List.range n).find? p = some s → p s = true ∧ ∀ j < s, p j = false := by
  intro n
  induction n with
  | zero => intro s h; simp [List.range_zero, List.find?] at h
  | succ n ih =>
    intro s h
    rw [List.range_succ] at h
    cases hfind : (List.range n).find? p with
    | some b =>
      rw [find?_append_some p _ _ b hfind] at h
      cases h
      exact ih s hfind
    | none =>
      rw [find?_append_none p _ _ hfind] at h
      by_cases hn : p n = true
      · rw [List.find?_cons_of_pos _ hn] at h
        cases h
        refine ⟨hn, fun j hj => ?_⟩
        have := List.find?_eq_none.mp hfind j (List.mem_range.mpr hj)
        simpa using this
      · rw [List.find?_cons_of_neg _ hn] at h
        simp [List.find?] at h

theorem find?_range_eq (p : Nat → Bool) : ∀ n s : Nat, s < n → p s = true →
    (∀ j < s, p j = false) → (List.range n).find? p = some s := by
  intro n
  induction n with
  | zero => intro s h; omega
  | succ n ih =>
    intro s hs hp hmin
    rw [List.range_succ]
    by_cases hlt : s < n
    · exact find?_append_some _ _ _ _ (ih s hlt hp hmin)
    · have hs_eq : s = n := by omega
      subst hs_eq
      have hnone : (List.range s).find? p = none := by
        rw [List.find?_eq_none]
        intro j hj
        rw [List.mem_range] at hj
        simp [hmin j hj]
      rw [find?_append_none p _ _ hnone, List.find?_cons_of_pos _ hp]

theorem JsRat.ext2 {a b : JsRat} (h1 : a.num = b.num) (h2 : a.den = b.den) : a = b := by
  cases a
  cases b
  simp_all

theorem ratToDecPair_snd_zero (q : JsRat) (h : (ratToDecPair q).1 = 0) :
    (ratToDecPair q).2 = 0 := by
  cases hfind : (List.range 65).find?
      (fun s => (q.num * 10 ^ s) % (q.den : Int) == 0) with
  | none =>
    have hq : ratToDecPair q = (0, 0) := by
      unfold ratToDecPair
      rw [hfind]
    rw [hq]
  | some s =>
    have hq : ratToDecPair q = ((q.num * 10 ^ s) / (q.den : Int), s) := by
      unfold ratToDecPair
      rw [hfind]
    have hmin := find?_range_min _ 65 s hfind
    have hdvd : (q.den : Int) ∣ q.num * 10 ^ s := by
      have h1 := hmin.1
      simp only [beq_iff_eq] at h1
      exact Int.dvd_of_emod_eq_zero h1
    have hm0 : (q.num * 10 ^ s) / (q.den : Int) = 0 := by
      rw [hq] at h
      exact h
    have hzero : q.num * 10 ^ s = 0 := by
      have := Int.mul_ediv_cancel' hdvd
      rw [hm0] at this
      simpa using this.symm
    have hnum : q.num = 0 := by
      have hp10 : (0 : Int) < 10 ^ s := by positivity
      rcases mul_eq_zero.mp hzero with h1 | h1
      · exact h1
      · omega
    rw [hq]
    by_contra hs
    have hs_pos : 0 < s := Nat.pos_of_ne_zero hs
    have := hmin.2 0 hs_pos
    simp [hnum] at this

theorem ratToDecPair_canonNum (q : JsRat) : ratToDecPair (canonNum q) = ratToDecPair q := by
  cases hfind : (List.range 65).find?
      (fun s => (q.num * 10 ^ s) % (q.den : Int) == 0) with
  | none =>
    have hq : ratToDecPair q = (0, 0) := by
      unfold ratToDecPair
      rw [hfind]
    have hcq : canonNum q = ⟨0, 1, one_pos⟩ := by
      apply JsRat.ext2
      · show (ratToDecPair q).1 = 0
        rw [hq]
      · show 10 ^ (ratToDecPair q).2 = 1
        rw [hq]
        norm_num
    rw [hcq, hq]
    decide
  | some s =>
    have hq : ratToDecPair q = ((q.num * 10 ^ s) / (q.den : Int), s) := by
      unfold ratToDecPair
      rw [hfind]
    have hmin := find?_range_min _ 65 s hfind
    have hdvd : (q.den : Int) ∣ q.num * 10 ^ s := by
      have h1 := hmin.1
      simp only [beq_iff_eq] at h1
      exact Int.dvd_of_emod_eq_zero h1
    have hexact : (q.den : Int) * ((q.num * 10 ^ s) / (q.den : Int)) = q.num * 10 ^ s :=
      Int.mul_ediv_cancel' hdvd
    have hs65 : s < 65 := by
      have := List.mem_of_find?_eq_some hfind
      simpa [List.mem_range] using this
    have hcq : canonNum q = ⟨q.num * 10 ^ s / (q.den : Int), 10 ^ s,
        Nat.pos_pow_of_pos s (by norm_num)⟩ := by
      apply JsRat.ext2
      · show (ratToDecPair q).1 = q.num * 10 ^ s / (q.den : Int)
        rw [hq]
      · show 10 ^ (ratToDecPair q).2 = 10 ^ s
        rw [hq]
    rw [hcq, hq]
    unfold ratToDecPair
    dsimp only
    have hfound : (List.range 65).find?
        (fun j => ((q.num * 10 ^ s / (q.den : Int)) * 10 ^ j) % ((10 ^ s : Nat) : Int) == 0) =
        some s := by
      apply find?_range_eq _ 65 s hs65
      · simp only [beq_iff_eq]
        push_cast
        exact Int.mul_emod_left _ _
      · intro j hj
        rw [Bool.eq_false_iff]
        simp only [ne_eq, beq_iff_eq]
        intro hmod
        have hcast : ((10 ^ s : Nat) : Int) = 10 ^ s := by push_cast; rfl
        rw [hcast] at hmod
        have hdvd2 : ((10 : Int) ^ s) ∣ (q.num * 10 ^ s / (q.den : Int)) * 10 ^ j :=
          Int.dvd_of_emod_eq_zero hmod
        obtain ⟨k, hk⟩ := hdvd2
        have h1 : q.num * 10 ^ j * 10 ^ s = (q.den : Int) * k * 10 ^ s := by
          calc q.num * 10 ^ j * 10 ^ s = (q.num * 10 ^ s) * 10 ^ j := by ring
            _ = ((q.den : Int) * (q.num * 10 ^ s / (q.den : Int))) * 10 ^ j := by rw [hexact]
            _ = (q.den : Int) * ((q.num * 10 ^ s / (q.den : Int)) * 10 ^ j) := by ring
            _ = (q.den : Int) * (10 ^ s * k) := by rw [hk]
            _ = (q.den : Int) * k * 10 ^ s := by ring
        have h2 : q.num * 10 ^ j = (q.den : Int) * k :=
          mul_right_cancel₀ (by positivity) h1
        have h3 := hmin.2 j hj
        rw [Bool.eq_false_iff] at h3
        simp only [ne_eq, beq_iff_eq] at h3
        exact h3 (by rw [h2]; exact Int.mul_emod_right _ _)
    rw [hfound]
    dsimp only
    rw [Prod.mk.injEq]
    refine ⟨?_, rfl⟩
    have hcast : ((10 ^ s : Nat) : Int) = 10 ^ s := by push_cast; rfl
    rw [hcast]
    exact Int.mul_ediv_cancel _ (by positivity)

theorem renderNumL_canonNum (q : JsRat) : renderNumL (canonNum q) = renderNumL q := by
  unfold renderNumL
  rw [ratToDecPair_canonNum]

theorem parseNum_padded (m : Int) (s : Nat) (pd : List Char) (k : Nat) (rest : List Char)
    (hpd : pd = List.replicate (s + 1 - (natDigitsL m.natAbs).length) '0' ++ natDigitsL m.natAbs)
    (hk : k = pd.length - s) (hs : s ≠ 0) (hrest : notDigitStart rest = true) :
    (parseNum ((pd.take k ++ '.' :: pd.drop k) ++ rest) =
      .ok (⟨(m.natAbs : Int), 10 ^ s, Nat.pos_pow_of_pos s (by norm_num)⟩, rest)) ∧
    (parseNum ('-' :: ((pd.take k ++ '.' :: pd.drop k) ++ rest)) =
      .ok (⟨-(m.natAbs : Int), 10 ^ s, Nat.pos_pow_of_pos s (by norm_num)⟩, rest)) := by
  have hdsne := natDigitsL_ne_nil m.natAbs
  have hdig : ∀ c ∈ pd, isDigitCh c = true := by
    rw [hpd]
    intro c hc
    rcases List.mem_append.mp hc with h | h
    · rw [List.eq_of_mem_replicate h]
      decide
    · exact natDigitsL_digits _ c h
  have hdsl : 1 ≤ (natDigitsL m.natAbs).length := by
    cases hnd : natDigitsL m.natAbs with
    | nil => exact absurd hnd hdsne
    | cons a l => simp
  have hlen : pd.length = (s + 1 - (natDigitsL m.natAbs).length) + (natDigitsL m.natAbs).length := by
    rw [hpd, List.length_append, List.length_replicate]
  have hsle : s + 1 ≤ pd.length := by rw [hlen]; omega
  have hk1 : 1 ≤ k := by omega
  have hk2 : k ≤ pd.length := by omega
  have htne : pd.take k ≠ [] := by
    intro h
    have h2 := congrArg List.length h
    rw [List.length_take] at h2
    simp only [List.length_nil] at h2
    rcases Nat.min_eq_zero_iff.mp h2 with h3 | h3 <;> omega
  have hdne : pd.drop k ≠ [] := by
    intro h
    have h2 := congrArg List.length h
    rw [List.length_drop] at h2
    simp at h2
    omega
  have htdig : ∀ c ∈ pd.take k, isDigitCh c = true :=
    fun c hc => hdig c (List.take_subset _ _ hc)
  have hddig : ∀ c ∈ pd.drop k, isDigitCh c = true :=
    fun c hc => hdig c (List.drop_subset _ _ hc)
  have hval : digitsToNat (pd.take k ++ pd.drop k) = m.natAbs := by
    rw [List.take_append_drop, hpd, digitsToNat_replicate_zero, digitsToNat_natDigitsL]
  have hdlen : (pd.drop k).length = s := by
    rw [List.length_drop]
    omega
  have hassoc : (pd.take k ++ '.' :: pd.drop k) ++ rest =
      pd.take k ++ '.' :: (pd.drop k ++ rest) := by
    simp [List.append_assoc]
  constructor
  · rw [hassoc, parseNum_frac (pd.take k) (pd.drop k) rest htne hdne htdig hddig hrest]
    refine congrArg (fun v : JsRat => (Except.ok (v, rest) : Except String (JsRat × List Char)))
      (JsRat.ext2 ?_ ?_)
    · show (digitsToNat (pd.take k ++ pd.drop k) : Int) = (m.natAbs : Int)
      exact_mod_cast hval
    · show 10 ^ (pd.drop k).length = 10 ^ s
      rw [hdlen]
  · rw [hassoc, parseNum_neg_frac (pd.take k) (pd.drop k) rest htne hdne htdig hddig hrest]
    refine congrArg (fun v : JsRat => (Except.ok (v, rest) : Except String (JsRat × List Char)))
      (JsRat.ext2 ?_ ?_)
    · show -(digitsToNat (pd.take k ++ pd.drop k) : Int) = -(m.natAbs : Int)
      rw [hval]
    · show 10 ^ (pd.drop k).length = 10 ^ s
      rw [hdlen]

/-- The canonical number rendering parses back to `canonNum`. -/
theorem parseNum_renderNumL (q : JsRat) (rest : List Char) (hrest : numDelim rest = true) :
    parseNum (renderNumL q ++ rest) = .ok (canonNum q, rest) := by
  have hds_ne := natDigitsL_ne_nil (ratToDecPair q).1.natAbs
  have hds_dig := natDigitsL_digits (ratToDecPair q).1.natAbs
  by_cases hm0 : (ratToDecPair q).1 = 0
  · have hs0 : (ratToDecPair q).2 = 0 := ratToDecPair_snd_zero q hm0
    have hrender : renderNumL q = ['0'] := by
      unfold renderNumL
      dsimp only
      rw [if_pos hm0]
    have hcq : canonNum q = ⟨0, 1, one_pos⟩ := by
      apply JsRat.ext2
      · exact hm0
      · show 10 ^ (ratToDecPair q).2 = 1
        rw [hs0]
        norm_num
    rw [hrender, hcq, parseNum_int ['0'] rest (by simp) (by decide) hrest]
    have h0 : (digitsToNat ['0'] : Int) = 0 := by decide
    rw [h0]
  · by_cases hs0 : (ratToDecPair q).2 = 0
    · by_cases hneg : (ratToDecPair q).1 < 0
      · have hrender : renderNumL q = '-' :: natDigitsL (ratToDecPair q).1.natAbs := by
          unfold renderNumL
          dsimp only
          rw [if_neg hm0, if_pos hs0, if_pos hneg]
          rfl
        rw [hrender,
          show ('-' :: natDigitsL (ratToDecPair q).1.natAbs) ++ rest =
            '-' :: (natDigitsL (ratToDecPair q).1.natAbs ++ rest) from rfl,
          parseNum_neg_int _ rest hds_ne hds_dig hrest]
        have hcq : canonNum q =
            ⟨-((ratToDecPair q).1.natAbs : Int), 1, one_pos⟩ := by
          apply JsRat.ext2
          · show (ratToDecPair q).1 = -((ratToDecPair q).1.natAbs : Int)
            omega
          · show 10 ^ (ratToDecPair q).2 = 1
            rw [hs0]
            norm_num
        rw [hcq, digitsToNat_natDigitsL]
      · have hrender : renderNumL q = natDigitsL (ratToDecPair q).1.natAbs := by
          unfold renderNumL
          dsimp only
          rw [if_neg hm0, if_pos hs0, if_neg hneg]
          rfl
        rw [hrender, parseNum_int _ rest hds_ne hds_dig hrest]
        have hcq : canonNum q =
            ⟨((ratToDecPair q).1.natAbs : Int), 1, one_pos⟩ := by
          apply JsRat.ext2
          · show (ratToDecPair q).1 = ((ratToDecPair q).1.natAbs : Int)
            omega
          · show 10 ^ (ratToDecPair q).2 = 1
            rw [hs0]
            norm_num
        rw [hcq, digitsToNat_natDigitsL]
    · have hpadded := parseNum_padded (ratToDecPair q).1 (ratToDecPair q).2
        (List.replicate ((ratToDecPair q).2 + 1 - (natDigitsL (ratToDecPair q).1.natAbs).length)
          '0' ++ natDigitsL (ratToDecPair q).1.natAbs)
        ((List.replicate ((ratToDecPair q).2 + 1 - (natDigitsL (ratToDecPair q).1.natAbs).length)
          '0' ++ natDigitsL (ratToDecPair q).1.natAbs).length - (ratToDecPair q).2)
        rest rfl rfl hs0 (numDelim_notDigitStart hrest)
      by_cases hneg : (ratToDecPair q).1 < 0
      · have hrender : renderNumL q = ['-'] ++
            ((List.replicate ((ratToDecPair q).2 + 1 -
                (natDigitsL (ratToDecPair q).1.natAbs).length) '0' ++
              natDigitsL (ratToDecPair q).1.natAbs).take
              ((List.replicate ((ratToDecPair q).2 + 1 -
                  (natDigitsL (ratToDecPair q).1.natAbs).length) '0' ++
                natDigitsL (ratToDecPair q).1.natAbs).length - (ratToDecPair q).2)) ++
            '.' :: ((List.replicate ((ratToDecPair q).2 + 1 -
                (natDigitsL (ratToDecPair q).1.natAbs).length) '0' ++
              natDigitsL (ratToDecPair q).1.natAbs).drop
              ((List.replicate ((ratToDecPair q).2 + 1 -
                  (natDigitsL (ratToDecPair q).1.natAbs).length) '0' ++
                natDigitsL (ratToDecPair q).1.natAbs).length - (ratToDecPair q).2)) := by
          unfold renderNumL
          dsimp only
          rw [if_neg hm0, if_neg hs0, if_pos hneg]
        rw [hrender]
        rw [show (['-'] ++
            ((List.replicate ((ratToDecPair q).2 + 1 -
                (natDigitsL (ratToDecPair q).1.natAbs).length) '0' ++
              natDigitsL (ratToDecPair q).1.natAbs).take
              ((List.replicate ((ratToDecPair q).2 + 1 -
                  (natDigitsL (ratToDecPair q).1.natAbs).length) '0' ++
                natDigitsL (ratToDecPair q).1.natAbs).length - (ratToDecPair q).2)) ++
            '.' :: ((List.replicate ((ratToDecPair q).2 + 1 -
                (natDigitsL (ratToDecPair q).1.natAbs).length) '0' ++
              natDigitsL (ratToDecPair q).1.natAbs).drop
              ((List.replicate ((ratToDecPair q).2 + 1 -
                  (natDigitsL (ratToDecPair q).1.natAbs).length) '0' ++
                natDigitsL (ratToDecPair q).1.natAbs).length - (ratToDecPair q).2))) ++ rest =
          '-' :: ((((List.replicate ((ratToDecPair q).2 + 1 -
                (natDigitsL (ratToDecPair q).1.natAbs).length) '0' ++
              natDigitsL (ratToDecPair q).1.natAbs).take
              ((List.replicate ((ratToDecPair q).2 + 1 -
                  (natDigitsL (ratToDecPair q).1.natAbs).length) '0' ++
                natDigitsL (ratToDecPair q).1.natAbs).length - (ratToDecPair q).2)) ++
            '.' :: ((List.replicate ((ratToDecPair q).2 + 1 -
                (natDigitsL (ratToDecPair q).1.natAbs).length) '0' ++
              natDigitsL (ratToDecPair q).1.natAbs).drop
              ((List.replicate ((ratToDecPair q).2 + 1 -
                  (natDigitsL (ratToDecPair q).1.natAbs).length) '0' ++
                natDigitsL (ratToDecPair q).1.natAbs).length - (ratToDecPair q).2))) ++ rest)
          from rfl]
        rw [hpadded.2]
        have hcq : canonNum q =
            ⟨-((ratToDecPair q).1.natAbs : Int), 10 ^ (ratToDecPair q).2,
              Nat.pos_pow_of_pos _ (by norm_num)⟩ := by
          apply JsRat.ext2
          · show (ratToDecPair q).1 = -((ratToDecPair q).1.natAbs : Int)
            omega
          · rfl
        rw [hcq]
      · have hrender : renderNumL q =
            ((List.replicate ((ratToDecPair q).2 + 1 -
                (natDigitsL (ratToDecPair q).1.natAbs).length) '0' ++
              natDigitsL (ratToDecPair q).1.natAbs).take
              ((List.replicate ((ratToDecPair q).2 + 1 -
                  (natDigitsL (ratToDecPair q).1.natAbs).length) '0' ++
                natDigitsL (ratToDecPair q).1.natAbs).length - (ratToDecPair q).2)) ++
            '.' :: ((List.replicate ((ratToDecPair q).2 + 1 -
                (natDigitsL (ratToDecPair q).1.natAbs).length) '0' ++
              natDigitsL (ratToDecPair q).1.natAbs).drop
              ((List.replicate ((ratToDecPair q).2 + 1 -
                  (natDigitsL (ratToDecPair q).1.natAbs).length) '0' ++
                natDigitsL (ratToDecPair q).1.natAbs).length - (ratToDecPair q).2)) := by
          unfold renderNumL
          dsimp only
          rw [if_neg hm0, if_neg hs0, if_neg hneg]
          rfl
        rw [hrender, hpadded.1]
        have hcq : canonNum q =
            ⟨((ratToDecPair q).1.natAbs : Int), 10 ^ (ratToDecPair q).2,
              Nat.pos_pow_of_pos _ (by norm_num)⟩ := by
          apply JsRat.ext2
          · show (ratToDecPair q).1 = ((ratToDecPair q).1.natAbs : Int)
            omega
          · rfl
        rw [hcq]

theorem hexVal_hexDigit (d : Nat) (h : d < 16) : hexVal (hexDigit d) = some d := by
  interval_cases d <;> decide

theorem charOfNatAux_toNat (c : Char) (h : Nat.isValidChar c.toNat) :
    Char.ofNatAux c.toNat h = c := rfl

theorem parseStrBody_step (c : Char) (acc t : List Char) :
    parseStrBody acc (escapeChar c ++ t) = parseStrBody (acc ++ [c]) t := by
  unfold escapeChar
  by_cases h1 : c = '"'
  · rw [if_pos h1, h1]
    rfl
  · rw [if_neg h1]
    by_cases h2 : c = '\\'
    · rw [if_pos h2, h2]
      rfl
    · rw [if_neg h2]
      by_cases h3 : c = '\x08'
      · rw [if_pos h3, h3]
        rfl
      · rw [if_neg h3]
        by_cases h4 : c = '\x0c'
        · rw [if_pos h4, h4]
          rfl
        · rw [if_neg h4]
          by_cases h5 : c = '\n'
          · rw [if_pos h5, h5]
            rfl
          · rw [if_neg h5]
            by_cases h6 : c = '\r'
            · rw [if_pos h6, h6]
              rfl
            · rw [if_neg h6]
              by_cases h7 : c = '\t'
              · rw [if_pos h7, h7]
                rfl
              · rw [if_neg h7]
                by_cases h8 : c.toNat < 0x20
                · rw [if_pos h8]
                  show parseStrBody acc
                    ('\\' :: 'u' :: '0' :: '0' :: hexDigit (c.toNat / 16) ::
                      hexDigit (c.toNat % 16) :: t) = parseStrBody (acc ++ [c]) t
                  simp only [parseStrBody]
                  rw [show hexVal '0' = some 0 from rfl,
                    hexVal_hexDigit (c.toNat / 16) (by omega),
                    hexVal_hexDigit (c.toNat % 16) (by omega)]
                  dsimp only
                  have hn : ((0 * 16 + 0) * 16 + c.toNat / 16) * 16 + c.toNat % 16 = c.toNat := by
                    omega
                  rw [hn]
                  have hvalid : c.toNat.isValidChar := Or.inl (by omega)
                  rw [dif_pos hvalid, charOfNatAux_toNat c hvalid]
                · rw [if_neg h8]
                  show parseStrBody acc (c :: t) = parseStrBody (acc ++ [c]) t
                  rw [parseStrBody.eq_def]
                  split <;> simp_all

theorem parseStrBody_flatMap : ∀ (cs : List Char) (acc t : List Char),
    parseStrBody acc (cs.flatMap escapeChar ++ '"' :: t) = .ok (String.mk (acc ++ cs), t) := by
  intro cs
  induction cs with
  | nil =>
    intro acc t
    show parseStrBody acc ('"' :: t) = .ok (String.mk (acc ++ []), t)
    rw [List.append_nil]
    rfl
  | cons c cs ih =>
    intro acc t
    have harg : (c :: cs).flatMap escapeChar ++ '"' :: t =
        escapeChar c ++ (cs.flatMap escapeChar ++ '"' :: t) := by
      simp [List.flatMap_cons, List.append_assoc]
    rw [harg, parseStrBody_step, ih]
    rw [show (acc ++ [c]) ++ cs = acc ++ c :: cs by simp]

theorem parseStrBody_renderStr (s : String) (t : List Char) :
    parseStrBody [] (s.toList.flatMap escapeChar ++ '"' :: t) = .ok (s, t) := by
  rw [parseStrBody_flatMap]
  rfl

theorem skipWs_no {c : Char} (t : List Char) (h : isWsCh c = false) :
    skipWs (c :: t) = c :: t := by
  unfold skipWs
  rw [h]
  simp

theorem digit_not_ws {c : Char} (h : isDigitCh c = true) : isWsCh c = false := by
  have h2 := isDigitCh_toNat h
  unfold isWsCh
  have e1 : (' ').toNat = 32 := by decide
  have e2 : ('\n').toNat = 10 := by decide
  have e3 : ('\t').toNat = 9 := by decide
  have e4 : ('\r').toNat = 13 := by decide
  simp only [Bool.or_eq_false_iff, decide_eq_false_iff_not]
  refine ⟨⟨⟨?_, ?_⟩, ?_⟩, ?_⟩ <;> intro hc <;> rw [hc] at h2 <;> omega

theorem digit_ne_rbracket {c : Char} (h : isDigitCh c = true) : c ≠ ']' := by
  intro hc
  have h2 := isDigitCh_toNat h
  rw [hc] at h2
  have : (']').toNat = 93 := by decide
  omega

/-- The first character of a rendered number is a minus sign or a digit. -/
theorem renderNumL_head (q : JsRat) :
    ∃ c t, renderNumL q = c :: t ∧ (c = '-' ∨ isDigitCh c = true) := by
  unfold renderNumL
  dsimp only
  by_cases hm0 : (ratToDecPair q).1 = 0
  · rw [if_pos hm0]
    exact ⟨'0', [], rfl, Or.inr (by decide)⟩
  · rw [if_neg hm0]
    have hdsne := natDigitsL_ne_nil (ratToDecPair q).1.natAbs
    have hdsdig := natDigitsL_digits (ratToDecPair q).1.natAbs
    obtain ⟨d0, dtl, hds⟩ : ∃ d0 dtl, natDigitsL (ratToDecPair q).1.natAbs = d0 :: dtl := by
      cases hnd : natDigitsL (ratToDecPair q).1.natAbs with
      | nil => exact absurd hnd hdsne
      | cons a l => exact ⟨a, l, rfl⟩
    have hd0 : isDigitCh d0 = true := hdsdig d0 (by rw [hds]; exact List.mem_cons_self _ _)
    by_cases hs0 : (ratToDecPair q).2 = 0
    · rw [if_pos hs0]
      by_cases hneg : (ratToDecPair q).1 < 0
      · rw [if_pos hneg]
        exact ⟨'-', _, rfl, Or.inl rfl⟩
      · rw [if_neg hneg]
        refine ⟨d0, dtl ++ [], ?_, Or.inr hd0⟩
        rw [List.nil_append, hds]
        simp
    · rw [if_neg hs0]
      by_cases hneg : (ratToDecPair q).1 < 0
      · rw [if_pos hneg]
        exact ⟨'-', _, rfl, Or.inl rfl⟩
      · rw [if_neg hneg]
        rw [List.nil_append]
        have hdsl : 1 ≤ (natDigitsL (ratToDecPair q).1.natAbs).length := by
          rw [hds]
          simp
        have hlen : (List.replicate ((ratToDecPair q).2 + 1 -
            (natDigitsL (ratToDecPair q).1.natAbs).length) '0' ++
            natDigitsL (ratToDecPair q).1.natAbs).length =
            ((ratToDecPair q).2 + 1 - (natDigitsL (ratToDecPair q).1.natAbs).length) +
            (natDigitsL (ratToDecPair q).1.natAbs).length := by
          rw [List.length_append, List.length_replicate]
        obtain ⟨p0, pt, hpd, hp0⟩ : ∃ p0 pt,
            List.replicate ((ratToDecPair q).2 + 1 -
              (natDigitsL (ratToDecPair q).1.natAbs).length) '0' ++
              natDigitsL (ratToDecPair q).1.natAbs = p0 :: pt ∧ isDigitCh p0 = true := by
          cases hr : (ratToDecPair q).2 + 1 - (natDigitsL (ratToDecPair q).1.natAbs).length with
          | zero =>
            refine ⟨d0, dtl, ?_, hd0⟩
            rw [hds]
            rfl
          | succ r =>
            refine ⟨'0', List.replicate r '0' ++ natDigitsL (ratToDecPair q).1.natAbs,
              ?_, by decide⟩
            rw [List.replicate_succ, List.cons_append]
        have hk1 : 1 ≤ (List.replicate ((ratToDecPair q).2 + 1 -
            (natDigitsL (ratToDecPair q).1.natAbs).length) '0' ++
            natDigitsL (ratToDecPair q).1.natAbs).length - (ratToDecPair q).2 := by
          rw [hlen]
          omega
        rw [hpd]
        rw [hpd] at hk1
        obtain ⟨k2, hk2⟩ : ∃ k2, (p0 :: pt).length - (ratToDecPair q).2 = k2 + 1 := by
          refine ⟨(p0 :: pt).length - (ratToDecPair q).2 - 1, ?_⟩
          omega
        rw [hk2]
        rw [List.take_succ_cons, List.cons_append]
        exact ⟨p0, _, rfl, Or.inr hp0⟩

/-- The first character of a canonical rendering is not whitespace and not a
closing bracket. -/
theorem ssA_head (x : Json) :
    ∃ c t, ssA (jsize x) x = c :: t ∧ isWsCh c = false ∧ c ≠ ']' := by
  cases x with
  | jnull => exact ⟨'n', _, rfl, by decide, by decide⟩
  | jbool b =>
    cases b with
    | true => exact ⟨'t', _, rfl, by decide, by decide⟩
    | false => exact ⟨'f', _, rfl, by decide, by decide⟩
  | jnum q =>
    obtain ⟨c, t, hct, hc⟩ := renderNumL_head q
    refine ⟨c, t, ?_, ?_, ?_⟩
    · rw [show ssA (jsize (Json.jnum q)) (Json.jnum q) = renderNumL q from rfl, hct]
    · rcases hc with h | h
      · rw [h]
        decide
      · exact digit_not_ws h
    · rcases hc with h | h
      · rw [h]
        decide
      · exact digit_ne_rbracket h
  | jstr s => exact ⟨'"', _, rfl, by decide, by decide⟩
  | jarr xs =>
    refine ⟨'[', joinComma (xs.map (ssA (jsizeL xs))) ++ [']'], ?_, by decide, by decide⟩
    rw [show jsize (Json.jarr xs) = jsizeL xs + 1 from by simp [jsize]]
    simp only [ssA]
  | jobj kvs =>
    refine ⟨'\x7b', joinComma ((sortMembers kvs).map
      (fun kv => renderStrL kv.1 ++ ':' :: ssA (jsizeM kvs) kv.2)) ++ ['\x7d'],
      ?_, by decide, by decide⟩
    rw [show jsize (Json.jobj kvs) = jsizeM kvs + 1 from by simp [jsize]]
    simp only [ssA]

/-- Parsing a canonical rendering (with any trailing input that cannot extend
a number literal) returns the canonicalized value. -/
theorem rt_val_aux : ∀ n : Nat, ∀ (j : Json) (fuel : Nat) (rest : List Char),
    jsize j ≤ n → (ssA (jsize j) j).length < fuel → numDelim rest = true →
    parseVal fuel (ssA (jsize j) j ++ rest) = .ok (canon j, rest) := by
  intro n
  induction n using Nat.strong_induction_on with
  | _ n IH =>
    intro j fuel rest hn hf hrest
    cases fuel with
    | zero => exact absurd hf (Nat.not_lt_zero _)
    | succ f =>
    cases j with
    | jnull => rfl
    | jbool b => cases b <;> rfl
    | jnum q =>
      obtain ⟨c0, t0, hct, hc0⟩ := renderNumL_head q
      have hws : isWsCh c0 = false := by
        rcases hc0 with h | h
        · rw [h]
          decide
        · exact digit_not_ws h
      have hbad : ∀ d : Char, isDigitCh d = false → d ≠ '-' → c0 ≠ d := by
        intro d hd hdm hcd
        rcases hc0 with h | h
        · rw [hcd] at h
          exact hdm h
        · rw [hcd] at h
          rw [hd] at h
          exact Bool.noConfusion h
      show parseVal (f + 1) (renderNumL q ++ rest) = .ok (.jnum (canonNum q), rest)
      rw [hct, List.cons_append]
      simp only [parseVal]
      rw [skipWs_no _ hws]
      split
      · rename_i heq
        exact absurd heq (List.cons_ne_nil _ _)
      · rename_i heq
        exact absurd (List.cons.injEq _ _ _ _ ▸ heq).1 (hbad 'n' (by decide) (by decide))
      · rename_i heq
        exact absurd (List.cons.injEq _ _ _ _ ▸ heq).1 (hbad 't' (by decide) (by decide))
      · rename_i heq
        exact absurd (List.cons.injEq _ _ _ _ ▸ heq).1 (hbad 'f' (by decide) (by decide))
      · rename_i heq
        exact absurd (List.cons.injEq _ _ _ _ ▸ heq).1 (hbad '"' (by decide) (by decide))
      · rename_i heq
        exact absurd (List.cons.injEq _ _ _ _ ▸ heq).1 (hbad '[' (by decide) (by decide))
      · rename_i heq
        exact absurd (List.cons.injEq _ _ _ _ ▸ heq).1 (hbad '\x7b' (by decide) (by decide))
      · have hpn : parseNum (c0 :: (t0 ++ rest)) = .ok (canonNum q, rest) := by
          rw [← List.cons_append, ← hct]
          exact parseNum_renderNumL q rest hrest
        rw [hpn]
    | jstr s =>
      show parseVal (f + 1) (renderStrL s ++ rest) = .ok (.jstr s, rest)
      have hshape : renderStrL s ++ rest =
          '"' :: (s.toList.flatMap escapeChar ++ '"' :: rest) := by
        show ('"' :: (s.toList.flatMap escapeChar ++ ['"'])) ++ rest = _
        simp [List.append_assoc]
      rw [hshape]
      have hred : parseVal (f + 1) ('"' :: (s.toList.flatMap escapeChar ++ '"' :: rest)) =
          (match parseStrBody [] (s.toList.flatMap escapeChar ++ '"' :: rest) with
           | .ok (s2, rest2) => .ok (.jstr s2, rest2)
           | .error e => .error e) := rfl
      rw [hred, parseStrBody_renderStr]
    | jarr xs =>
      have hj : jsize (Json.jarr xs) = jsizeL xs + 1 := by simp [jsize]
      cases xs with
      | nil =>
        have hc : canon (Json.jarr []) = Json.jarr [] := by
          unfold canon
          rw [hj]
          simp [canonA]
        rw [hj, hc]
        rw [show jsizeL ([] : List Json) = 0 from by simp [jsizeL]]
        rfl
      | cons e es =>
        have hszL : ∀ x ∈ e :: es, jsize x ≤ jsizeL (e :: es) :=
          fun x hx => jsize_le_jsizeL _ x hx
        have hLn : jsizeL (e :: es) + 1 ≤ n := hj ▸ hn
        have hcanon : canon (Json.jarr (e :: es)) = .jarr ((e :: es).map canon) := by
          unfold canon
          rw [hj]
          simp only [canonA]
          congr 1
          apply List.map_congr_left
          intro x hx
          rw [canonA_eq_jsize (jsizeL (e :: es)) x (hszL x hx)]
        have hrender : ssA (jsize (Json.jarr (e :: es))) (Json.jarr (e :: es)) =
            '[' :: (joinComma ((e :: es).map (fun x => ssA (jsize x) x)) ++ [']']) := by
          rw [hj]
          simp only [ssA]
          have hmap : List.map (ssA (jsizeL (e :: es))) (e :: es) =
              List.map (fun x => ssA (jsize x) x) (e :: es) :=
            List.map_congr_left (fun x hx => ssA_eq_jsize (jsizeL (e :: es)) x (hszL x hx))
          rw [hmap]
        rw [hrender] at hf ⊢
        rw [hcanon]
        have helems : ∀ l : List Json, l ≠ [] → (∀ x ∈ l, jsize x ≤ jsizeL (e :: es)) →
            ∀ fuel2 : Nat, ∀ rest2 : List Char,
            (joinComma (l.map (fun x => ssA (jsize x) x))).length + 1 < fuel2 →
            parseElems fuel2 ((joinComma (l.map (fun x => ssA (jsize x) x))) ++ ']' :: rest2) =
              .ok (l.map canon, rest2) := by
          intro l
          induction l with
          | nil => intro hne; exact absurd rfl hne
          | cons x xs ihl =>
            intro hne hsz fuel2 rest2 hf2
            have hxlt : jsize x < n := by
              have := hsz x (List.mem_cons_self _ _)
              omega
            cases fuel2 with
            | zero => exact absurd hf2 (Nat.not_lt_zero _)
            | succ f2 =>
            cases xs with
            | nil =>
              have hflen : (ssA (jsize x) x).length < f2 := by
                have : joinComma ((x :: []).map (fun y => ssA (jsize y) y)) =
                    ssA (jsize x) x := rfl
                rw [this] at hf2
                omega
              have hv := IH (jsize x) hxlt x f2 (']' :: rest2) le_rfl hflen rfl
              show parseElems (f2 + 1) (ssA (jsize x) x ++ ']' :: rest2) =
                .ok ([canon x], rest2)
              simp only [parseElems]
              rw [hv]
              rfl
            | cons y ys =>
              have hjc : joinComma ((x :: y :: ys).map (fun z => ssA (jsize z) z)) =
                  ssA (jsize x) x ++ ',' ::
                    joinComma ((y :: ys).map (fun z => ssA (jsize z) z)) := rfl
              rw [hjc] at hf2 ⊢
              have hlen2 : (ssA (jsize x) x).length < f2 ∧
                  (joinComma ((y :: ys).map (fun z => ssA (jsize z) z))).length + 1 < f2 := by
                rw [List.length_append, List.length_cons] at hf2
                omega
              have hv := IH (jsize x) hxlt x f2
                (',' :: (joinComma ((y :: ys).map (fun z => ssA (jsize z) z)) ++ ']' :: rest2))
                le_rfl hlen2.1 rfl
              have htail := ihl (by simp) (fun z hz => hsz z (List.mem_cons_of_mem _ hz))
                f2 rest2 hlen2.2
              have hshape : (ssA (jsize x) x ++ ',' ::
                  joinComma ((y :: ys).map (fun z => ssA (jsize z) z))) ++ ']' :: rest2 =
                  ssA (jsize x) x ++
                    (',' :: (joinComma ((y :: ys).map (fun z => ssA (jsize z) z)) ++
                      ']' :: rest2)) := by
                simp [List.append_assoc]
              rw [hshape]
              show parseElems (f2 + 1) _ = .ok (canon x :: (y :: ys).map canon, rest2)
              simp only [parseElems]
              rw [hv]
              have hred : (match (Except.ok (canon x,
                  ',' :: (joinComma ((y :: ys).map (fun z => ssA (jsize z) z)) ++
                    ']' :: rest2)) : Except String (Json × List Char)) with
                  | .error e => (.error e : Except String (List Json × List Char))
                  | .ok (v, rest3) =>
                    match skipWs rest3 with
                    | ',' :: rest4 =>
                      (match parseElems f2 rest4 with
                       | .ok (xs2, rest5) => .ok (v :: xs2, rest5)
                       | .error e => .error e)
                    | ']' :: rest4 => .ok ([v], rest4)
                    | _ => .error "expected comma or closing bracket") =
                  (match parseElems f2
                      (joinComma ((y :: ys).map (fun z => ssA (jsize z) z)) ++ ']' :: rest2) with
                   | .ok (xs2, rest5) => .ok (canon x :: xs2, rest5)
                   | .error e => .error e) := rfl
              rw [hred, htail]
        have hfe : (joinComma ((e :: es).map (fun x => ssA (jsize x) x))).length + 1 < f := by
          rw [List.length_cons, List.length_append] at hf
          simp only [List.length_cons, List.length_nil] at hf
          omega
        have hkey := helems (e :: es) (by simp) hszL f rest hfe
        obtain ⟨c0, t0, hct, hws, hnb⟩ := ssA_head e
        have hjc2 : ∃ tl, joinComma ((e :: es).map (fun x => ssA (jsize x) x)) =
            ssA (jsize e) e ++ tl := by
          cases es with
          | nil => exact ⟨[], by simp [joinComma]⟩
          | cons y ys =>
            exact ⟨',' :: joinComma ((y :: ys).map (fun x => ssA (jsize x) x)), rfl⟩
        obtain ⟨tl, htl⟩ := hjc2
        have hskip : skipWs (joinComma ((e :: es).map (fun x => ssA (jsize x) x)) ++
            ']' :: rest) =
            joinComma ((e :: es).map (fun x => ssA (jsize x) x)) ++ ']' :: rest := by
          rw [htl, hct]
          rw [show ((c0 :: t0) ++ tl) ++ ']' :: rest = c0 :: ((t0 ++ tl) ++ ']' :: rest) by
            simp [List.append_assoc]]
          exact skipWs_no _ hws
        have hshape2 : ('[' :: (joinComma ((e :: es).map (fun x => ssA (jsize x) x)) ++
            [']'])) ++ rest =
            '[' :: (joinComma ((e :: es).map (fun x => ssA (jsize x) x)) ++ ']' :: rest) := by
          simp [List.append_assoc]
        rw [hshape2]
        have hred2 : parseVal (f + 1)
            ('[' :: (joinComma ((e :: es).map (fun x => ssA (jsize x) x)) ++ ']' :: rest)) =
            (match skipWs (joinComma ((e :: es).map (fun x => ssA (jsize x) x)) ++
                ']' :: rest) with
             | ']' :: rest2 => (.ok (.jarr [], rest2) : Except String (Json × List Char))
             | _ =>
               match parseElems f
                   (joinComma ((e :: es).map (fun x => ssA (jsize x) x)) ++ ']' :: rest) with
               | .ok (xs2, rest2) => .ok (.jarr xs2, rest2)
               | .error e => .error e) := rfl
        rw [hred2, hskip]
        split
        · rename_i rest3 heq
          rw [htl, hct] at heq
          rw [show ((c0 :: t0) ++ tl) ++ ']' :: rest = c0 :: ((t0 ++ tl) ++ ']' :: rest) by
            simp [List.append_assoc]] at heq
          exact absurd (List.cons.injEq _ _ _ _ ▸ heq).1 hnb
        · rw [hkey]
    | jobj kvs =>
      have hj : jsize (Json.jobj kvs) = jsizeM kvs + 1 := by simp [jsize]
      have hsortsz : ∀ kv ∈ sortMembers kvs, jsize kv.2 ≤ jsizeM kvs :=
        fun kv hkv => jsize_le_jsizeM kvs kv ((sortMembers_perm kvs).subset hkv)
      have hcanon : canon (Json.jobj kvs) =
          .jobj ((sortMembers kvs).map (fun kv => (kv.1, canon kv.2))) := by
        unfold canon
        rw [hj]
        simp only [canonA]
        congr 1
        rw [sortMembers_map_comm (fun kv => (kv.1, canonA (jsizeM kvs) kv.2)) (fun p => rfl) kvs]
        apply List.map_congr_left
        intro kv hkv
        rw [canonA_eq_jsize (jsizeM kvs) kv.2 (hsortsz kv hkv)]
      have hrender : ssA (jsize (Json.jobj kvs)) (Json.jobj kvs) =
          '\x7b' :: (joinComma ((sortMembers kvs).map
            (fun kv => renderStrL kv.1 ++ ':' :: ssA (jsize kv.2) kv.2)) ++ ['\x7d']) := by
        rw [hj]
        simp only [ssA]
        have hmap : List.map
            (fun kv : String × Json => renderStrL kv.1 ++ ':' :: ssA (jsizeM kvs) kv.2)
            (sortMembers kvs) =
            List.map
            (fun kv : String × Json => renderStrL kv.1 ++ ':' :: ssA (jsize kv.2) kv.2)
            (sortMembers kvs) := by
          apply List.map_congr_left
          intro kv hkv
          dsimp only
          rw [ssA_eq_jsize (jsizeM kvs) kv.2 (hsortsz kv hkv)]
        rw [hmap]
      rw [hrender] at hf ⊢
      rw [hcanon]
      have hmembers : ∀ l : List (String × Json), l ≠ [] →
          (∀ kv ∈ l, jsize kv.2 ≤ jsizeM kvs) →
          ∀ fuel2 : Nat, ∀ rest2 : List Char,
          (joinComma (l.map (fun kv => renderStrL kv.1 ++ ':' :: ssA (jsize kv.2) kv.2))).length
            + 1 < fuel2 →
          parseMembers fuel2
            ((joinComma (l.map (fun kv => renderStrL kv.1 ++ ':' :: ssA (jsize kv.2) kv.2))) ++
              '\x7d' :: rest2) =
            .ok (l.map (fun kv => (kv.1, canon kv.2)), rest2) := by
        intro l
        induction l with
        | nil => intro hne; exact absurd rfl hne
        | cons kv kvs2 ihl =>
          obtain ⟨k, v⟩ := kv
          intro hne hsz fuel2 rest2 hf2
          have hxlt : jsize v < n := by
            have := hsz (k, v) (List.mem_cons_self _ _)
            simp only at this
            omega
          cases fuel2 with
          | zero => exact absurd hf2 (Nat.not_lt_zero _)
          | succ f2 =>
          cases kvs2 with
          | nil =>
            have hjc : joinComma (((k, v) :: []).map
                (fun kv => renderStrL kv.1 ++ ':' :: ssA (jsize kv.2) kv.2)) =
                renderStrL k ++ ':' :: ssA (jsize v) v := rfl
            rw [hjc] at hf2 ⊢
            have hflen : (ssA (jsize v) v).length < f2 := by
              rw [List.length_append, List.length_cons] at hf2
              omega
            have hv := IH (jsize v) hxlt v f2 ('\x7d' :: rest2) le_rfl hflen rfl
            have hshape : (renderStrL k ++ ':' :: ssA (jsize v) v) ++ '\x7d' :: rest2 =
                '"' :: (k.toList.flatMap escapeChar ++
                  '"' :: (':' :: (ssA (jsize v) v ++ '\x7d' :: rest2))) := by
              show (('"' :: (k.toList.flatMap escapeChar ++ ['"'])) ++
                ':' :: ssA (jsize v) v) ++ '\x7d' :: rest2 = _
              simp [List.append_assoc]
            rw [hshape]
            have hred : parseMembers (f2 + 1)
                ('"' :: (k.toList.flatMap escapeChar ++
                  '"' :: (':' :: (ssA (jsize v) v ++ '\x7d' :: rest2)))) =
                (match parseStrBody []
                    (k.toList.flatMap escapeChar ++
                      '"' :: (':' :: (ssA (jsize v) v ++ '\x7d' :: rest2))) with
                 | .error e => (.error e : Except String (List (String × Json) × List Char))
                 | .ok (k2, rest3) =>
                   match skipWs rest3 with
                   | ':' :: rest4 =>
                     (match parseVal f2 rest4 with
                      | .error e => .error e
                      | .ok (v2, rest5) =>
                        match skipWs rest5 with
                        | ',' :: rest6 =>
                          (match parseMembers f2 rest6 with
                           | .ok (kvs3, rest7) => .ok ((k2, v2) :: kvs3, rest7)
                           | .error e => .error e)
                        | '\x7d' :: rest6 => .ok ([(k2, v2)], rest6)
                        | _ => .error "expected comma or closing brace")
                   | _ => .error "expected colon") := rfl
            rw [hred, parseStrBody_renderStr k (':' :: (ssA (jsize v) v ++ '\x7d' :: rest2))]
            have hred2 : (match (Except.ok (k, ':' :: (ssA (jsize v) v ++ '\x7d' :: rest2)) :
                  Except String (String × List Char)) with
                | .error e => (.error e : Except String (List (String × Json) × List Char))
                | .ok (k2, rest3) =>
                  match skipWs rest3 with
                  | ':' :: rest4 =>
                    (match parseVal f2 rest4 with
                     | .error e => .error e
                     | .ok (v2, rest5) =>
                       match skipWs rest5 with
                       | ',' :: rest6 =>
                         (match parseMembers f2 rest6 with
                          | .ok (kvs3, rest7) => .ok ((k2, v2) :: kvs3, rest7)
                          | .error e => .error e)
                       | '\x7d' :: rest6 => .ok ([(k2, v2)], rest6)
                       | _ => .error "expected comma or closing brace")
                  | _ => .error "expected colon") =
                (match parseVal f2 (ssA (jsize v) v ++ '\x7d' :: rest2) with
                 | .error e => (.error e : Except String (List (String × Json) × List Char))
                 | .ok (v2, rest5) =>
                   match skipWs rest5 with
                   | ',' :: rest6 =>
                     (match parseMembers f2 rest6 with
                      | .ok (kvs3, rest7) => .ok ((k, v2) :: kvs3, rest7)
                      | .error e => .error e)
                   | '\x7d' :: rest6 => .ok ([(k, v2)], rest6)
                   | _ => .error "expected comma or closing brace") := rfl
            rw [hred2, hv]
            rfl
          | cons kv2 kvtl2 =>
            have hjc : joinComma (((k, v) :: kv2 :: kvtl2).map
                (fun kv => renderStrL kv.1 ++ ':' :: ssA (jsize kv.2) kv.2)) =
                (renderStrL k ++ ':' :: ssA (jsize v) v) ++ ',' ::
                  joinComma ((kv2 :: kvtl2).map
                    (fun kv => renderStrL kv.1 ++ ':' :: ssA (jsize kv.2) kv.2)) := rfl
            rw [hjc] at hf2 ⊢
            have hlen2 : (ssA (jsize v) v).length < f2 ∧
                (joinComma ((kv2 :: kvtl2).map
                  (fun kv => renderStrL kv.1 ++ ':' :: ssA (jsize kv.2) kv.2))).length + 1
                  < f2 := by
              rw [List.length_append, List.length_append, List.length_cons,
                List.length_cons] at hf2
              omega
            have hv := IH (jsize v) hxlt v f2
              (',' :: (joinComma ((kv2 :: kvtl2).map
                  (fun kv => renderStrL kv.1 ++ ':' :: ssA (jsize kv.2) kv.2)) ++
                '\x7d' :: rest2)) le_rfl hlen2.1 rfl
            have htail := ihl (by simp)
              (fun z hz => hsz z (List.mem_cons_of_mem _ hz)) f2 rest2 hlen2.2
            have hshape : ((renderStrL k ++ ':' :: ssA (jsize v) v) ++ ',' ::
                joinComma ((kv2 :: kvtl2).map
                  (fun kv => renderStrL kv.1 ++ ':' :: ssA (jsize kv.2) kv.2))) ++
                '\x7d' :: rest2 =
                '"' :: (k.toList.flatMap escapeChar ++
                  '"' :: (':' :: (ssA (jsize v) v ++
                    ',' :: (joinComma ((kv2 :: kvtl2).map
                      (fun kv => renderStrL kv.1 ++ ':' :: ssA (jsize kv.2) kv.2)) ++
                      '\x7d' :: rest2)))) := by
              show ((('"' :: (k.toList.flatMap escapeChar ++ ['"'])) ++
                ':' :: ssA (jsize v) v) ++ ',' :: _) ++ '\x7d' :: rest2 = _
              simp [List.append_assoc]
            rw [hshape]
            have hred : parseMembers (f2 + 1)
                ('"' :: (k.toList.flatMap escapeChar ++
                  '"' :: (':' :: (ssA (jsize v) v ++
                    ',' :: (joinComma ((kv2 :: kvtl2).map
                      (fun kv => renderStrL kv.1 ++ ':' :: ssA (jsize kv.2) kv.2)) ++
                      '\x7d' :: rest2))))) =
                (match parseStrBody []
                    (k.toList.flatMap escapeChar ++
                      '"' :: (':' :: (ssA (jsize v) v ++
                        ',' :: (joinComma ((kv2 :: kvtl2).map
                          (fun kv => renderStrL kv.1 ++ ':' :: ssA (jsize kv.2) kv.2)) ++
                          '\x7d' :: rest2)))) with
                 | .error e => (.error e : Except String (List (String × Json) × List Char))
                 | .ok (k2, rest3) =>
                   match skipWs rest3 with
                   | ':' :: rest4 =>
                     (match parseVal f2 rest4 with
                      | .error e => .error e
                      | .ok (v2, rest5) =>
                        match skipWs rest5 with
                        | ',' :: rest6 =>
                          (match parseMembers f2 rest6 with
                           | .ok (kvs3, rest7) => .ok ((k2, v2) :: kvs3, rest7)
                           | .error e => .error e)
                        | '\x7d' :: rest6 => .ok ([(k2, v2)], rest6)
                        | _ => .error "expected comma or closing brace")
                   | _ => .error "expected colon") := rfl
            rw [hred, parseStrBody_renderStr k (':' :: (ssA (jsize v) v ++
              ',' :: (joinComma ((kv2 :: kvtl2).map
                (fun kv => renderStrL kv.1 ++ ':' :: ssA (jsize kv.2) kv.2)) ++
                '\x7d' :: rest2)))]
            have hmid : (match (Except.ok (k, ':' :: (ssA (jsize v) v ++
                  ',' :: (joinComma ((kv2 :: kvtl2).map
                    (fun kv => renderStrL kv.1 ++ ':' :: ssA (jsize kv.2) kv.2)) ++
                    '\x7d' :: rest2))) : Except String (String × List Char)) with
                | .error e => (.error e : Except String (List (String × Json) × List Char))
                | .ok (k2, rest3) =>
                  match skipWs rest3 with
                  | ':' :: rest4 =>
                    (match parseVal f2 rest4 with
                     | .error e => .error e
                     | .ok (v2, rest5) =>
                       match skipWs rest5 with
                       | ',' :: rest6 =>
                         (match parseMembers f2 rest6 with
                          | .ok (kvs3, rest7) => .ok ((k2, v2) :: kvs3, rest7)
                          | .error e => .error e)
                       | '\x7d' :: rest6 => .ok ([(k2, v2)], rest6)
                       | _ => .error "expected comma or closing brace")
                  | _ => .error "expected colon") =
                (match parseVal f2 (ssA (jsize v) v ++
                    ',' :: (joinComma ((kv2 :: kvtl2).map
                      (fun kv => renderStrL kv.1 ++ ':' :: ssA (jsize kv.2) kv.2)) ++
                      '\x7d' :: rest2)) with
                 | .error e => (.error e : Except String (List (String × Json) × List Char))
                 | .ok (v2, rest5) =>
                   match skipWs rest5 with
                   | ',' :: rest6 =>
                     (match parseMembers f2 rest6 with
                      | .ok (kvs3, rest7) => .ok ((k, v2) :: kvs3, rest7)
                      | .error e => .error e)
                   | '\x7d' :: rest6 => .ok ([(k, v2)], rest6)
                   | _ => .error "expected comma or closing brace") := rfl
            rw [hmid, hv]
            have hmid2 : (match (Except.ok (canon v,
                  ',' :: (joinComma ((kv2 :: kvtl2).map
                    (fun kv => renderStrL kv.1 ++ ':' :: ssA (jsize kv.2) kv.2)) ++
                    '\x7d' :: rest2)) : Except String (Json × List Char)) with
                 | .error e => (.error e : Except String (List (String × Json) × List Char))
                 | .ok (v2, rest5) =>
                   match skipWs rest5 with
                   | ',' :: rest6 =>
                     (match parseMembers f2 rest6 with
                      | .ok (kvs3, rest7) => .ok ((k, v2) :: kvs3, rest7)
                      | .error e => .error e)
                   | '\x7d' :: rest6 => .ok ([(k, v2)], rest6)
                   | _ => .error "expected comma or closing brace") =
                (match parseMembers f2 (joinComma ((kv2 :: kvtl2).map
                    (fun kv => renderStrL kv.1 ++ ':' :: ssA (jsize kv.2) kv.2)) ++
                    '\x7d' :: rest2) with
                 | .ok (kvs3, rest7) => .ok ((k, canon v) :: kvs3, rest7)
                 | .error e =>
                   (.error e : Except String (List (String × Json) × List Char))) := rfl
            rw [hmid2, htail]
            rfl
      cases hsm : sortMembers kvs with
      | nil => rfl
      | cons kv0 kvtl =>
        rw [hsm] at hf
        have hsz0 : ∀ kv ∈ kv0 :: kvtl, jsize kv.2 ≤ jsizeM kvs := by
          intro kv hkv
          exact hsortsz kv (hsm ▸ hkv)
        have hfe : (joinComma ((kv0 :: kvtl).map
            (fun kv => renderStrL kv.1 ++ ':' :: ssA (jsize kv.2) kv.2))).length + 1 < f := by
          rw [List.length_cons, List.length_append] at hf
          simp only [List.length_cons, List.length_nil] at hf
          omega
        have hkey := hmembers (kv0 :: kvtl) (by simp) hsz0 f rest hfe
        have hjc2 : ∃ tl2, joinComma ((kv0 :: kvtl).map
            (fun kv => renderStrL kv.1 ++ ':' :: ssA (jsize kv.2) kv.2)) =
            (renderStrL kv0.1 ++ ':' :: ssA (jsize kv0.2) kv0.2) ++ tl2 := by
          cases kvtl with
          | nil => exact ⟨[], by simp [joinComma]⟩
          | cons y ys =>
            refine ⟨',' :: joinComma ((y :: ys).map
              (fun kv : String × Json => renderStrL kv.1 ++ ':' :: ssA (jsize kv.2) kv.2)), ?_⟩
            rfl
        obtain ⟨tl2, htl2⟩ := hjc2
        have hhd : ∃ Y, joinComma ((kv0 :: kvtl).map
            (fun kv => renderStrL kv.1 ++ ':' :: ssA (jsize kv.2) kv.2)) ++
            '\x7d' :: rest = '"' :: Y := by
          refine ⟨(kv0.1.toList.flatMap escapeChar ++ ['"'] ++
            ':' :: ssA (jsize kv0.2) kv0.2 ++ tl2) ++ '\x7d' :: rest, ?_⟩
          rw [htl2]
          show (('"' :: (kv0.1.toList.flatMap escapeChar ++ ['"'])) ++
            ':' :: ssA (jsize kv0.2) kv0.2 ++ tl2) ++ '\x7d' :: rest = _
          simp [List.append_assoc]
        obtain ⟨Y, hY⟩ := hhd
        have hskip : skipWs (joinComma ((kv0 :: kvtl).map
            (fun kv => renderStrL kv.1 ++ ':' :: ssA (jsize kv.2) kv.2)) ++
            '\x7d' :: rest) =
            joinComma ((kv0 :: kvtl).map
              (fun kv => renderStrL kv.1 ++ ':' :: ssA (jsize kv.2) kv.2)) ++
            '\x7d' :: rest := by
          rw [hY]
          exact skipWs_no _ (by decide)
        have hshape2 : ('\x7b' :: (joinComma ((kv0 :: kvtl).map
            (fun kv => renderStrL kv.1 ++ ':' :: ssA (jsize kv.2) kv.2)) ++ ['\x7d'])) ++
            rest =
            '\x7b' :: (joinComma ((kv0 :: kvtl).map
              (fun kv => renderStrL kv.1 ++ ':' :: ssA (jsize kv.2) kv.2)) ++
              '\x7d' :: rest) := by
          simp [List.append_assoc]
        rw [hshape2]
        have hred2 : parseVal (f + 1)
            ('\x7b' :: (joinComma ((kv0 :: kvtl).map
              (fun kv => renderStrL kv.1 ++ ':' :: ssA (jsize kv.2) kv.2)) ++
              '\x7d' :: rest)) =
            (match skipWs (joinComma ((kv0 :: kvtl).map
                (fun kv => renderStrL kv.1 ++ ':' :: ssA (jsize kv.2) kv.2)) ++
                '\x7d' :: rest) with
             | '\x7d' :: rest2 => (.ok (.jobj [], rest2) : Except String (Json × List Char))
             | _ =>
               match parseMembers f
                   (joinComma ((kv0 :: kvtl).map
                     (fun kv => renderStrL kv.1 ++ ':' :: ssA (jsize kv.2) kv.2)) ++
                     '\x7d' :: rest) with
               | .ok (kvs2, rest2) => .ok (.jobj kvs2, rest2)
               | .error e => .error e) := rfl
        rw [hred2, hskip]
        split
        · rename_i rest3 heq
          rw [hY] at heq
          exact absurd (List.cons.injEq _ _ _ _ ▸ heq).1 (by decide)
        · rw [hkey]

theorem jsizeM_eq_sum : ∀ l : List (String × Json),
    jsizeM l = (l.map (fun kv => jsize kv.2)).sum := by
  intro l
  induction l with
  | nil => simp [jsizeM]
  | cons a t ih => simp [jsizeM, ih]

theorem jsizeM_perm {l1 l2 : List (String × Json)} (h : List.Perm l1 l2) :
    jsizeM l1 = jsizeM l2 := by
  rw [jsizeM_eq_sum, jsizeM_eq_sum]
  exact (h.map _).sum_eq

/-- Canonicalization preserves sizes. -/
theorem jsize_canonA : ∀ n : Nat, ∀ x : Json, jsize x ≤ n →
    jsize (canonA n x) = jsize x := by
  intro n
  induction n using Nat.strong_induction_on with
  | _ n IH =>
    intro x hn
    cases x with
    | jnull => cases n <;> rfl
    | jbool b => cases n <;> rfl
    | jnum q => cases n <;> simp [canonA, jsize]
    | jstr s => cases n <;> rfl
    | jarr xs =>
      cases n with
      | zero => simp [jsize] at hn
      | succ m =>
        have hm : jsizeL xs + 1 ≤ m + 1 := by
          have : jsize (Json.jarr xs) = jsizeL xs + 1 := by simp [jsize]
          omega
        simp only [canonA, jsize]
        have hL : ∀ l : List Json, (∀ x ∈ l, jsize x ≤ m) →
            jsizeL (l.map (canonA m)) = jsizeL l := by
          intro l
          induction l with
          | nil => intro _; rfl
          | cons a t iht =>
            intro hl
            simp only [List.map_cons, jsizeL]
            rw [IH m (by omega) a (hl a (List.mem_cons_self _ _)),
              iht (fun y hy => hl y (List.mem_cons_of_mem _ hy))]
        rw [hL xs (fun y hy => by
          have := jsize_le_jsizeL xs y hy
          omega)]
    | jobj kvs =>
      cases n with
      | zero => simp [jsize] at hn
      | succ m =>
        have hm : jsizeM kvs + 1 ≤ m + 1 := by
          have : jsize (Json.jobj kvs) = jsizeM kvs + 1 := by simp [jsize]
          omega
        simp only [canonA, jsize]
        rw [jsizeM_perm (sortMembers_perm (kvs.map (fun kv => (kv.1, canonA m kv.2))))]
        have hM : ∀ l : List (String × Json), (∀ kv ∈ l, jsize kv.2 ≤ m) →
            jsizeM (l.map (fun kv => (kv.1, canonA m kv.2))) = jsizeM l := by
          intro l
          induction l with
          | nil => intro _; rfl
          | cons a t iht =>
            intro hl
            simp only [List.map_cons, jsizeM]
            rw [IH m (by omega) a.2 (hl a (List.mem_cons_self _ _)),
              iht (fun y hy => hl y (List.mem_cons_of_mem _ hy))]
        rw [hM kvs (fun kv hkv => by
          have := jsize_le_jsizeM kvs kv hkv
          omega)]

theorem jsize_canon (x : Json) : jsize (canon x) = jsize x :=
  jsize_canonA (jsize x) x le_rfl

/-- A key-preserving map keeps the member list sorted. -/
theorem pairwise_jsKeyLe_map {l : List (String × Json)}
    (g : (String × Json) → (String × Json)) (hg : ∀ p, (g p).1 = p.1)
    (h : List.Pairwise jsKeyLe l) : List.Pairwise jsKeyLe (l.map g) := by
  refine List.Pairwise.map g ?_ h
  intro a b hab
  unfold jsKeyLe at hab ⊢
  rw [hg a, hg b]
  exact hab

theorem canon_arr (xs : List Json) : canon (Json.jarr xs) = .jarr (xs.map canon) := by
  unfold canon
  rw [show jsize (Json.jarr xs) = jsizeL xs + 1 from by simp [jsize]]
  simp only [canonA]
  congr 1
  apply List.map_congr_left
  intro x hx
  rw [canonA_eq_jsize (jsizeL xs) x (jsize_le_jsizeL xs x hx)]

theorem canon_obj (kvs : List (String × Json)) :
    canon (Json.jobj kvs) = .jobj ((sortMembers kvs).map (fun kv => (kv.1, canon kv.2))) := by
  unfold canon
  rw [show jsize (Json.jobj kvs) = jsizeM kvs + 1 from by simp [jsize]]
  simp only [canonA]
  congr 1
  rw [sortMembers_map_comm (fun kv => (kv.1, canonA (jsizeM kvs) kv.2)) (fun p => rfl) kvs]
  apply List.map_congr_left
  intro kv hkv
  rw [canonA_eq_jsize (jsizeM kvs) kv.2
    (jsize_le_jsizeM kvs kv ((sortMembers_perm kvs).subset hkv))]

/-- The canonicalized value has sorted keys at every depth. -/
theorem sortedKeys_canon_aux : ∀ n : Nat, ∀ x : Json, jsize x ≤ n → SortedKeys (canon x) := by
  intro n
  induction n using Nat.strong_induction_on with
  | _ n IH =>
    intro x hn
    cases x with
    | jnull => exact SortedKeys.jnull
    | jbool b => exact SortedKeys.jbool b
    | jnum q => exact SortedKeys.jnum _
    | jstr s => exact SortedKeys.jstr s
    | jarr xs =>
      rw [canon_arr]
      refine SortedKeys.jarr _ ?_
      intro y hy
      obtain ⟨x0, hx0, rfl⟩ := List.mem_map.mp hy
      have hsz : jsize x0 ≤ jsizeL xs := jsize_le_jsizeL xs x0 hx0
      have hx0n : jsize x0 < n := by
        have : jsize (Json.jarr xs) = jsizeL xs + 1 := by simp [jsize]
        omega
      exact IH (jsize x0) hx0n x0 le_rfl
    | jobj kvs =>
      rw [canon_obj]
      refine SortedKeys.jobj _ ?_ ?_
      · exact pairwise_jsKeyLe_map _ (fun p => rfl) (sortMembers_sorted kvs)
      · intro kv hkv
        obtain ⟨kv0, hkv0, rfl⟩ := List.mem_map.mp hkv
        have hsz : jsize kv0.2 ≤ jsizeM kvs :=
          jsize_le_jsizeM kvs kv0 ((sortMembers_perm kvs).subset hkv0)
        have hn2 : jsize kv0.2 < n := by
          have : jsize (Json.jobj kvs) = jsizeM kvs + 1 := by simp [jsize]
          omega
        exact IH (jsize kv0.2) hn2 kv0.2 le_rfl

/-- Rendering of the canonicalized value equals the canonical rendering. -/
theorem ssA_canon_aux : ∀ n : Nat, ∀ x : Json, jsize x ≤ n →
    ssA (jsize (canon x)) (canon x) = ssA (jsize x) x := by
  intro n
  induction n using Nat.strong_induction_on with
  | _ n IH =>
    intro x hn
    cases x with
    | jnull => rfl
    | jbool b => rfl
    | jnum q =>
      show renderNumL (canonNum q) = renderNumL q
      exact renderNumL_canonNum q
    | jstr s => rfl
    | jarr xs =>
      rw [canon_arr]
      have hj1 : jsize (Json.jarr (xs.map canon)) = jsizeL (xs.map canon) + 1 := by
        simp [jsize]
      have hj2 : jsize (Json.jarr xs) = jsizeL xs + 1 := by simp [jsize]
      rw [hj1, hj2]
      simp only [ssA]
      rw [List.map_map]
      have hszn : ∀ x0 ∈ xs, jsize x0 < n := by
        intro x0 hx0
        have := jsize_le_jsizeL xs x0 hx0
        omega
      have hmapeq : xs.map (ssA (jsizeL (xs.map canon)) ∘ canon) =
          xs.map (ssA (jsizeL xs)) := by
        apply List.map_congr_left
        intro x0 hx0
        show ssA (jsizeL (xs.map canon)) (canon x0) = ssA (jsizeL xs) x0
        have hle1 : jsize (canon x0) ≤ jsizeL (xs.map canon) := by
          have : canon x0 ∈ xs.map canon := List.mem_map_of_mem canon hx0
          exact jsize_le_jsizeL _ _ this
        rw [ssA_eq_jsize _ _ hle1,
          IH (jsize x0) (hszn x0 hx0) x0 le_rfl,
          ← ssA_eq_jsize (jsizeL xs) x0 (jsize_le_jsizeL xs x0 hx0)]
      rw [hmapeq]
    | jobj kvs =>
      rw [canon_obj]
      have hj1 : jsize (Json.jobj ((sortMembers kvs).map (fun kv => (kv.1, canon kv.2)))) =
          jsizeM ((sortMembers kvs).map (fun kv => (kv.1, canon kv.2))) + 1 := by
        simp [jsize]
      have hj2 : jsize (Json.jobj kvs) = jsizeM kvs + 1 := by simp [jsize]
      rw [hj1, hj2]
      simp only [ssA]
      have hsorted2 : List.Sorted jsKeyLe
          ((sortMembers kvs).map (fun kv => (kv.1, canon kv.2))) :=
        pairwise_jsKeyLe_map _ (fun p => rfl) (sortMembers_sorted kvs)
      rw [show sortMembers ((sortMembers kvs).map (fun kv => (kv.1, canon kv.2))) =
          (sortMembers kvs).map (fun kv => (kv.1, canon kv.2)) from
        List.Sorted.insertionSort_eq hsorted2]
      rw [List.map_map]
      have hszn : ∀ kv ∈ sortMembers kvs, jsize kv.2 < n := by
        intro kv hkv
        have := jsize_le_jsizeM kvs kv ((sortMembers_perm kvs).subset hkv)
        omega
      have hmapeq : (sortMembers kvs).map
          ((fun kv => renderStrL kv.1 ++ ':' ::
            ssA (jsizeM ((sortMembers kvs).map (fun kv => (kv.1, canon kv.2)))) kv.2) ∘
            (fun kv => (kv.1, canon kv.2))) =
          (sortMembers kvs).map
            (fun kv => renderStrL kv.1 ++ ':' :: ssA (jsizeM kvs) kv.2) := by
        apply List.map_congr_left
        intro kv hkv
        show renderStrL kv.1 ++ ':' ::
            ssA (jsizeM ((sortMembers kvs).map (fun kv => (kv.1, canon kv.2)))) (canon kv.2) =
          renderStrL kv.1 ++ ':' :: ssA (jsizeM kvs) kv.2
        have hle1 : jsize (canon kv.2) ≤
            jsizeM ((sortMembers kvs).map (fun kv => (kv.1, canon kv.2))) := by
          have hmem : (kv.1, canon kv.2) ∈
              (sortMembers kvs).map (fun kv => (kv.1, canon kv.2)) :=
            List.mem_map_of_mem _ hkv
          have := jsize_le_jsizeM _ _ hmem
          exact this
        rw [ssA_eq_jsize _ _ hle1,
          IH (jsize kv.2) (hszn kv hkv) kv.2 le_rfl,
          ← ssA_eq_jsize (jsizeM kvs) kv.2
            (jsize_le_jsizeM kvs kv ((sortMembers_perm kvs).subset hkv))]
      rw [hmapeq]

/-- C9: The canonical serializer is idempotent and canonical: for every JSON value x,
parsing `stableStringify x` succeeds and yields the canonicalized value `canon x`,
whose object key lists are lexicographically sorted (by UTF-16 code units) at every
depth; arrays keep their element order (canonicalization maps them pointwise); and
re-serializing the parsed value reproduces the identical string, so
`stableStringify (parse (stableStringify x)) = stableStringify x`. -/
theorem c9_stable_stringify_canonical (x : Json) :
    jsonParse (stableStringify x) = .ok (canon x) ∧
    SortedKeys (canon x) ∧
    (∀ xs : List Json, canon (Json.jarr xs) = .jarr (xs.map canon)) ∧
    stableStringify (canon x) = stableStringify x := by
  refine ⟨?_, sortedKeys_canon_aux (jsize x) x le_rfl, canon_arr, ?_⟩
  · show (match parseVal ((stableStringify x).length + 1) (stableStringify x).toList with
      | .ok (j, rest) =>
        if (skipWs rest).isEmpty then Except.ok j
        else Except.error "unexpected trailing characters"
      | .error e => Except.error e) = Except.ok (canon x)
    have hlist : (stableStringify x).toList = ssA (jsize x) x := rfl
    have hlen : (stableStringify x).length = (ssA (jsize x) x).length := rfl
    rw [hlist, hlen]
    have h1 := rt_val_aux (jsize x) x ((ssA (jsize x) x).length + 1) [] le_rfl
      (by omega) rfl
    rw [List.append_nil] at h1
    rw [h1]
    rfl
  · show String.mk (ssA (jsize (canon x)) (canon x)) = String.mk (ssA (jsize x) x)
    rw [ssA_canon_aux (jsize x) x le_rfl]
